import Mathlib

/-! BibleTime verse keys.

A shallow embedding of `src/backend/keys/cswordversekey.cpp` (class `CSwordVerseKey`).

`CSwordVerseKey` derives from the Sword library class `sword::VerseKey`.  The Sword
library is linked against and is not part of the repository, so every Sword operation
the class calls is a field of the record `Sword` below and the embedded methods take
that record as their first argument.  Results that hold for every `Sword` are facts
about the control flow of the repository code alone; results that need more say which
behaviour of the library they use.

Conventions.
* A C string argument is an `Option String`: `none` is the null pointer.
* A call that dereferences a null module pointer or trips a `Q_ASSERT` has no result:
  the embedded methods return `Option`, and `none` is such a fault.
* The notifications `beforeChanged` / `afterChanged` are appended to the field
  `signals` of the key, each with the position a listener would read from the key at
  the moment of emission.
-/

/-! ## Data model -/

/-- Position held by a `sword::VerseKey`: the values of `getTestament()`, `getBook()`,
`getChapter()` and `getVerse()`. -/
structure Position where
  testament : Int
  book : Int
  chapter : Int
  verse : Int
deriving DecidableEq, Repr

/-- State of the `sword::VerseKey` base sub-object as far as `CSwordVerseKey` observes it:
the position and the one-shot error flag (true when Sword's error code is non-zero). -/
structure VerseKey where
  pos : Position
  error : Bool
deriving DecidableEq, Repr

/-- Modelled from the spec: `SWKey::popError()` of the Sword library, the accessor of the
"one-shot error flag" of spec section 4.1; it returns the flag and clears it. -/
def VerseKey.popError (v : VerseKey) : Bool × VerseKey :=
  (v.error, { v with error := false })

/-- Values of `CSwordModuleInfo::ModuleType`. -/
inductive ModuleType where
  | Bible
  | Commentary
  | Lexicon
  | GenericBook
  | Unknown
deriving DecidableEq, Repr

/-- The Sword module behind `m_module->module()`: its cursor key, the cursor's
intro-headings flag, the module's skip-consecutive-links flag and the module's own
error flag. -/
structure SWModule where
  key : VerseKey
  intros : Bool
  skipConsecutiveLinks : Bool
  error : Bool
deriving DecidableEq, Repr

/-- `SWModule::popError()`: returns the module's error flag and clears it. -/
def SWModule.popError (m : SWModule) : Bool × SWModule :=
  (m.error, { m with error := false })

/-- What `CSwordVerseKey` reads from a `CSwordBibleModuleInfo`. -/
structure CSwordBibleModuleInfo where
  lowerBound : VerseKey
  upperBound : VerseKey
  hasOldTestament : Bool
  hasNewTestament : Bool
deriving DecidableEq, Repr

/-- A module as `CSwordVerseKey` sees it: `type()`, the result of
`dynamic_cast<const CSwordBibleModuleInfo*>` (`none` when the cast yields null) and
`module()` (`none` when the Sword module pointer is null). -/
structure CSwordModuleInfo where
  type : ModuleType
  bible : Option CSwordBibleModuleInfo
  module : Option SWModule
deriving DecidableEq, Repr

/-- Change notification, tagged with the position of the key when it was emitted. -/
inductive Signal where
  | beforeChanged (p : Position)
  | afterChanged (p : Position)
deriving DecidableEq, Repr

/-- Values a `JumpType` argument can take: the three enumerators, and `Other` for any
value outside them (the `default:` label of the two `switch` statements). -/
inductive JumpType where
  | UseBook
  | UseChapter
  | UseVerse
  | Other
deriving DecidableEq, Repr

/-- A `CSwordVerseKey` object: the `sword::VerseKey` base, the module pointer `m_module`
of the `CSwordKey` base (`none` is null) and the notifications emitted so far, oldest
first. -/
structure CSwordVerseKey where
  vk : VerseKey
  m_module : Option CSwordModuleInfo
  signals : List Signal
deriving DecidableEq, Repr

/-- The operations of the Sword library that `CSwordVerseKey` calls.  None of them is
defined in the repository; they are parameters of the embedding.
`BMAX i` is `BMAX[i]`, `compare a b` is `a._compare(b)`, `positionFrom v text` is
`v.positionFrom(text)` for a C string, the four setters are `VerseKey::setTestament`
and so on (with auto-normalisation, whatever it does), the five from `setIntros` to
`getKeyText` act on the Sword module and its cursor key, and `setBookName` and
`getBookName` are the `VerseKey` methods of these names.  Numbers are passed as
integers; the narrowing to the parameter types of the library (`char` for testament and
book) is part of the operation. -/
structure Sword where
  BMAX : Int → Int
  setTestament : VerseKey → Int → VerseKey
  setBook : VerseKey → Int → VerseKey
  setChapter : VerseKey → Int → VerseKey
  setVerse : VerseKey → Int → VerseKey
  positionFrom : VerseKey → String → VerseKey
  getText : VerseKey → String
  compare : VerseKey → VerseKey → Int
  setIntros : SWModule → Bool → SWModule
  setCursorText : SWModule → String → SWModule
  increment : SWModule → SWModule
  decrement : SWModule → SWModule
  getKeyText : SWModule → String
  setBookName : VerseKey → String → VerseKey
  getBookName : VerseKey → String

/-! ## The methods of `CSwordVerseKey` -/

/-- `CSwordKey::emitBeforeChanged()`. -/
def CSwordVerseKey.emitBeforeChanged (k : CSwordVerseKey) : CSwordVerseKey :=
  { k with signals := k.signals ++ [Signal.beforeChanged k.vk.pos] }

/-- `CSwordKey::emitAfterChanged()`. -/
def CSwordVerseKey.emitAfterChanged (k : CSwordVerseKey) : CSwordVerseKey :=
  { k with signals := k.signals ++ [Signal.afterChanged k.vk.pos] }

/-- `positionFrom(text)` called on the key (the inherited `VerseKey::positionFrom`). -/
def CSwordVerseKey.positionFrom (S : Sword) (k : CSwordVerseKey) (text : String) :
    CSwordVerseKey :=
  { k with vk := S.positionFrom k.vk text }

/-- `popError()` called on the key: the flag read, and the key with the flag cleared. -/
def CSwordVerseKey.popError (k : CSwordVerseKey) : Bool × CSwordVerseKey :=
  (k.vk.error, { k with vk := k.vk.popError.2 })

/-- `CSwordVerseKey::key()` (line 118) and `rawKey()` (line 122): both are `getText()`. -/
def CSwordVerseKey.key (S : Sword) (k : CSwordVerseKey) : String :=
  S.getText k.vk

/-- `dynamic_cast<const CSwordBibleModuleInfo*>(module())`. -/
def CSwordVerseKey.bibleInfo (k : CSwordVerseKey) : Option CSwordBibleModuleInfo :=
  match k.m_module with
  | none => none
  | some m => m.bible

/-- Lines 134-150 of `CSwordVerseKey::setKey(const char *)`: everything before the final
`emitAfterChanged()`.  `none` is a fault (`m->type()` through a null `m`, or the
`Q_ASSERT` of line 144). -/
def CSwordVerseKey.setKeyParse (S : Sword) (k : CSwordVerseKey) (newKey : Option String) :
    Option CSwordVerseKey :=
  match newKey with
  | none => some k
  | some text =>
    if text ≠ "" then
      some (k.emitBeforeChanged.positionFrom S text)
    else
      match k.m_module with
      | none => none
      | some m =>
        if m.type = ModuleType.Bible then
          match m.bible with
          | none => none
          | some bible =>
            some (k.emitBeforeChanged.positionFrom S (S.getText bible.lowerBound))
        else
          some k

/-- `CSwordVerseKey::setKey(const char *)`, lines 130-155.  `setKey(const QString &)`
(line 126) is this function at `some text`. -/
def CSwordVerseKey.setKey (S : Sword) (k : CSwordVerseKey) (newKey : Option String) :
    Option (Bool × CSwordVerseKey) :=
  match k.setKeyParse S newKey with
  | none => none
  | some k1 =>
    let r := k1.emitAfterChanged.popError
    some (!r.1, r.2)

/-- `setKey(bound)` for a bound of type `CSwordVerseKey` (lines 231, 237, 318, 324): the
argument converts through `SWKey::operator const char *()`, that is `getText()`. -/
def CSwordVerseKey.setKeyTo (S : Sword) (k : CSwordVerseKey) (bound : VerseKey) :
    Option (Bool × CSwordVerseKey) :=
  k.setKey S (some (S.getText bound))

/-- Lines 227-249 of `next`, and the identical lines 314-336 of `previous`: the clamp to
the bounds of a Bible module, the error test of an unbound key and the final
notification.  `ret` is the value of the local variable `ret` on entry. -/
def CSwordVerseKey.postStep (S : Sword) (k : CSwordVerseKey) (ret : Bool) :
    Option (Bool × CSwordVerseKey) :=
  match k.bibleInfo with
  | some bible =>
    let low : Option (Bool × CSwordVerseKey) :=
      if S.compare k.vk bible.lowerBound < 0 then
        (k.emitBeforeChanged.setKeyTo S bible.lowerBound).map (fun r => (false, r.2))
      else some (ret, k)
    match low with
    | none => none
    | some (ret1, k1) =>
      let up : Option (Bool × CSwordVerseKey) :=
        if S.compare k1.vk bible.upperBound > 0 then
          (k1.emitBeforeChanged.setKeyTo S bible.upperBound).map (fun r => (false, r.2))
        else some (ret1, k1)
      match up with
      | none => none
      | some (ret2, k2) => some (ret2, k2.emitAfterChanged)
  | none =>
    let r := k.popError
    if r.1 then some (false, r.2)
    else some (ret, r.2.emitAfterChanged)

/-- The key with the Sword module behind `m_module` replaced by `sw`. -/
def CSwordVerseKey.withSwModule (k : CSwordVerseKey) (m : CSwordModuleInfo) (sw : SWModule) :
    CSwordVerseKey :=
  { k with m_module := some { m with module := some sw } }

/-- `CSwordVerseKey::next`, lines 157-250. -/
def CSwordVerseKey.next (S : Sword) (k0 : CSwordVerseKey) (type : JumpType) :
    Option (Bool × CSwordVerseKey) :=
  let k := k0.popError.2
  match type with
  | JumpType.UseBook =>
    let currentTestament := k.vk.pos.testament
    let currentBook := k.vk.pos.book
    if currentTestament = 2 ∧ currentBook ≥ S.BMAX (currentTestament - 1) then
      some (false, k)
    else if currentTestament = 1 ∧ currentBook ≥ S.BMAX (currentTestament - 1) then
      CSwordVerseKey.postStep S
        { k with vk := S.setBook (S.setTestament k.vk (currentTestament + 1)) 1 } true
    else
      CSwordVerseKey.postStep S { k with vk := S.setBook k.vk (k.vk.pos.book + 1) } true
  | JumpType.UseChapter =>
    CSwordVerseKey.postStep S { k with vk := S.setChapter k.vk (k.vk.pos.chapter + 1) } true
  | JumpType.UseVerse =>
    match k.m_module with
    | some m =>
      match m.module with
      | some sw =>
        let oldStatus := sw.skipConsecutiveLinks
        let sw1 := { sw with skipConsecutiveLinks := true }
        let oldHeadingsStatus := sw1.intros
        let sw2 := S.setIntros sw1 true
        let sw3 := S.setCursorText sw2 (k.key S)
        let sw4 := S.increment sw3
        let sw5 := S.setIntros sw4 oldHeadingsStatus
        let sw6 := { sw5 with skipConsecutiveLinks := oldStatus }
        let e := sw6.popError
        if !e.1 then
          match (k.withSwModule m e.2).setKey S (some (S.getKeyText e.2)) with
          | none => none
          | some r => CSwordVerseKey.postStep S r.2 true
        else
          CSwordVerseKey.postStep S
            (k.withSwModule m (S.setCursorText e.2 (k.key S))) false
      | none =>
        CSwordVerseKey.postStep S { k with vk := S.setVerse k.vk (k.vk.pos.verse + 1) } true
    | none =>
      CSwordVerseKey.postStep S { k with vk := S.setVerse k.vk (k.vk.pos.verse + 1) } true
  | JumpType.Other => some (false, k)

/-- `CSwordVerseKey::previous`, lines 252-337. -/
def CSwordVerseKey.previous (S : Sword) (k : CSwordVerseKey) (type : JumpType) :
    Option (Bool × CSwordVerseKey) :=
  match type with
  | JumpType.UseBook =>
    if k.vk.pos.book = 1 ∧ k.vk.pos.testament = 1 then
      some (false, k)
    else if k.vk.pos.book = 1 ∧ k.vk.pos.testament = 2 then
      CSwordVerseKey.postStep S
        { k with vk := S.setBook (S.setTestament k.vk 1) (S.BMAX 0) } true
    else
      CSwordVerseKey.postStep S { k with vk := S.setBook k.vk (k.vk.pos.book - 1) } true
  | JumpType.UseChapter =>
    CSwordVerseKey.postStep S { k with vk := S.setChapter k.vk (k.vk.pos.chapter - 1) } true
  | JumpType.UseVerse =>
    match k.m_module with
    | some m =>
      match m.module with
      | some sw =>
        let oldHeadingsStatus := sw.intros
        let sw1 := S.setIntros sw true
        let sw2 := S.setCursorText sw1 (k.key S)
        let oldStatus := sw2.skipConsecutiveLinks
        let sw3 := { sw2 with skipConsecutiveLinks := true }
        let sw4 := S.decrement sw3
        let sw5 := S.setIntros sw4 oldHeadingsStatus
        let sw6 := { sw5 with skipConsecutiveLinks := oldStatus }
        let e := sw6.popError
        if !e.1 then
          match (k.withSwModule m e.2).setKey S (some (S.getKeyText e.2)) with
          | none => none
          | some r => CSwordVerseKey.postStep S r.2 true
        else
          CSwordVerseKey.postStep S
            (k.withSwModule m (S.setCursorText e.2 (k.key S))) false
      | none =>
        CSwordVerseKey.postStep S { k with vk := S.setVerse k.vk (k.vk.pos.verse - 1) } true
    | none =>
      CSwordVerseKey.postStep S { k with vk := S.setVerse k.vk (k.vk.pos.verse - 1) } true
  | JumpType.Other => some (false, k)

/-- Outcome of the `switch` statement of `next` (lines 163-225) and of `previous` (lines
257-312): a fault, a `return false` from inside the switch, or control reaching the code
after the switch with `ret` and the key as the step has left them. -/
inductive SwitchResult where
  | fault
  | returned (k : CSwordVerseKey)
  | stepped (ret : Bool) (k : CSwordVerseKey)
deriving DecidableEq, Repr

/-- Lines 157-225 of `next`: the entry `popError()` and the `switch` statement. -/
def CSwordVerseKey.nextSwitch (S : Sword) (k0 : CSwordVerseKey) (type : JumpType) :
    SwitchResult :=
  let k := k0.popError.2
  match type with
  | JumpType.UseBook =>
    let currentTestament := k.vk.pos.testament
    let currentBook := k.vk.pos.book
    if currentTestament = 2 ∧ currentBook ≥ S.BMAX (currentTestament - 1) then
      SwitchResult.returned k
    else if currentTestament = 1 ∧ currentBook ≥ S.BMAX (currentTestament - 1) then
      SwitchResult.stepped true
        { k with vk := S.setBook (S.setTestament k.vk (currentTestament + 1)) 1 }
    else
      SwitchResult.stepped true { k with vk := S.setBook k.vk (k.vk.pos.book + 1) }
  | JumpType.UseChapter =>
    SwitchResult.stepped true { k with vk := S.setChapter k.vk (k.vk.pos.chapter + 1) }
  | JumpType.UseVerse =>
    match k.m_module with
    | some m =>
      match m.module with
      | some sw =>
        let oldStatus := sw.skipConsecutiveLinks
        let sw1 := { sw with skipConsecutiveLinks := true }
        let oldHeadingsStatus := sw1.intros
        let sw2 := S.setIntros sw1 true
        let sw3 := S.setCursorText sw2 (k.key S)
        let sw4 := S.increment sw3
        let sw5 := S.setIntros sw4 oldHeadingsStatus
        let sw6 := { sw5 with skipConsecutiveLinks := oldStatus }
        let e := sw6.popError
        if !e.1 then
          match (k.withSwModule m e.2).setKey S (some (S.getKeyText e.2)) with
          | none => SwitchResult.fault
          | some r => SwitchResult.stepped true r.2
        else
          SwitchResult.stepped false (k.withSwModule m (S.setCursorText e.2 (k.key S)))
      | none =>
        SwitchResult.stepped true { k with vk := S.setVerse k.vk (k.vk.pos.verse + 1) }
    | none =>
      SwitchResult.stepped true { k with vk := S.setVerse k.vk (k.vk.pos.verse + 1) }
  | JumpType.Other => SwitchResult.returned k

/-- Lines 252-312 of `previous`: the `switch` statement. -/
def CSwordVerseKey.previousSwitch (S : Sword) (k : CSwordVerseKey) (type : JumpType) :
    SwitchResult :=
  match type with
  | JumpType.UseBook =>
    if k.vk.pos.book = 1 ∧ k.vk.pos.testament = 1 then
      SwitchResult.returned k
    else if k.vk.pos.book = 1 ∧ k.vk.pos.testament = 2 then
      SwitchResult.stepped true
        { k with vk := S.setBook (S.setTestament k.vk 1) (S.BMAX 0) }
    else
      SwitchResult.stepped true { k with vk := S.setBook k.vk (k.vk.pos.book - 1) }
  | JumpType.UseChapter =>
    SwitchResult.stepped true { k with vk := S.setChapter k.vk (k.vk.pos.chapter - 1) }
  | JumpType.UseVerse =>
    match k.m_module with
    | some m =>
      match m.module with
      | some sw =>
        let oldHeadingsStatus := sw.intros
        let sw1 := S.setIntros sw true
        let sw2 := S.setCursorText sw1 (k.key S)
        let oldStatus := sw2.skipConsecutiveLinks
        let sw3 := { sw2 with skipConsecutiveLinks := true }
        let sw4 := S.decrement sw3
        let sw5 := S.setIntros sw4 oldHeadingsStatus
        let sw6 := { sw5 with skipConsecutiveLinks := oldStatus }
        let e := sw6.popError
        if !e.1 then
          match (k.withSwModule m e.2).setKey S (some (S.getKeyText e.2)) with
          | none => SwitchResult.fault
          | some r => SwitchResult.stepped true r.2
        else
          SwitchResult.stepped false (k.withSwModule m (S.setCursorText e.2 (k.key S)))
      | none =>
        SwitchResult.stepped true { k with vk := S.setVerse k.vk (k.vk.pos.verse - 1) }
    | none =>
      SwitchResult.stepped true { k with vk := S.setVerse k.vk (k.vk.pos.verse - 1) }
  | JumpType.Other => SwitchResult.returned k

/-- The code after the `switch` statement, applied to the outcome of the switch: `next`
is `finish` of `nextSwitch` and `previous` is `finish` of `previousSwitch`
(`next_eq_finish`, `previous_eq_finish`). -/
def CSwordVerseKey.finish (S : Sword) : SwitchResult → Option (Bool × CSwordVerseKey)
  | SwitchResult.fault => none
  | SwitchResult.returned k => some (false, k)
  | SwitchResult.stepped ret k => CSwordVerseKey.postStep S k ret

/-- `CSwordVerseKey::setModule`, lines 54-74.  Modules are records here and carry no
address, so the value of the pointer comparison `m_module == newModule` of line 58 is
the argument `same`.  `none` is a fault: an assertion of line 57 or 59 that fails, or
`bible->lowerBound()` through a null `bible`. -/
def CSwordVerseKey.setModule (S : Sword) (k : CSwordVerseKey)
    (newModule : Option CSwordModuleInfo) (same : Bool) : Option CSwordVerseKey :=
  match newModule with
  | none => none
  | some m =>
    if same then some k
    else if m.type = ModuleType.Bible ∨ m.type = ModuleType.Commentary then
      let k1 : CSwordVerseKey := { k with m_module := some m }
      match m.bible with
      | none => none
      | some bible =>
        let low : Option CSwordVerseKey :=
          if S.compare k1.vk bible.lowerBound < 0 then
            (k1.setKeyTo S bible.lowerBound).map (fun r => r.2)
          else some k1
        match low with
        | none => none
        | some k2 =>
          if S.compare k2.vk bible.upperBound > 0 then
            (k2.setKeyTo S bible.upperBound).map (fun r => r.2)
          else some k2
    else none

/-- The pair `(min, max)` computed by lines 79-103 of `book`. -/
def CSwordVerseKey.testamentRange (k : CSwordVerseKey) : Int × Int :=
  match k.bibleInfo with
  | some bible =>
    if bible.hasOldTestament = true ∧ bible.hasNewTestament = true then (0, 1)
    else if bible.hasOldTestament = true ∧ ¬ bible.hasNewTestament = true then (0, 0)
    else if ¬ bible.hasOldTestament = true ∧ bible.hasNewTestament = true then (1, 1)
    else if ¬ bible.hasOldTestament = true ∧ ¬ bible.hasNewTestament = true then (0, -1)
    else (0, 1)
  | none => (0, 1)

/-- `CSwordVerseKey::book`, lines 77-115: the string returned (`none` is `QString::null`)
and the key afterwards.  The default argument `QString::null` is the empty string. -/
def CSwordVerseKey.book (S : Sword) (k : CSwordVerseKey) (newBook : String) :
    Option String × CSwordVerseKey :=
  let range := k.testamentRange
  let k1 : CSwordVerseKey :=
    if newBook ≠ "" then { k with vk := S.setBookName k.vk newBook } else k
  if k1.vk.pos.testament ≥ range.1 + 1 ∧ k1.vk.pos.testament ≤ range.2 + 1 ∧
      k1.vk.pos.book ≤ S.BMAX range.1 then
    (some (S.getBookName k1.vk), k1)
  else (none, k1)

/-- `CSwordVerseKey::rawKey()`, line 122: `return getText();`. -/
def CSwordVerseKey.rawKey (S : Sword) (k : CSwordVerseKey) : String :=
  S.getText k.vk

/-- Lines 189-202 of `next`: the Sword module `sw` after the flags are saved and set, the
cursor is put on the text of the key `k` and stepped forward, and the flags are written
back; `k` is the key after the `popError()` of line 160. -/
def CSwordVerseKey.nextCursor (S : Sword) (k : CSwordVerseKey) (sw : SWModule) : SWModule :=
  let oldStatus := sw.skipConsecutiveLinks
  let sw1 := { sw with skipConsecutiveLinks := true }
  let oldHeadingsStatus := sw1.intros
  let sw2 := S.setIntros sw1 true
  let sw3 := S.setCursorText sw2 (k.key S)
  let sw4 := S.increment sw3
  let sw5 := S.setIntros sw4 oldHeadingsStatus
  { sw5 with skipConsecutiveLinks := oldStatus }

/-- Lines 281-292 of `previous`: the Sword module `sw` after the flags are saved and set,
the cursor is put on the text of the key `k` and stepped backward, and the flags are
written back. -/
def CSwordVerseKey.previousCursor (S : Sword) (k : CSwordVerseKey) (sw : SWModule) :
    SWModule :=
  let oldHeadingsStatus := sw.intros
  let sw1 := S.setIntros sw true
  let sw2 := S.setCursorText sw1 (k.key S)
  let oldStatus := sw2.skipConsecutiveLinks
  let sw3 := { sw2 with skipConsecutiveLinks := true }
  let sw4 := S.decrement sw3
  let sw5 := S.setIntros sw4 oldHeadingsStatus
  { sw5 with skipConsecutiveLinks := oldStatus }

/-! ## `BtModuleChooserBar` (`src/frontend/displaywindow/btmodulechooserbar.cpp`) -/

/-- A `BtModuleChooserBar` as far as `adjustButtonCount` reads and writes it: the list
`m_buttonList` of buttons (each button stands for its address), `m_modules`,
`m_moduleType`, and `nextButton`, the address `new BtModuleChooserButton` yields next. -/
structure BtModuleChooserBar where
  m_buttonList : List Nat
  m_modules : List String
  m_moduleType : ModuleType
  nextButton : Nat
deriving DecidableEq, Repr

/-- `BtModuleChooserBar::addButton`, lines 76-89: a new button is appended to
`m_buttonList` (the widget and signal connections are not part of the state here). -/
def BtModuleChooserBar.addButton (b : BtModuleChooserBar) : BtModuleChooserBar :=
  { b with m_buttonList := b.m_buttonList ++ [b.nextButton], nextButton := b.nextButton + 1 }

/-- The loop of lines 58-60, `n` times `delete m_buttonList.takeFirst()`; `none` when
`takeFirst()` meets an empty list. -/
def BtModuleChooserBar.takeFirstLoop : Nat → BtModuleChooserBar → Option BtModuleChooserBar
  | 0, b => some b
  | n + 1, b =>
    match b.m_buttonList with
    | [] => none
    | _ :: rest => BtModuleChooserBar.takeFirstLoop n { b with m_buttonList := rest }

/-- The loop of lines 64-66, `n` times `addButton()`. -/
def BtModuleChooserBar.addLoop : Nat → BtModuleChooserBar → BtModuleChooserBar
  | 0, b => b
  | n + 1, b => BtModuleChooserBar.addLoop n b.addButton

/-- `BtModuleChooserBar::adjustButtonCount`, lines 45-68.  The counts are far below the
range of `int`, so `buttonCountDifference` is an integer here. -/
def BtModuleChooserBar.adjustButtonCount (b : BtModuleChooserBar) (adjustToZero : Bool) :
    Option BtModuleChooserBar :=
  let d0 : Int :=
    if adjustToZero then (b.m_buttonList.length : Int)
    else (b.m_buttonList.length : Int) - ((b.m_modules.length : Int) + 1)
  let buttonCountDifference : Int :=
    if b.m_moduleType = ModuleType.GenericBook ∧ ¬ adjustToZero = true then
      (1 - (b.m_buttonList.length : Int)) * -1
    else d0
  if buttonCountDifference > 0 then
    BtModuleChooserBar.takeFirstLoop buttonCountDifference.toNat b
  else if buttonCountDifference < 0 then
    some (BtModuleChooserBar.addLoop (buttonCountDifference * -1).toNat b)
  else some b

/-! ## The bookmark items (`src/backend/btbookmarksmodel.cpp`) -/

/-- What the bookmark code uses of `CSwordBackend::instance()` and of `CSwordModuleInfo`
beyond the fields above; neither class is in the repository.  `findModuleByName name` is
`none` when the lookup yields a null pointer, `name m` is `m->name()`. -/
structure CSwordBackend where
  findModuleByName : String → Option CSwordModuleInfo
  name : CSwordModuleInfo → String

/-- The Qt operations the bookmark code calls; they are parameters of the embedding.
`titleFormat a b` is `QString::fromLatin1("%1 (%2)").arg(a).arg(b)`, `trUnknown` is
`QObject::tr("unknown")`, `localeAwareCompare a b` is `a.localeAwareCompare(b)`, and
`qSort lessThan texts` is `qSort` with the comparison `lessThan` on a list of items whose
texts are `texts` (the comparisons of lines 955-963 read nothing but the text): it
yields the new order of the list, as the old indices of the items. -/
structure Qt where
  titleFormat : String → String → String
  trUnknown : String
  localeAwareCompare : String → String → Int
  qSort : (String → String → Bool) → List String → List Nat

/-- `CSwordVerseKey vk(0)` (lines 512 and 555 of the bookmark code): the constructor of
lines 24-35 with a null module.  The `dynamic_cast` of line 28 yields null, so the key
is the default-constructed `sword::VerseKey`, whose state is `v0`, with no module. -/
def CSwordVerseKey.unbound (v0 : VerseKey) : CSwordVerseKey :=
  { vk := v0, m_module := none, signals := [] }

/-- `BookmarkItem::key()`, lines 547-563, of a bookmark with the fields `m_key` and
`m_moduleName`.  `S` holds the Sword operations as they are when `vk` is constructed,
`S2` as they are after `vk.setLocale(...)` of line 557.  `none` is a fault of
`vk.setKey`. -/
def BookmarkItem.key (S S2 : Sword) (B : CSwordBackend) (v0 : VerseKey)
    (m_key m_moduleName : String) : Option String :=
  let englishKeyName := m_key
  match B.findModuleByName m_moduleName with
  | none => some englishKeyName
  | some m =>
    if m.type = ModuleType.Bible ∨ m.type = ModuleType.Commentary then
      match (CSwordVerseKey.unbound v0).setKey S (some englishKeyName) with
      | none => none
      | some r => some (r.2.key S2)
    else some englishKeyName

/-- Dynamic type of a bookmark tree object: a plain `BookmarkItemBase` (as `insertRows`
creates), a `BookmarkItem` with its fields `m_key`, `m_description` and `m_moduleName`,
or a `BookmarkFolder`. -/
inductive ItemKind where
  | base
  | bookmark (m_key m_description m_moduleName : String)
  | folder
deriving DecidableEq, Repr

/-- An object of class `BookmarkItemBase` (lines 61-155) together with the objects below
it: its address, its dynamic type, and the fields `m_parent` (an address, `none` is
null), `m_text` and `m_children`.  The fields `m_flags`, `m_icon` and `m_tooltip` play
no part in the functions embedded here and are left out. -/
inductive BookmarkItemBase where
  | mk (addr : Nat) (kind : ItemKind) (m_parent : Option Nat) (m_text : String)
      (m_children : List BookmarkItemBase)
deriving Repr

/-- Address of the object (the value of a pointer to it). -/
def BookmarkItemBase.addr : BookmarkItemBase → Nat
  | .mk a _ _ _ _ => a

/-- Dynamic type of the object. -/
def BookmarkItemBase.kind : BookmarkItemBase → ItemKind
  | .mk _ k _ _ _ => k

/-- `BookmarkItemBase::parent()`. -/
def BookmarkItemBase.parent : BookmarkItemBase → Option Nat
  | .mk _ _ p _ _ => p

/-- `BookmarkItemBase::text()`. -/
def BookmarkItemBase.text : BookmarkItemBase → String
  | .mk _ _ _ t _ => t

/-- `BookmarkItemBase::children()`; `BookmarkFolder::getChildList()` (lines 458-464)
returns a copy of the same list. -/
def BookmarkItemBase.children : BookmarkItemBase → List BookmarkItemBase
  | .mk _ _ _ _ cs => cs

/-- Whether `dynamic_cast<BookmarkFolder*>` of a pointer to the object succeeds. -/
def BookmarkItemBase.isFolder (i : BookmarkItemBase) : Bool :=
  match i.kind with
  | ItemKind.folder => true
  | _ => false

/-- The object without the objects below it: address, dynamic type, parent and text. -/
def BookmarkItemBase.fields (i : BookmarkItemBase) : Nat × ItemKind × Option Nat × String :=
  (i.addr, i.kind, i.parent, i.text)

/-- `BookmarkItemBase::setParent`. -/
def BookmarkItemBase.setParent : BookmarkItemBase → Option Nat → BookmarkItemBase
  | .mk a k _ t cs, p => .mk a k p t cs

mutual
/-- `BookmarkFolder::hasDescendant`, lines 466-485, called on the folder `this` with a
pointer to an item, given by its address. -/
def BookmarkFolder.hasDescendant : BookmarkItemBase → Nat → Bool
  | .mk addr _ _ _ m_children, item =>
    if addr = item then true
    else if (m_children.map BookmarkItemBase.addr).contains item then true
    else BookmarkFolder.hasDescendantLoop m_children
/-- The `foreach` loop of lines 473-483 over the child list: for a child that is a folder,
`subresult = folder->hasDescendant(childItem)`. -/
def BookmarkFolder.hasDescendantLoop : List BookmarkItemBase → Bool
  | [] => false
  | childItem :: rest =>
    let subresult : Bool :=
      if childItem.isFolder then BookmarkFolder.hasDescendant childItem childItem.addr
      else false
    if subresult = true then true else BookmarkFolder.hasDescendantLoop rest
end

mutual
/-- The documented meaning of `hasDescendant` (doc comment of line 211): "the given item
is this or a direct or indirect subitem of this". -/
def BookmarkItemBase.isThisOrSubitem : BookmarkItemBase → Nat → Bool
  | .mk addr _ _ _ m_children, item =>
    decide (addr = item) || BookmarkItemBase.isSubitemOfAny m_children item
/-- The given item is one of the listed objects or a direct or indirect subitem of one. -/
def BookmarkItemBase.isSubitemOfAny : List BookmarkItemBase → Nat → Bool
  | [], _ => false
  | c :: rest, item =>
    BookmarkItemBase.isThisOrSubitem c item || BookmarkItemBase.isSubitemOfAny rest item
end

/-- The text a `BookmarkItem` gives itself in its constructors (lines 528 and 540):
`QString::fromLatin1("%1 (%2)").arg(key()).arg(module() ? module()->name() :
QObject::tr("unknown"))`; `none` when `key()` faults. -/
def BookmarkItem.defaultText (S S2 : Sword) (B : CSwordBackend) (Q : Qt) (v0 : VerseKey)
    (m_key m_moduleName : String) : Option String :=
  match BookmarkItem.key S S2 B v0 m_key m_moduleName with
  | none => none
  | some k =>
    some (Q.titleFormat k
      (match B.findModuleByName m_moduleName with
        | some m => B.name m
        | none => Q.trUnknown))

mutual
/-- `BookmarkFolder::deepCopy`, lines 487-500, called on the folder `this`.  `next` is the
address `new` yields next; the result is the new folder and the next free address, or
`none` when the copy of a bookmark faults in `key()`. -/
def BookmarkFolder.deepCopy (S S2 : Sword) (B : CSwordBackend) (Q : Qt) (v0 : VerseKey) :
    BookmarkItemBase → Nat → Option (BookmarkItemBase × Nat)
  | .mk _ _ _ m_text m_children, next =>
    match BookmarkFolder.deepCopyLoop S S2 B Q v0 m_children next (next + 1) with
    | none => none
    | some (copies, next1) => some (.mk next ItemKind.folder none m_text copies, next1)
/-- The `foreach` loop of lines 489-498 over the child list; `newFolder` is the address of
the new folder.  A bookmark is copied with the copy constructor of lines 533-541 (the
base fields are copied, then the text is set anew), a folder with `deepCopy`; the copy
gets the new folder as parent in `addChild` and is appended; a child that is neither is
passed over. -/
def BookmarkFolder.deepCopyLoop (S S2 : Sword) (B : CSwordBackend) (Q : Qt) (v0 : VerseKey) :
    List BookmarkItemBase → Nat → Nat → Option (List BookmarkItemBase × Nat)
  | [], _, next => some ([], next)
  | subitem :: rest, newFolder, next =>
    match subitem.kind with
    | ItemKind.bookmark m_key m_description m_moduleName =>
      match BookmarkItem.defaultText S S2 B Q v0 m_key m_moduleName with
      | none => none
      | some text =>
        match BookmarkFolder.deepCopyLoop S S2 B Q v0 rest newFolder (next + 1) with
        | none => none
        | some (copies, next1) =>
          some (.mk next (ItemKind.bookmark m_key m_description m_moduleName)
            (some newFolder) text [] :: copies, next1)
    | ItemKind.folder =>
      match BookmarkFolder.deepCopy S S2 B Q v0 subitem next with
      | none => none
      | some (copy, next1) =>
        match BookmarkFolder.deepCopyLoop S S2 B Q v0 rest newFolder next1 with
        | none => none
        | some (copies, next2) => some (copy.setParent (some newFolder) :: copies, next2)
    | ItemKind.base => BookmarkFolder.deepCopyLoop S S2 B Q v0 rest newFolder next
end

/-- Values of `Qt::SortOrder`. -/
inductive SortOrder where
  | AscendingOrder
  | DescendingOrder
deriving DecidableEq, Repr

/-- `BtBookmarksModelSortAscending`, lines 955-958, on the texts of the two items. -/
def BtBookmarksModelSortAscending (Q : Qt) (t1 t2 : String) : Bool :=
  decide (Q.localeAwareCompare t1 t2 < 0)

/-- `BtBookmarksModelSortDescending`, lines 960-963, on the texts of the two items. -/
def BtBookmarksModelSortDescending (Q : Qt) (t1 t2 : String) : Bool :=
  decide (Q.localeAwareCompare t1 t2 > 0)

/-- The comparison handed to `qSort` in line 985. -/
def BtBookmarksModel.lessThan (Q : Qt) (order : SortOrder) : String → String → Bool :=
  match order with
  | SortOrder.AscendingOrder => BtBookmarksModelSortAscending Q
  | SortOrder.DescendingOrder => BtBookmarksModelSortDescending Q

/-- A list of items put in the order `idx`, a list of indices into it. -/
def BookmarkItemBase.reorder (idx : List Nat) (l : List BookmarkItemBase) :
    List BookmarkItemBase :=
  idx.filterMap (fun i => l.get? i)

/-- Line 985: `qSort(f->children().begin(), f->children().end(), ...)` on the child list
`cs` of a folder. -/
def BtBookmarksModel.sortChildList (Q : Qt) (order : SortOrder)
    (cs : List BookmarkItemBase) : List BookmarkItemBase :=
  BookmarkItemBase.reorder
    (Q.qSort (BtBookmarksModel.lessThan Q order) (cs.map BookmarkItemBase.text)) cs

mutual
/-- Lines 968-996 of `sort` when the folder is the root: every folder found from the root
through child lists (the loop of lines 971-976 visits the children of every item) has
its child list sorted.  The sort of a list reads the texts of its items only, so the
order in which the lists are sorted plays no part. -/
def BtBookmarksModel.sortEvery (Q : Qt) (order : SortOrder) :
    BookmarkItemBase → BookmarkItemBase
  | .mk a k p t cs =>
    .mk a k p t
      (match k with
        | ItemKind.folder =>
          BtBookmarksModel.sortChildList Q order (BtBookmarksModel.sortEveryList Q order cs)
        | _ => BtBookmarksModel.sortEveryList Q order cs)
/-- The items of a list with every folder below them sorted. -/
def BtBookmarksModel.sortEveryList (Q : Qt) (order : SortOrder) :
    List BookmarkItemBase → List BookmarkItemBase
  | [] => []
  | c :: rest => BtBookmarksModel.sortEvery Q order c :: BtBookmarksModel.sortEveryList Q order rest
end

mutual
/-- The item reached from an item along a path of child indices. -/
def BookmarkItemBase.itemAt : BookmarkItemBase → List Nat → Option BookmarkItemBase
  | i, [] => some i
  | .mk _ _ _ _ cs, n :: path => BookmarkItemBase.itemAtList cs n path
/-- The item reached from child `n` of a list along a path. -/
def BookmarkItemBase.itemAtList : List BookmarkItemBase → Nat → List Nat →
    Option BookmarkItemBase
  | [], _, _ => none
  | c :: _, 0, path => BookmarkItemBase.itemAt c path
  | _ :: rest, n + 1, path => BookmarkItemBase.itemAtList rest n path
end

mutual
/-- The tree with the child list of the item at a path replaced by `cs1`. -/
def BookmarkItemBase.withChildrenAt (cs1 : List BookmarkItemBase) :
    BookmarkItemBase → List Nat → BookmarkItemBase
  | .mk a k p t _, [] => .mk a k p t cs1
  | .mk a k p t cs, n :: path => .mk a k p t (BookmarkItemBase.withChildrenAtList cs1 cs n path)
/-- A list with the child list of the item at a path below child `n` replaced. -/
def BookmarkItemBase.withChildrenAtList (cs1 : List BookmarkItemBase) :
    List BookmarkItemBase → Nat → List Nat → List BookmarkItemBase
  | [], _, _ => []
  | c :: rest, 0, path => BookmarkItemBase.withChildrenAt cs1 c path :: rest
  | c :: rest, n + 1, path => c :: BookmarkItemBase.withChildrenAtList cs1 rest n path
end

/-- `BtBookmarksModel::sort`, lines 965-1004, on the tree below `root` (`m_rootItem`).
The index `parent` is the path of child indices from the root to the item it points to;
the empty path is the invalid index, for which `d->item(parent)` is the root.  The
result is the tree afterwards; the signals emitted and the persistent indexes are not
part of it. -/
def BtBookmarksModel.sort (Q : Qt) (root : BookmarkItemBase) (parent : List Nat)
    (order : SortOrder) : BookmarkItemBase :=
  match root.itemAt parent with
  | none => root
  | some f =>
    if f.isFolder then
      match parent with
      | [] => BtBookmarksModel.sortEvery Q order root
      | _ :: _ =>
        root.withChildrenAt (BtBookmarksModel.sortChildList Q order f.children) parent
    else root

/-! ## A reference instance of the Sword operations

The definitions of this section are not translated from the repository: they stand in
for the Sword library, which the repository only links against.  They supply the
concrete inputs at which the results below are evaluated. -/

/-- Book of a versification scheme: its name and the number of verses of each chapter. -/
structure Book where
  name : String
  verseMax : List Nat
deriving DecidableEq, Repr

/-- Modelled from the spec: the "versification scheme" of the glossary, the book, chapter
and verse numbering of the two testaments that the Sword library keeps in its tables
(the table behind `BMAX`); the tables are not in the repository. -/
structure Versification where
  ot : List Book
  nt : List Book
deriving DecidableEq, Repr

/-- Books of testament `t`. -/
def Versification.books (V : Versification) (t : Int) : List Book :=
  if t = 1 then V.ot else if t = 2 then V.nt else []

/-- Modelled from the spec: `BMAX`, the "per-testament array giving the highest valid
book index" of the glossary; a member of `sword::VerseKey`, absent from the repository. -/
def Versification.BMAX (V : Versification) (i : Int) : Int :=
  (V.books (i + 1)).length

/-- Book `b` of testament `t`, when there is one. -/
def Versification.bookAt (V : Versification) (t b : Int) : Option Book :=
  if b < 1 then none else (V.books t).get? (b - 1).toNat

/-- Number of chapters of book `b` of testament `t` (0 when there is no such book). -/
def Versification.chapterMax (V : Versification) (t b : Int) : Int :=
  match V.bookAt t b with
  | some bk => bk.verseMax.length
  | none => 0

/-- Number of verses of chapter `c` of book `b` of testament `t` (0 when there is none). -/
def Versification.verseMaxAt (V : Versification) (t b c : Int) : Int :=
  match V.bookAt t b with
  | some bk => if c < 1 then 0 else ((bk.verseMax.get? (c - 1).toNat).getD 0 : Nat)
  | none => 0

/-- One pass of the carry loop of auto-normalisation: a book, chapter or verse number
outside its range is carried into the next higher unit.  `none` when nothing is out of
range (the loop stops). -/
def Versification.carry (V : Versification) (p : Position) : Option Position :=
  if p.testament < 3 ∧ p.testament > 0 then
    if p.book > V.BMAX (p.testament - 1) then
      some { p with book := p.book - V.BMAX (p.testament - 1), testament := p.testament + 1 }
    else if p.book < 1 then
      if p.testament - 1 > 0 then
        some { p with testament := p.testament - 1,
                      book := p.book + V.BMAX (p.testament - 2) }
      else some { p with testament := p.testament - 1 }
    else if p.chapter > V.chapterMax p.testament p.book then
      some { p with chapter := p.chapter - V.chapterMax p.testament p.book,
                    book := p.book + 1 }
    else if p.chapter < 1 then
      some { p with book := p.book - 1,
                    chapter := p.chapter + V.chapterMax p.testament (p.book - 1) }
    else if p.verse > V.verseMaxAt p.testament p.book p.chapter then
      some { p with verse := p.verse - V.verseMaxAt p.testament p.book p.chapter,
                    chapter := p.chapter + 1 }
    else if p.verse < 1 then
      if p.chapter - 1 < 1 then
        let c := p.chapter - 1 + V.chapterMax p.testament (p.book - 1)
        some { p with book := p.book - 1, chapter := c,
                      verse := p.verse + V.verseMaxAt p.testament (p.book - 1) c }
      else
        some { p with chapter := p.chapter - 1,
                      verse := p.verse + V.verseMaxAt p.testament p.book (p.chapter - 1) }
    else none
  else none

/-- The carry loop, at most `fuel` passes. -/
def Versification.carryLoop (V : Versification) : Nat → Position → Position
  | 0, p => p
  | fuel + 1, p =>
    match V.carry p with
    | none => p
    | some q => Versification.carryLoop V fuel q

/-- Modelled from the spec: the auto-normalisation of `sword::VerseKey` ("invalid
chapter/verse numbers are clamped into range on every mutation, never left dangling",
"chapter to book rollover"); `VerseKey::normalize` is not in the repository.  The error
flag is cleared, out-of-range numbers are carried, and a position that leaves the canon
is put on its last or first verse with the error flag set. -/
def Versification.normalize (V : Versification) (p : Position) : VerseKey :=
  let q := V.carryLoop 256 p
  let last : Int := if V.BMAX 1 = 0 then 1 else 2
  if q.testament > last then
    let b := V.BMAX (last - 1)
    let c := V.chapterMax last b
    { pos := { testament := last, book := b, chapter := c, verse := V.verseMaxAt last b c },
      error := true }
  else if q.testament < 1 then
    { pos := { testament := 1, book := 1, chapter := 1, verse := 1 }, error := true }
  else { pos := q, error := false }

/-- Character of a decimal digit. -/
def digitChar (d : Nat) : Char :=
  match d with
  | 0 => '0' | 1 => '1' | 2 => '2' | 3 => '3' | 4 => '4'
  | 5 => '5' | 6 => '6' | 7 => '7' | 8 => '8' | _ => '9'

/-- Decimal digits of `n`, most significant first (`fuel` bounds the number of digits). -/
def natDigits : Nat → Nat → List Char
  | 0, _ => []
  | fuel + 1, n => if n < 10 then [digitChar n] else natDigits fuel (n / 10) ++ [digitChar (n % 10)]

/-- Value of a decimal digit character. -/
def charDigit (c : Char) : Option Nat :=
  if c = '0' then some 0 else if c = '1' then some 1 else if c = '2' then some 2
  else if c = '3' then some 3 else if c = '4' then some 4 else if c = '5' then some 5
  else if c = '6' then some 6 else if c = '7' then some 7 else if c = '8' then some 8
  else if c = '9' then some 9 else none

/-- Value of a string of decimal digits, read after the value `acc`. -/
def digitsValue : List Char → Nat → Option Nat
  | [], acc => some acc
  | c :: cs, acc =>
    match charDigit c with
    | none => none
    | some d => digitsValue cs (10 * acc + d)

/-- Splits a character list at the first occurrence of `sep`. -/
def splitFirst (sep : Char) : List Char → Option (List Char × List Char)
  | [] => none
  | c :: cs =>
    if c = sep then some ([], cs)
    else (splitFirst sep cs).map (fun r => (c :: r.1, r.2))

/-- Index (from 1) of the book called `name` in a list of books. -/
def bookIndex (name : String) : List Book → Option Nat
  | [] => none
  | bk :: rest => if bk.name = name then some 1 else (bookIndex name rest).map (fun i => i + 1)

/-- Modelled from the spec: the textual key, "a UTF-8 string encoding of a Position";
`VerseKey::getText` is not in the repository.  The form is `Name chapter:verse`. -/
def Versification.getText (V : Versification) (v : VerseKey) : String :=
  let name := match V.bookAt v.pos.testament v.pos.book with
    | some bk => bk.name
    | none => ""
  String.mk (name.data ++ [' '] ++ natDigits 12 v.pos.chapter.toNat ++ [':']
    ++ natDigits 12 v.pos.verse.toNat)

/-- Parses `Name chapter:verse` into a position of the scheme. -/
def Versification.parse (V : Versification) (text : String) : Option Position :=
  match splitFirst ' ' text.data with
  | none => none
  | some (name, rest) =>
    match splitFirst ':' rest with
    | none => none
    | some (cs, vs) =>
      match cs, vs, digitsValue cs 0, digitsValue vs 0 with
      | _ :: _, _ :: _, some c, some vv =>
        match bookIndex (String.mk name) V.ot, bookIndex (String.mk name) V.nt with
        | some b, _ => some { testament := 1, book := b, chapter := c, verse := vv }
        | none, some b => some { testament := 2, book := b, chapter := c, verse := vv }
        | none, none => none
      | _, _, _, _ => none

/-- Modelled from the spec: parsing of a textual key ("parse text into a Position using
the active versification scheme ... On parse failure, internal error state is set");
`VerseKey::positionFrom` is not in the repository. -/
def Versification.positionFrom (V : Versification) (v : VerseKey) (text : String) : VerseKey :=
  match V.parse text with
  | some p => V.normalize p
  | none => { v with error := true }

/-- Sign of the lexicographic comparison of two positions. -/
def Position.compare (a b : Position) : Int :=
  if a.testament ≠ b.testament then (if a.testament < b.testament then -1 else 1)
  else if a.book ≠ b.book then (if a.book < b.book then -1 else 1)
  else if a.chapter ≠ b.chapter then (if a.chapter < b.chapter then -1 else 1)
  else if a.verse ≠ b.verse then (if a.verse < b.verse then -1 else 1)
  else 0

/-- Step of a module cursor by `d` verses: the module takes over the error of its key. -/
def Versification.stepCursor (V : Versification) (m : SWModule) (d : Int) : SWModule :=
  let v := V.normalize { m.key.pos with verse := m.key.pos.verse + d }
  { m with key := { v with error := false }, error := v.error }

/-- Modelled from the spec: "resolve it to a book index", `VerseKey::setBookName`, which
is not in the repository.  A name of the scheme puts the key on the first verse of that
book; any other name raises the error flag and leaves the position alone. -/
def Versification.setBookName (V : Versification) (v : VerseKey) (name : String) : VerseKey :=
  match bookIndex name V.ot, bookIndex name V.nt with
  | some b, _ => V.normalize { testament := 1, book := b, chapter := 1, verse := 1 }
  | none, some b => V.normalize { testament := 2, book := b, chapter := 1, verse := 1 }
  | none, none => { v with error := true }

/-- Name of the current book in the scheme, `VerseKey::getBookName`; empty when the
position is on no book. -/
def Versification.getBookName (V : Versification) (v : VerseKey) : String :=
  match V.bookAt v.pos.testament v.pos.book with
  | some bk => bk.name
  | none => ""

/-- Modelled from the spec: the Sword library operations used by `CSwordVerseKey`, for the
versification scheme `V`; the Sword library is not in the repository.  Each setter
stores its argument, puts the lower units on their first value and normalises. -/
def Versification.sword (V : Versification) : Sword where
  BMAX := V.BMAX
  setTestament := fun _ t => V.normalize { testament := t, book := 1, chapter := 1, verse := 1 }
  setBook := fun v b => V.normalize { v.pos with book := b, chapter := 1, verse := 1 }
  setChapter := fun v c => V.normalize { v.pos with chapter := c, verse := 1 }
  setVerse := fun v n => V.normalize { v.pos with verse := n }
  positionFrom := V.positionFrom
  getText := V.getText
  compare := fun a b => a.pos.compare b.pos
  setIntros := fun m b => { m with intros := b }
  setCursorText := fun m text => { m with key := V.positionFrom m.key text }
  increment := fun m => V.stepCursor m 1
  decrement := fun m => V.stepCursor m (-1)
  getKeyText := fun m => V.getText m.key
  setBookName := V.setBookName
  getBookName := V.getBookName

/-- A small versification scheme: two books in each testament. -/
def demoCanon : Versification where
  ot := [{ name := "Gen", verseMax := [3, 2] }, { name := "Mal", verseMax := [2] }]
  nt := [{ name := "Matt", verseMax := [2, 3] }, { name := "Rev", verseMax := [2] }]

/-- The Sword operations for `demoCanon`. -/
def demoSword : Sword := demoCanon.sword

/-- Key at a position of `demoCanon`, with the given flag and module, no signals yet. -/
def demoKey (t b c n : Int) (err : Bool) (m : Option CSwordModuleInfo) : CSwordVerseKey :=
  { vk := { pos := { testament := t, book := b, chapter := c, verse := n }, error := err },
    m_module := m, signals := [] }

/-- Bounds of a module that holds all of `demoCanon`. -/
def demoBounds : CSwordBibleModuleInfo where
  lowerBound := { pos := { testament := 1, book := 1, chapter := 1, verse := 1 }, error := false }
  upperBound := { pos := { testament := 2, book := 2, chapter := 1, verse := 2 }, error := false }
  hasOldTestament := true
  hasNewTestament := true

/-- A Sword module whose cursor is on the first verse. -/
def demoSwModule : SWModule where
  key := { pos := { testament := 1, book := 1, chapter := 1, verse := 1 }, error := false }
  intros := false
  skipConsecutiveLinks := false
  error := false

/-- A Bible module over all of `demoCanon`. -/
def demoBible : CSwordModuleInfo where
  type := ModuleType.Bible
  bible := some demoBounds
  module := some demoSwModule

/-- A Commentary module over all of `demoCanon`. -/
def demoCommentary : CSwordModuleInfo where
  type := ModuleType.Commentary
  bible := some demoBounds
  module := some demoSwModule

/-- Modelled from the spec: a second display locale for `demoCanon`: the same books,
chapters and verses, with the book names of another language.  The locale tables of the
Sword library are not in the repository. -/
def demoCanonDe : Versification where
  ot := [{ name := "1Mo", verseMax := [3, 2] }, { name := "Mal", verseMax := [2] }]
  nt := [{ name := "Mt", verseMax := [2, 3] }, { name := "Offb", verseMax := [2] }]

/-- The Sword operations for `demoCanon` under the second display locale. -/
def demoSwordDe : Sword := demoCanonDe.sword

/-- A versification scheme whose testament 1 has fewer books than its testament 2. -/
def skewCanon : Versification where
  ot := [{ name := "Gen", verseMax := [3, 2] }]
  nt := [{ name := "Matt", verseMax := [2, 3] }, { name := "Rev", verseMax := [2] }]

/-- The Sword operations for `skewCanon`. -/
def skewSword : Sword := skewCanon.sword

/-- Bounds of a module that holds testament 1 of `demoCanon` only: Gen 1:1 to Mal 1:2. -/
def demoOtBounds : CSwordBibleModuleInfo where
  lowerBound := { pos := { testament := 1, book := 1, chapter := 1, verse := 1 }, error := false }
  upperBound := { pos := { testament := 1, book := 2, chapter := 1, verse := 2 }, error := false }
  hasOldTestament := true
  hasNewTestament := false

/-- A Bible module that holds testament 1 of `demoCanon` only. -/
def demoOtBible : CSwordModuleInfo where
  type := ModuleType.Bible
  bible := some demoOtBounds
  module := some demoSwModule

/-- A backend with one module, the Bible module over all of `demoCanon`, called `KJV`. -/
def demoBackend : CSwordBackend where
  findModuleByName := fun name => if name = "KJV" then some demoBible else none
  name := fun _ => "KJV"

/-- State of a default-constructed `sword::VerseKey`: the first verse. -/
def demoDefaultKey : VerseKey :=
  { pos := { testament := 1, book := 1, chapter := 1, verse := 1 }, error := false }

/-- A bookmark tree: the root folder (address 1) with the empty folder `Psalms` (address
2) and a bookmark with the title `In the beginning` (address 3), whose module `NASB` is
not installed in `demoBackend`. -/
def demoTree : BookmarkItemBase :=
  .mk 1 ItemKind.folder none "Root"
    [.mk 2 ItemKind.folder (some 1) "Psalms" [],
     .mk 3 (ItemKind.bookmark "Gen 1:1" "Creation" "NASB") (some 1) "In the beginning" []]

/-- Comparison of two strings by the order of their characters: negative, zero or
positive. -/
def demoCompare (a b : String) : Int :=
  if a.data < b.data then -1 else if b.data < a.data then 1 else 0

/-- Modelled from the spec: the Qt operations of the bookmark code ("locale-aware
comparison"; a sort that orders the list by the comparison given); Qt is not in the
repository.  The sort is an insertion sort of the indices. -/
def demoQt : Qt where
  titleFormat := fun a b => a ++ " (" ++ b ++ ")"
  trUnknown := "unknown"
  localeAwareCompare := demoCompare
  qSort := fun lessThan texts =>
    List.insertionSort (fun i j => lessThan (texts.getD j "") (texts.getD i "") = false)
      (List.range texts.length)

/-! ## Preconditions and library laws used by the results -/

/-- The `Q_ASSERT` of line 144 holds for `m`: a module whose `type()` is `Bible` is a
`CSwordBibleModuleInfo`. -/
def CSwordModuleInfo.bibleCastOk (m : CSwordModuleInfo) : Prop :=
  m.type = ModuleType.Bible → m.bible ≠ none

/-- The call `setKey(newKey)` on `k` does not fault: when the text is empty, a module is
bound and the `Q_ASSERT` of line 144 holds for it. -/
def CSwordVerseKey.setKeyDefined (k : CSwordVerseKey) (newKey : Option String) : Prop :=
  newKey = some "" → ∃ m, k.m_module = some m ∧ m.bibleCastOk

/-- The module bound to `k`, if any, passes the `Q_ASSERT` of line 144. -/
def CSwordVerseKey.moduleOk (k : CSwordVerseKey) : Prop :=
  ∀ m, k.m_module = some m → m.bibleCastOk

/-- Neither clamp of lines 229-239 (314-325) is triggered for the key `k` when its base
is in state `v`: `v` does not compare below the lower bound or above the upper bound of
the module of `k`; always true of a key whose module is not a `CSwordBibleModuleInfo`. -/
def CSwordVerseKey.withinBounds (S : Sword) (k : CSwordVerseKey) (v : VerseKey) : Prop :=
  ∀ bible, k.bibleInfo = some bible →
    ¬ S.compare v bible.lowerBound < 0 ∧ ¬ S.compare v bible.upperBound > 0

/-- Modelled from the spec: what the Sword setters `setTestament` and `setBook` (absent
from the repository) do with an index that is in range, following the Position invariant
of spec section 3 (`testament` in 1..2, `book` in 1..`BMAX[testament-1]`) and the Book row
of the navigation table: the index is stored, `setTestament` starts at book 1 and
`setBook` stays in the testament.  Nothing is said about chapter and verse. -/
structure Sword.StoresInRange (S : Sword) : Prop where
  setTestament_pos : ∀ (v : VerseKey) (t : Int), (t = 1 ∨ t = 2) → 1 ≤ S.BMAX (t - 1) →
    (S.setTestament v t).pos.testament = t ∧ (S.setTestament v t).pos.book = 1
  setBook_pos : ∀ (v : VerseKey) (b : Int), (v.pos.testament = 1 ∨ v.pos.testament = 2) →
    1 ≤ b → b ≤ S.BMAX (v.pos.testament - 1) →
    (S.setBook v b).pos.testament = v.pos.testament ∧ (S.setBook v b).pos.book = b

/-- Modelled from the spec: the Sword setters `setTestament` and `setBook` (absent from the
repository) raise the error flag only when normalisation fails; with an index that is in
range and the flag clear before, the flag is clear after. -/
structure Sword.QuietInRange (S : Sword) : Prop where
  setTestament_error : ∀ (v : VerseKey) (t : Int), (t = 1 ∨ t = 2) → 1 ≤ S.BMAX (t - 1) →
    v.error = false → (S.setTestament v t).error = false
  setBook_error : ∀ (v : VerseKey) (b : Int), (v.pos.testament = 1 ∨ v.pos.testament = 2) →
    1 ≤ b → b ≤ S.BMAX (v.pos.testament - 1) →
    v.error = false → (S.setBook v b).error = false

/-- Modelled from the spec: the round-trip law of the textual key, "parse(serialize(p)) ==
p for any Position p reachable under the current versification scheme", at the position
of `v`.  `VerseKey::getText` and `VerseKey::positionFrom` are not in the repository: the
text of `v` is not empty, and parsing it, from whatever state, yields the position of `v`
and leaves the error flag clear. -/
def Sword.RoundTrip (S : Sword) (v : VerseKey) : Prop :=
  S.getText v ≠ "" ∧
    ∀ cur : VerseKey, (S.positionFrom cur (S.getText v)).pos = v.pos ∧
      (S.positionFrom cur (S.getText v)).error = false

/-- Modelled from the spec: "text that parses to a valid position" `p`: the text is not
empty and `VerseKey::positionFrom` (absent from the repository), called with the error
flag clear, yields `p` and leaves the flag clear. -/
def Sword.ParsesTo (S : Sword) (text : String) (p : Position) : Prop :=
  text ≠ "" ∧ ∀ cur : VerseKey, cur.error = false →
    (S.positionFrom cur text).pos = p ∧ (S.positionFrom cur text).error = false

/-- Modelled from the spec: `VerseKey::_compare` (absent from the repository) orders
positions, as the spec does when it writes `Position < lowerBound` and "within
`[lowerBound, upperBound]` inclusive": the result depends on the position of its left
argument only (not on the error flag), `a < b` is `b > a`, and "not greater" is
transitive. -/
structure Sword.ComparesPositions (S : Sword) : Prop where
  pos_left : ∀ a b c : VerseKey, a.pos = b.pos → S.compare a c = S.compare b c
  antisymm : ∀ a b : VerseKey, S.compare a b < 0 ↔ S.compare b a > 0
  le_trans : ∀ a b c : VerseKey, ¬ S.compare a b > 0 → ¬ S.compare b c > 0 →
    ¬ S.compare a c > 0

/-- Modelled from the spec: the cursor operations of the Sword module (absent from the
repository) and the two "transient settings" of spec section 5: `setIntros` stores the
intro-headings flag and leaves the skip-consecutive-links flag alone; setting the cursor
text and stepping the cursor leave both flags alone. -/
structure Sword.KeepsCursorFlags (S : Sword) : Prop where
  setIntros_intros : ∀ (m : SWModule) (b : Bool), (S.setIntros m b).intros = b
  setIntros_skip : ∀ (m : SWModule) (b : Bool),
    (S.setIntros m b).skipConsecutiveLinks = m.skipConsecutiveLinks
  setCursorText_flags : ∀ (m : SWModule) (t : String),
    (S.setCursorText m t).intros = m.intros ∧
    (S.setCursorText m t).skipConsecutiveLinks = m.skipConsecutiveLinks
  increment_flags : ∀ m : SWModule,
    (S.increment m).intros = m.intros ∧
    (S.increment m).skipConsecutiveLinks = m.skipConsecutiveLinks
  decrement_flags : ∀ m : SWModule,
    (S.decrement m).intros = m.intros ∧
    (S.decrement m).skipConsecutiveLinks = m.skipConsecutiveLinks

/-- The notifications a call has appended to `old` by the time the key is in state `k`:
none at all, or a sequence whose last element is `afterChanged` at the position of `k`. -/
def CSwordVerseKey.endsWithAfter (old : List Signal) (k : CSwordVerseKey) : Prop :=
  k.signals = old ∨ ∃ pre, k.signals = old ++ pre ++ [Signal.afterChanged k.vk.pos]

/-- Two texts that follow one another in a list sorted in the given order: the first
does not compare greater than the second (ascending), or does not compare less
(descending), under `localeAwareCompare`. -/
def BtBookmarksModel.inOrder (Q : Qt) (order : SortOrder) (a b : String) : Prop :=
  match order with
  | SortOrder.AscendingOrder => ¬ Q.localeAwareCompare a b > 0
  | SortOrder.DescendingOrder => ¬ Q.localeAwareCompare a b < 0

/-- A child list is ordered by item text: every item and its successor are in order. -/
def BtBookmarksModel.ordered (Q : Qt) (order : SortOrder)
    (cs : List BookmarkItemBase) : Prop :=
  List.Chain' (fun a b => BtBookmarksModel.inOrder Q order a.text b.text) cs

/-- Modelled from the spec: what the bookmark code takes from Qt, which is not in the
repository.  `qSort` with one of the two comparisons of lines 955-963 rearranges the
list (the result holds every old index once) and leaves no item before one that the
comparison puts before it; `localeAwareCompare` is a "locale-aware comparison": one
text compares greater than another exactly when the other compares less than it. -/
structure Qt.SortsByText (Q : Qt) : Prop where
  qSort_perm : ∀ (order : SortOrder) (texts : List String),
    (Q.qSort (BtBookmarksModel.lessThan Q order) texts).Perm (List.range texts.length)
  qSort_sorted : ∀ (order : SortOrder) (texts : List String),
    List.Chain'
      (fun i j => BtBookmarksModel.lessThan Q order (texts.getD j "") (texts.getD i "") = false)
      (Q.qSort (BtBookmarksModel.lessThan Q order) texts)
  compare_swap : ∀ a b : String,
    Q.localeAwareCompare a b > 0 ↔ Q.localeAwareCompare b a < 0

/-! ## Results -/

/-- With `setKeyDefined`, the block before the final notification of `setKey` completes. -/
theorem setKeyParse_defined (S : Sword) (k : CSwordVerseKey) (newKey : Option String)
    (h : k.setKeyDefined newKey) : ∃ k1, k.setKeyParse S newKey = some k1 := by
  unfold CSwordVerseKey.setKeyParse
  cases newKey with
  | none => exact ⟨k, rfl⟩
  | some text =>
    by_cases ht : text = ""
    · subst ht
      obtain ⟨m, hm, hok⟩ := h rfl
      simp only [hm, ne_eq, not_true_eq_false, if_false]
      by_cases hty : m.type = ModuleType.Bible
      · cases hb : m.bible with
        | none => exact absurd hb (hok hty)
        | some bible => simp [hty]
      · simp [hty]
    · simp [ht]

/-- The end of `setKey`: after the block of lines 134-150 has left the key in state `k1`,
the call emits `afterChanged`, returns the negation of the flag and clears the flag. -/
theorem setKey_of_parse (S : Sword) (k k1 : CSwordVerseKey) (newKey : Option String)
    (h : k.setKeyParse S newKey = some k1) :
    k.setKey S newKey = some (!k1.vk.error,
      { vk := { pos := k1.vk.pos, error := false }, m_module := k1.m_module,
        signals := k1.signals ++ [Signal.afterChanged k1.vk.pos] }) := by
  simp [CSwordVerseKey.setKey, h, CSwordVerseKey.popError, CSwordVerseKey.emitAfterChanged,
    VerseKey.popError]

/-- The block of lines 134-150 either parses a text (after `beforeChanged`) or leaves the
key as it is. -/
theorem setKeyParse_cases (S : Sword) (k k1 : CSwordVerseKey) (newKey : Option String)
    (h : k.setKeyParse S newKey = some k1) :
    k1 = k ∨ ∃ text, k1 =
      { vk := S.positionFrom k.vk text, m_module := k.m_module,
        signals := k.signals ++ [Signal.beforeChanged k.vk.pos] } := by
  unfold CSwordVerseKey.setKeyParse at h
  cases newKey with
  | none => simp at h; exact Or.inl h.symm
  | some text =>
    by_cases ht : text = ""
    · subst ht
      cases hm : k.m_module with
      | none => simp [hm] at h
      | some m =>
        by_cases hty : m.type = ModuleType.Bible
        · cases hb : m.bible with
          | none => simp [hm, hty, hb] at h
          | some bible =>
            simp [hm, hty, hb, CSwordVerseKey.positionFrom,
              CSwordVerseKey.emitBeforeChanged] at h
            exact Or.inr ⟨S.getText bible.lowerBound, h.symm⟩
        · simp [hm, hty] at h
          exact Or.inl h.symm
    · simp [ht, CSwordVerseKey.positionFrom, CSwordVerseKey.emitBeforeChanged] at h
      exact Or.inr ⟨text, h.symm⟩

/-- C2: Book navigation is terminal at the edge of the canon.  At testament 2 with
`book >= BMAX[1]`, `next(UseBook)` returns false, and at testament 1, book 1,
`previous(UseBook)` returns false; both leave testament, book, chapter and verse as
they were, emit nothing and keep the module.  This holds whatever the Sword library. -/
theorem book_navigation_terminal (S : Sword) (k : CSwordVerseKey) :
    (k.vk.pos.testament = 2 → k.vk.pos.book ≥ S.BMAX 1 →
      ∃ k1, k.next S JumpType.UseBook = some (false, k1) ∧ k1.vk.pos = k.vk.pos ∧
        k1.signals = k.signals ∧ k1.m_module = k.m_module) ∧
    (k.vk.pos.testament = 1 → k.vk.pos.book = 1 →
      ∃ k1, k.previous S JumpType.UseBook = some (false, k1) ∧ k1.vk.pos = k.vk.pos ∧
        k1.signals = k.signals ∧ k1.m_module = k.m_module) := by
  constructor
  · intro ht hb
    refine ⟨k.popError.2, ?_, rfl, rfl, rfl⟩
    have hb2 : ¬ k.vk.pos.book < S.BMAX 1 := not_lt.mpr hb
    simp [CSwordVerseKey.next, CSwordVerseKey.popError, VerseKey.popError, ht, hb2]
  · intro ht hb
    exact ⟨k, by simp [CSwordVerseKey.previous, ht, hb], rfl, rfl, rfl⟩

/-- Witness of C2 on the last book of testament 2 and the first book of testament 1 of
`demoCanon`. -/
theorem book_navigation_terminal_witness :
    (∃ k1, (demoKey 2 2 1 2 false none).next demoSword JumpType.UseBook = some (false, k1) ∧
      k1.vk.pos = (demoKey 2 2 1 2 false none).vk.pos ∧
      k1.signals = (demoKey 2 2 1 2 false none).signals ∧
      k1.m_module = (demoKey 2 2 1 2 false none).m_module) ∧
    (∃ k1, (demoKey 1 1 2 1 true (some demoBible)).previous demoSword JumpType.UseBook =
        some (false, k1) ∧
      k1.vk.pos = (demoKey 1 1 2 1 true (some demoBible)).vk.pos ∧
      k1.signals = (demoKey 1 1 2 1 true (some demoBible)).signals ∧
      k1.m_module = (demoKey 1 1 2 1 true (some demoBible)).m_module) :=
  ⟨(book_navigation_terminal demoSword (demoKey 2 2 1 2 false none)).1 rfl (by decide),
   (book_navigation_terminal demoSword (demoKey 1 1 2 1 true (some demoBible))).2 rfl rfl⟩

/-- C4: round trip between position and textual key.  At a position where the textual
key of the Sword library round-trips (`Sword.RoundTrip`), `setKey(key())` returns true
and leaves the key at the same position. -/
theorem setKey_key_roundtrip (S : Sword) (k : CSwordVerseKey) (h : S.RoundTrip k.vk) :
    ∃ k1, k.setKey S (some (k.key S)) = some (true, k1) ∧ k1.vk.pos = k.vk.pos := by
  obtain ⟨hne, hrt⟩ := h
  have hp : k.setKeyParse S (some (k.key S)) =
      some (k.emitBeforeChanged.positionFrom S (S.getText k.vk)) := by
    simp [CSwordVerseKey.setKeyParse, CSwordVerseKey.key, hne]
  rw [setKey_of_parse S k _ _ hp]
  have h1 := (hrt k.vk).1
  have h2 := (hrt k.vk).2
  simp only [CSwordVerseKey.positionFrom, CSwordVerseKey.emitBeforeChanged, h2, Bool.not_false]
  exact ⟨_, rfl, h1⟩

/-- Witness of C4 at Gen 2:1 of `demoCanon`, on a key bound to a Bible module. -/
theorem setKey_key_roundtrip_witness :
    demoSword.RoundTrip (demoKey 1 1 2 1 false (some demoBible)).vk ∧
    ∃ k1, (demoKey 1 1 2 1 false (some demoBible)).setKey demoSword
        (some ((demoKey 1 1 2 1 false (some demoBible)).key demoSword)) = some (true, k1) ∧
      k1.vk.pos = (demoKey 1 1 2 1 false (some demoBible)).vk.pos :=
  ⟨⟨by decide, fun _ => ⟨rfl, rfl⟩⟩,
   setKey_key_roundtrip demoSword (demoKey 1 1 2 1 false (some demoBible))
     ⟨by decide, fun _ => ⟨rfl, rfl⟩⟩⟩

/-- C5: `setKey(text)` returns true if and only if the error flag is clear when the block
of lines 134-150 (the parse) has finished, and the call consumes the flag: the flag is
clear when `setKey` returns, whatever it returned.  The call completes whenever
`setKeyDefined` holds. -/
theorem setKey_true_iff_no_error (S : Sword) (k : CSwordVerseKey) (newKey : Option String)
    (h : k.setKeyDefined newKey) :
    ∃ k1 r, k.setKeyParse S newKey = some k1 ∧ k.setKey S newKey = some r ∧
      (r.1 = true ↔ k1.vk.error = false) ∧ r.2.vk.error = false := by
  obtain ⟨k1, hk1⟩ := setKeyParse_defined S k newKey h
  refine ⟨k1, _, hk1, setKey_of_parse S k k1 newKey hk1, ?_, rfl⟩
  cases k1.vk.error <;> simp

/-- Witness of C5 on an unparsable text. -/
theorem setKey_true_iff_no_error_witness :
    (demoKey 1 1 2 1 false none).setKeyDefined (some "Gen") ∧
    ∃ k1 r, (demoKey 1 1 2 1 false none).setKeyParse demoSword (some "Gen") = some k1 ∧
      (demoKey 1 1 2 1 false none).setKey demoSword (some "Gen") = some r ∧
      (r.1 = true ↔ k1.vk.error = false) ∧ r.2.vk.error = false :=
  ⟨fun h => absurd h (by decide),
   setKey_true_iff_no_error demoSword (demoKey 1 1 2 1 false none) (some "Gen")
     (fun h => absurd h (by decide))⟩

/-- C7: for every input of `setKey` (a text that parses, one that does not, the empty
text, the null pointer) on which the call completes, the last notification of the call
is `afterChanged`, emitted at the position the key has when the call returns, whatever
the boolean result. -/
theorem setKey_ends_with_afterChanged (S : Sword) (k : CSwordVerseKey)
    (newKey : Option String) (h : k.setKeyDefined newKey) :
    ∃ r pre, k.setKey S newKey = some r ∧
      r.2.signals = k.signals ++ pre ++ [Signal.afterChanged r.2.vk.pos] := by
  obtain ⟨k1, hk1⟩ := setKeyParse_defined S k newKey h
  rcases setKeyParse_cases S k k1 newKey hk1 with hc | ⟨text, hc⟩
  · exact ⟨_, [], setKey_of_parse S k k1 newKey hk1, by simp [hc]⟩
  · exact ⟨_, [Signal.beforeChanged k.vk.pos], setKey_of_parse S k k1 newKey hk1,
      by simp [hc]⟩

/-- Witness of C7 on the null pointer; the key has no module. -/
theorem setKey_ends_with_afterChanged_witness :
    (demoKey 2 1 1 1 true none).setKeyDefined none ∧
    ∃ r pre, (demoKey 2 1 1 1 true none).setKey demoSword none = some r ∧
      r.2.signals = (demoKey 2 1 1 1 true none).signals ++ pre
        ++ [Signal.afterChanged r.2.vk.pos] :=
  ⟨fun h => absurd h (by decide),
   setKey_ends_with_afterChanged demoSword (demoKey 2 1 1 1 true none) none
     (fun h => absurd h (by decide))⟩

/-- C8: on a key bound to a module `m`, `setKey` with the empty text: when `m` is of type
Bible (and the textual key of its lower bound round-trips in the Sword library), the
call emits `beforeChanged` at the old position first, puts the key on the lower bound of
the module and returns true; when `m` is of any other type the position is left
unchanged. -/
theorem setKey_empty_text (S : Sword) (k : CSwordVerseKey) (m : CSwordModuleInfo)
    (hm : k.m_module = some m) :
    (∀ bible, m.type = ModuleType.Bible → m.bible = some bible →
      S.RoundTrip bible.lowerBound →
      ∃ k1, k.setKey S (some "") = some (true, k1) ∧ k1.vk.pos = bible.lowerBound.pos ∧
        k1.signals = k.signals ++ [Signal.beforeChanged k.vk.pos,
          Signal.afterChanged bible.lowerBound.pos]) ∧
    (m.type ≠ ModuleType.Bible →
      ∃ r, k.setKey S (some "") = some r ∧ r.2.vk.pos = k.vk.pos ∧
        r.2.signals = k.signals ++ [Signal.afterChanged k.vk.pos]) := by
  constructor
  · intro bible hty hb hrt
    have hp : k.setKeyParse S (some "") =
        some (k.emitBeforeChanged.positionFrom S (S.getText bible.lowerBound)) := by
      simp [CSwordVerseKey.setKeyParse, hm, hty, hb]
    rw [setKey_of_parse S k _ _ hp]
    have h1 := (hrt.2 k.vk).1
    have h2 := (hrt.2 k.vk).2
    simp only [CSwordVerseKey.positionFrom, CSwordVerseKey.emitBeforeChanged, h2, h1,
      Bool.not_false]
    exact ⟨_, rfl, rfl, by simp⟩
  · intro hty
    have hp : k.setKeyParse S (some "") = some k := by
      simp [CSwordVerseKey.setKeyParse, hm, hty]
    exact ⟨_, setKey_of_parse S k _ _ hp, rfl, rfl⟩

/-- Witness of C8: a key at Mal 1:2 bound to the Bible module, and the same key bound to
the Commentary module. -/
theorem setKey_empty_text_witness :
    (∃ k1, (demoKey 1 2 1 2 false (some demoBible)).setKey demoSword (some "") =
        some (true, k1) ∧ k1.vk.pos = demoBounds.lowerBound.pos ∧
      k1.signals = (demoKey 1 2 1 2 false (some demoBible)).signals ++
        [Signal.beforeChanged (demoKey 1 2 1 2 false (some demoBible)).vk.pos,
          Signal.afterChanged demoBounds.lowerBound.pos]) ∧
    (∃ r, (demoKey 1 2 1 2 false (some demoCommentary)).setKey demoSword (some "") = some r ∧
      r.2.vk.pos = (demoKey 1 2 1 2 false (some demoCommentary)).vk.pos ∧
      r.2.signals = (demoKey 1 2 1 2 false (some demoCommentary)).signals ++
        [Signal.afterChanged (demoKey 1 2 1 2 false (some demoCommentary)).vk.pos]) :=
  ⟨(setKey_empty_text demoSword (demoKey 1 2 1 2 false (some demoBible)) demoBible rfl).1
      demoBounds rfl rfl ⟨by decide, fun _ => ⟨rfl, rfl⟩⟩,
   (setKey_empty_text demoSword (demoKey 1 2 1 2 false (some demoCommentary)) demoCommentary
      rfl).2 (by decide)⟩

/-- C9: error flag isolation.  If `setKey(t1)` returned false and `t2` is a text that
parses to a valid position `p`, then `setKey(t2)` called next on the same key returns
true (and leaves the key at `p`): the first call has consumed its error. -/
theorem setKey_error_isolation (S : Sword) (k : CSwordVerseKey) (t1 : Option String)
    (t2 : String) (p : Position) (r1 : Bool × CSwordVerseKey)
    (h1 : k.setKey S t1 = some r1) (_hf : r1.1 = false) (h2 : S.ParsesTo t2 p) :
    ∃ k2, r1.2.setKey S (some t2) = some (true, k2) ∧ k2.vk.pos = p := by
  have hclear : r1.2.vk.error = false := by
    cases hp : k.setKeyParse S t1 with
    | none => simp [CSwordVerseKey.setKey, hp] at h1
    | some k1 =>
      rw [setKey_of_parse S k k1 t1 hp] at h1
      cases h1
      rfl
  obtain ⟨hne, hparse⟩ := h2
  have hp2 : r1.2.setKeyParse S (some t2) = some (r1.2.emitBeforeChanged.positionFrom S t2) := by
    simp [CSwordVerseKey.setKeyParse, hne]
  rw [setKey_of_parse S r1.2 _ _ hp2]
  have e1 := (hparse r1.2.vk hclear).1
  have e2 := (hparse r1.2.vk hclear).2
  simp only [CSwordVerseKey.positionFrom, CSwordVerseKey.emitBeforeChanged, e1, e2,
    Bool.not_false]
  exact ⟨_, rfl, rfl⟩

/-- Witness of C9: the unparsable text `Gen`, then `Matt 2:3`. -/
theorem setKey_error_isolation_witness :
    (demoKey 1 1 1 1 false none).setKey demoSword (some "Gen") =
      some (false, { vk := { pos := { testament := 1, book := 1, chapter := 1, verse := 1 },
                             error := false },
                     m_module := none,
                     signals := [Signal.beforeChanged
                         { testament := 1, book := 1, chapter := 1, verse := 1 },
                       Signal.afterChanged
                         { testament := 1, book := 1, chapter := 1, verse := 1 }] }) ∧
    demoSword.ParsesTo "Matt 2:3" { testament := 2, book := 1, chapter := 2, verse := 3 } ∧
    ∃ k2, CSwordVerseKey.setKey demoSword
        { vk := { pos := { testament := 1, book := 1, chapter := 1, verse := 1 },
                  error := false },
          m_module := none,
          signals := [Signal.beforeChanged
              { testament := 1, book := 1, chapter := 1, verse := 1 },
            Signal.afterChanged
              { testament := 1, book := 1, chapter := 1, verse := 1 }] }
        (some "Matt 2:3") = some (true, k2) ∧
      k2.vk.pos = { testament := 2, book := 1, chapter := 2, verse := 3 } :=
  ⟨by decide, ⟨by decide, fun _ _ => ⟨rfl, rfl⟩⟩,
   setKey_error_isolation demoSword (demoKey 1 1 1 1 false none) (some "Gen") "Matt 2:3"
     { testament := 2, book := 1, chapter := 2, verse := 3 } _ rfl rfl
     ⟨by decide, fun _ _ => ⟨rfl, rfl⟩⟩⟩

/-- C10: evaluation of the code where the claim fails.  `setKey` with the null pointer,
and `setKey` with the empty text on a key bound to a Commentary module, parse nothing
and return the negation of the error flag the key had on entry: two keys that differ
only in that flag get different results, false when a stale error was pending and true
otherwise, and end in the same state, whatever the Sword library.  Such a flag is left,
for instance, by `next(UseChapter)` on the last chapter of `demoCanon`, which returns
true on a key bound to a Commentary module without consuming the error of the step: the
`setKey` with the empty text that follows returns false. -/
theorem setKey_reports_stale_error (S : Sword) (p : Position)
    (mod : Option CSwordModuleInfo) (b : Option CSwordBibleModuleInfo) (sw : Option SWModule)
    (sig : List Signal) :
    (∃ k1,
      CSwordVerseKey.setKey S
          { vk := { pos := p, error := true }, m_module := mod, signals := sig } none =
        some (false, k1) ∧
      CSwordVerseKey.setKey S
          { vk := { pos := p, error := false }, m_module := mod, signals := sig } none =
        some (true, k1)) ∧
    (∃ k2,
      CSwordVerseKey.setKey S
          { vk := { pos := p, error := true },
            m_module := some { type := ModuleType.Commentary, bible := b, module := sw },
            signals := sig } (some "") =
        some (false, k2) ∧
      CSwordVerseKey.setKey S
          { vk := { pos := p, error := false },
            m_module := some { type := ModuleType.Commentary, bible := b, module := sw },
            signals := sig } (some "") =
        some (true, k2)) ∧
    (∃ k1 k2,
      (demoKey 2 2 1 2 false (some demoCommentary)).next demoSword JumpType.UseChapter =
        some (true, k1) ∧
      k1.vk.error = true ∧ k1.setKey demoSword (some "") = some (false, k2)) := by
  refine ⟨?_, ?_, ?_⟩
  · exact ⟨_, by simp [CSwordVerseKey.setKey, CSwordVerseKey.setKeyParse,
      CSwordVerseKey.popError, CSwordVerseKey.emitAfterChanged, VerseKey.popError], rfl⟩
  · exact ⟨_, by simp [CSwordVerseKey.setKey, CSwordVerseKey.setKeyParse,
      CSwordVerseKey.popError, CSwordVerseKey.emitAfterChanged, VerseKey.popError], rfl⟩
  · exact ⟨_, _, rfl, rfl, rfl⟩

/-- When no clamp is triggered, the common tail of `next` and `previous` completes and
leaves position and module alone; on a key whose module is a `CSwordBibleModuleInfo` it
returns `ret`, on any other key it returns `ret` unless the error flag is set. -/
theorem postStep_within (S : Sword) (k : CSwordVerseKey) (ret : Bool)
    (h : k.withinBounds S k.vk) :
    ∃ r, CSwordVerseKey.postStep S k ret = some r ∧ r.2.vk.pos = k.vk.pos ∧
      r.2.m_module = k.m_module ∧
      (k.bibleInfo = none → r.1 = (ret && !k.vk.error)) ∧
      (k.bibleInfo ≠ none → r.1 = ret) := by
  unfold CSwordVerseKey.postStep
  cases hbi : k.bibleInfo with
  | none =>
    cases he : k.vk.error <;>
      simp [CSwordVerseKey.popError, VerseKey.popError, he, CSwordVerseKey.emitAfterChanged]
  | some bible =>
    obtain ⟨h1, h2⟩ := h bible hbi
    simp [h1, h2, CSwordVerseKey.emitAfterChanged]

/-- C1: Book rollover.  On a key at testament 1, book `BMAX[0]`, that is unbound or bound
to a module whose range holds the first book of testament 2, `next(UseBook)` returns
true and leaves the key at testament 2, book 1.  The Sword setters are assumed to store
an index that is in range without raising the error flag, and testament 2 to have a
book. -/
theorem next_book_rollover (S : Sword) (k : CSwordVerseKey) (hS : S.StoresInRange)
    (hQ : S.QuietInRange) (h2 : 1 ≤ S.BMAX 1)
    (ht : k.vk.pos.testament = 1) (hb : k.vk.pos.book = S.BMAX 0)
    (hin : ∀ u : VerseKey, u.pos.testament = 2 → u.pos.book = 1 → k.withinBounds S u) :
    ∃ k1, k.next S JumpType.UseBook = some (true, k1) ∧
      k1.vk.pos.testament = 2 ∧ k1.vk.pos.book = 1 := by
  have h21 : S.BMAX (2 - 1) = S.BMAX 1 := by norm_num
  have hT := hS.setTestament_pos { pos := k.vk.pos, error := false } 2 (Or.inr rfl)
    (by rw [h21]; exact h2)
  have hTe := hQ.setTestament_error { pos := k.vk.pos, error := false } 2 (Or.inr rfl)
    (by rw [h21]; exact h2) rfl
  have hB := hS.setBook_pos (S.setTestament { pos := k.vk.pos, error := false } 2) 1
    (Or.inr hT.1) le_rfl (by rw [hT.1, h21]; exact h2)
  have hBe := hQ.setBook_error (S.setTestament { pos := k.vk.pos, error := false } 2) 1
    (Or.inr hT.1) le_rfl (by rw [hT.1, h21]; exact h2) hTe
  have hstep : k.next S JumpType.UseBook = CSwordVerseKey.postStep S
      { vk := S.setBook (S.setTestament { pos := k.vk.pos, error := false } 2) 1,
        m_module := k.m_module, signals := k.signals } true := by
    simp [CSwordVerseKey.next, CSwordVerseKey.popError, VerseKey.popError, ht, hb]
  obtain ⟨r, hr, hpos, _, hnone, hsome⟩ := postStep_within S
    { vk := S.setBook (S.setTestament { pos := k.vk.pos, error := false } 2) 1,
      m_module := k.m_module, signals := k.signals } true
    (hin _ (hB.1.trans hT.1) hB.2)
  have hr1 : r.1 = true := by
    by_cases hbi : k.bibleInfo = none
    · have := hnone hbi
      simpa [hBe] using this
    · exact hsome hbi
  refine ⟨r.2, ?_, ?_, ?_⟩
  · rw [hstep, hr, ← hr1]
  · rw [hpos]; exact hB.1.trans hT.1
  · rw [hpos]; exact hB.2

/-- The reference setters of `demoCanon` store an index that is in range. -/
theorem demoSword_storesInRange : demoSword.StoresInRange := by
  constructor
  · intro v t ht _
    rcases ht with rfl | rfl <;> exact ⟨rfl, rfl⟩
  · intro v b ht hb1 hb2
    obtain ⟨⟨t, bk, c, n⟩, e⟩ := v
    simp only at ht hb2 ⊢
    rcases ht with rfl | rfl
    · have h : b ≤ 2 := hb2
      interval_cases b <;> exact ⟨rfl, rfl⟩
    · have h : b ≤ 2 := hb2
      interval_cases b <;> exact ⟨rfl, rfl⟩

/-- The reference setters of `demoCanon` do not raise the error flag on an index that is
in range. -/
theorem demoSword_quietInRange : demoSword.QuietInRange := by
  constructor
  · intro v t ht _ _
    rcases ht with rfl | rfl <;> rfl
  · intro v b ht hb1 hb2 _
    obtain ⟨⟨t, bk, c, n⟩, e⟩ := v
    simp only at ht hb2 ⊢
    rcases ht with rfl | rfl
    · have h : b ≤ 2 := hb2
      interval_cases b <;> rfl
    · have h : b ≤ 2 := hb2
      interval_cases b <;> rfl

/-- The range of `demoBible` holds every position of the first book of testament 2. -/
theorem demoBible_holds_first_nt_book (t b c n : Int) (e : Bool) (u : VerseKey)
    (h1 : u.pos.testament = 2) (h2 : u.pos.book = 1) :
    (demoKey t b c n e (some demoBible)).withinBounds demoSword u := by
  intro bible hb
  have hb2 : bible = demoBounds := by
    simp [CSwordVerseKey.bibleInfo, demoKey, demoBible] at hb
    exact hb.symm
  subst hb2
  obtain ⟨⟨ut, ub, uc, un⟩, ue⟩ := u
  simp only at h1 h2
  subst h1 h2
  simp [demoSword, Versification.sword, Position.compare, demoBounds]

/-- Witness of C1: Mal 1:2, the last verse of testament 1 of `demoCanon`, on a key bound
to the Bible module. -/
theorem next_book_rollover_witness :
    demoSword.StoresInRange ∧ demoSword.QuietInRange ∧ 1 ≤ demoSword.BMAX 1 ∧
    (demoKey 1 2 1 2 false (some demoBible)).vk.pos.testament = 1 ∧
    (demoKey 1 2 1 2 false (some demoBible)).vk.pos.book = demoSword.BMAX 0 ∧
    (∀ u : VerseKey, u.pos.testament = 2 → u.pos.book = 1 →
      (demoKey 1 2 1 2 false (some demoBible)).withinBounds demoSword u) ∧
    ∃ k1, (demoKey 1 2 1 2 false (some demoBible)).next demoSword JumpType.UseBook =
        some (true, k1) ∧ k1.vk.pos.testament = 2 ∧ k1.vk.pos.book = 1 :=
  ⟨demoSword_storesInRange, demoSword_quietInRange, by decide, rfl, rfl,
   fun u h1 h2 => demoBible_holds_first_nt_book 1 2 1 2 false u h1 h2,
   next_book_rollover demoSword (demoKey 1 2 1 2 false (some demoBible))
     demoSword_storesInRange demoSword_quietInRange (by decide) rfl rfl
     (fun u h1 h2 => demoBible_holds_first_nt_book 1 2 1 2 false u h1 h2)⟩

/-- Whether a clamp is triggered depends on the key only through its module. -/
theorem withinBounds_of_module (S : Sword) (k1 k2 : CSwordVerseKey) (u : VerseKey)
    (hm : k2.m_module = k1.m_module) (h : k1.withinBounds S u) : k2.withinBounds S u := by
  intro bible hb
  apply h bible
  simpa [CSwordVerseKey.bibleInfo, hm] using hb

/-- C3, as the claim states it, fails: on the unbound key at Gen 2:3 of `demoCanon`,
`next(UseBook)` and then `previous(UseBook)` both return true and leave the key at
Gen 1:1, not at Gen 2:3; the book setter puts chapter and verse on their first value. -/
theorem next_previous_book_loses_verse :
    ∃ k1 k2, (demoKey 1 1 2 3 false none).next demoSword JumpType.UseBook = some (true, k1) ∧
      k1.previous demoSword JumpType.UseBook = some (true, k2) ∧
      k2.vk.pos = { testament := 1, book := 1, chapter := 1, verse := 1 } ∧
      k2.vk.pos ≠ (demoKey 1 1 2 3 false none).vk.pos :=
  ⟨_, _, rfl, rfl, rfl, by decide⟩

/-- C3, amended: for a position with testament 1 or 2 and book in `1..BMAX[testament-1]`
that is not the last book of testament 2, on a key where no clamp is triggered at the
books visited, `next(UseBook)` followed by `previous(UseBook)` brings the key back to the
testament and the book it started from, also across the testament boundary.  Chapter
and verse are those the Sword setters leave.  The setters are assumed to store an index
that is in range. -/
theorem next_previous_book_restores_book (S : Sword) (k : CSwordVerseKey)
    (hS : S.StoresInRange) (h2 : 1 ≤ S.BMAX 1)
    (ht : k.vk.pos.testament = 1 ∨ k.vk.pos.testament = 2) (hb1 : 1 ≤ k.vk.pos.book)
    (hb2 : k.vk.pos.book ≤ S.BMAX (k.vk.pos.testament - 1))
    (hlast : ¬ (k.vk.pos.testament = 2 ∧ k.vk.pos.book = S.BMAX 1))
    (hin : ∀ u : VerseKey,
      (u.pos.testament = k.vk.pos.testament ∧
        (u.pos.book = k.vk.pos.book ∨ u.pos.book = k.vk.pos.book + 1)) ∨
      (u.pos.testament = 2 ∧ u.pos.book = 1) → k.withinBounds S u) :
    ∃ r1 r2, k.next S JumpType.UseBook = some r1 ∧
      r1.2.previous S JumpType.UseBook = some r2 ∧
      r2.2.vk.pos.testament = k.vk.pos.testament ∧ r2.2.vk.pos.book = k.vk.pos.book := by
  have h21 : S.BMAX (2 - 1) = S.BMAX 1 := by norm_num
  have h11 : S.BMAX (1 - 1) = S.BMAX 0 := by norm_num
  by_cases hroll : k.vk.pos.testament = 1 ∧ k.vk.pos.book ≥ S.BMAX 0
  · -- the last book of testament 1: over to testament 2 and back
    obtain ⟨ht1, hge⟩ := hroll
    have hbeq : k.vk.pos.book = S.BMAX 0 := by
      rw [ht1, h11] at hb2
      exact le_antisymm hb2 hge
    have hT := hS.setTestament_pos { pos := k.vk.pos, error := false } 2 (Or.inr rfl)
      (by rw [h21]; exact h2)
    have hB := hS.setBook_pos (S.setTestament { pos := k.vk.pos, error := false } 2) 1
      (Or.inr hT.1) le_rfl (by rw [hT.1, h21]; exact h2)
    have hstep : k.next S JumpType.UseBook = CSwordVerseKey.postStep S
        { vk := S.setBook (S.setTestament { pos := k.vk.pos, error := false } 2) 1,
          m_module := k.m_module, signals := k.signals } true := by
      simp [CSwordVerseKey.next, CSwordVerseKey.popError, VerseKey.popError, ht1, hge]
    obtain ⟨r1, hr1, hpos1, hmod1, _, _⟩ := postStep_within S
      { vk := S.setBook (S.setTestament { pos := k.vk.pos, error := false } 2) 1,
        m_module := k.m_module, signals := k.signals } true
      (withinBounds_of_module S k _ _ rfl (hin _ (Or.inr ⟨hB.1.trans hT.1, hB.2⟩)))
    have hp1t : r1.2.vk.pos.testament = 2 := by rw [hpos1]; exact hB.1.trans hT.1
    have hp1b : r1.2.vk.pos.book = 1 := by rw [hpos1]; exact hB.2
    have h0 : 1 ≤ S.BMAX 0 := hbeq ▸ hb1
    have hT2 := hS.setTestament_pos r1.2.vk 1 (Or.inl rfl) (by rw [h11]; exact h0)
    have hB2 := hS.setBook_pos (S.setTestament r1.2.vk 1) (S.BMAX 0)
      (Or.inl hT2.1) h0 (by rw [hT2.1, h11])
    have hstep2 : r1.2.previous S JumpType.UseBook = CSwordVerseKey.postStep S
        { vk := S.setBook (S.setTestament r1.2.vk 1) (S.BMAX 0),
          m_module := r1.2.m_module, signals := r1.2.signals } true := by
      simp [CSwordVerseKey.previous, hp1t, hp1b]
    obtain ⟨r2, hr2, hpos2, _, _, _⟩ := postStep_within S
      { vk := S.setBook (S.setTestament r1.2.vk 1) (S.BMAX 0),
        m_module := r1.2.m_module, signals := r1.2.signals } true
      (withinBounds_of_module S k _ _ hmod1
        (hin _ (Or.inl ⟨(hB2.1.trans hT2.1).trans ht1.symm, Or.inl (hB2.2.trans hbeq.symm)⟩)))
    refine ⟨r1, r2, by rw [hstep, hr1], by rw [hstep2, hr2], ?_, ?_⟩
    · rw [hpos2]; exact (hB2.1.trans hT2.1).trans ht1.symm
    · rw [hpos2]; exact hB2.2.trans hbeq.symm
  · -- any other book: one book forward and one book back
    have hlt : k.vk.pos.book + 1 ≤ S.BMAX (k.vk.pos.testament - 1) := by
      rcases ht with ht1 | ht2
      · rw [ht1, h11] at hb2 ⊢
        have : ¬ k.vk.pos.book ≥ S.BMAX 0 := fun hge => hroll ⟨ht1, hge⟩
        omega
      · rw [ht2, h21] at hb2 ⊢
        have : k.vk.pos.book ≠ S.BMAX 1 := fun he => hlast ⟨ht2, he⟩
        omega
    have hnot2 : ¬ (k.vk.pos.testament = 2 ∧ k.vk.pos.book ≥ S.BMAX 1) := by
      rintro ⟨ht2, hge⟩
      rw [ht2, h21] at hlt
      omega
    have hB := hS.setBook_pos { pos := k.vk.pos, error := false } (k.vk.pos.book + 1)
      ht (by omega) hlt
    have hstep : k.next S JumpType.UseBook = CSwordVerseKey.postStep S
        { vk := S.setBook { pos := k.vk.pos, error := false } (k.vk.pos.book + 1),
          m_module := k.m_module, signals := k.signals } true := by
      have e1 : ¬ (k.vk.pos.testament = 2 ∧ S.BMAX (k.vk.pos.testament - 1) ≤ k.vk.pos.book) := by
        rintro ⟨ht2, hge⟩
        rw [ht2, h21] at hge
        exact hnot2 ⟨ht2, hge⟩
      have e2 : ¬ (k.vk.pos.testament = 1 ∧ S.BMAX (k.vk.pos.testament - 1) ≤ k.vk.pos.book) := by
        rintro ⟨ht1, hge⟩
        rw [ht1, h11] at hge
        exact hroll ⟨ht1, hge⟩
      simp only [CSwordVerseKey.next, CSwordVerseKey.popError, VerseKey.popError, ge_iff_le,
        e1, e2, if_false]
    obtain ⟨r1, hr1, hpos1, hmod1, _, _⟩ := postStep_within S
      { vk := S.setBook { pos := k.vk.pos, error := false } (k.vk.pos.book + 1),
        m_module := k.m_module, signals := k.signals } true
      (withinBounds_of_module S k _ _ rfl (hin _ (Or.inl ⟨hB.1, Or.inr hB.2⟩)))
    have hp1t : r1.2.vk.pos.testament = k.vk.pos.testament := by rw [hpos1]; exact hB.1
    have hp1b : r1.2.vk.pos.book = k.vk.pos.book + 1 := by rw [hpos1]; exact hB.2
    have hB2 := hS.setBook_pos r1.2.vk (r1.2.vk.pos.book - 1) (hp1t ▸ ht)
      (by rw [hp1b]; omega) (by rw [hp1b, hp1t]; omega)
    have hstep2 : r1.2.previous S JumpType.UseBook = CSwordVerseKey.postStep S
        { vk := S.setBook r1.2.vk (r1.2.vk.pos.book - 1),
          m_module := r1.2.m_module, signals := r1.2.signals } true := by
      have e1 : ¬ r1.2.vk.pos.book = 1 := by rw [hp1b]; omega
      simp [CSwordVerseKey.previous, e1]
    have hbk : (S.setBook r1.2.vk (r1.2.vk.pos.book - 1)).pos.book = k.vk.pos.book := by
      rw [hB2.2, hp1b]; omega
    obtain ⟨r2, hr2, hpos2, _, _, _⟩ := postStep_within S
      { vk := S.setBook r1.2.vk (r1.2.vk.pos.book - 1),
        m_module := r1.2.m_module, signals := r1.2.signals } true
      (withinBounds_of_module S k _ _ hmod1
        (hin _ (Or.inl ⟨hB2.1.trans hp1t, Or.inl hbk⟩)))
    refine ⟨r1, r2, by rw [hstep, hr1], by rw [hstep2, hr2], ?_, ?_⟩
    · rw [hpos2]; exact hB2.1.trans hp1t
    · rw [hpos2]; exact hbk

/-- The range of `demoBible` holds every position of the books after Gen in testament 1
and of the first book of testament 2. -/
theorem demoBible_holds_books (t b c n : Int) (e : Bool) (u : VerseKey)
    (h : (u.pos.testament = 1 ∧ 2 ≤ u.pos.book) ∨ (u.pos.testament = 2 ∧ u.pos.book = 1)) :
    (demoKey t b c n e (some demoBible)).withinBounds demoSword u := by
  intro bible hb
  have hb2 : bible = demoBounds := by
    simp [CSwordVerseKey.bibleInfo, demoKey, demoBible] at hb
    exact hb.symm
  subst hb2
  obtain ⟨⟨ut, ub, uc, un⟩, ue⟩ := u
  simp only at h
  rcases h with ⟨h1, h2⟩ | ⟨h1, h2⟩
  · subst h1
    have h3 : ¬ ub = 1 := by omega
    have h4 : ¬ ub < 1 := by omega
    simp [demoSword, Versification.sword, Position.compare, demoBounds, h3, h4]
  · subst h1 h2
    simp [demoSword, Versification.sword, Position.compare, demoBounds]

/-- Witness of C3, amended: from Mal 1:2 over the testament boundary and back, on a key
bound to the Bible module. -/
theorem next_previous_book_restores_book_witness :
    ∃ r1 r2, (demoKey 1 2 1 2 false (some demoBible)).next demoSword JumpType.UseBook =
        some r1 ∧
      r1.2.previous demoSword JumpType.UseBook = some r2 ∧
      r2.2.vk.pos.testament = (demoKey 1 2 1 2 false (some demoBible)).vk.pos.testament ∧
      r2.2.vk.pos.book = (demoKey 1 2 1 2 false (some demoBible)).vk.pos.book :=
  next_previous_book_restores_book demoSword (demoKey 1 2 1 2 false (some demoBible))
    demoSword_storesInRange (by decide) (Or.inl rfl) (by decide) (by decide) (by decide)
    (fun u h => demoBible_holds_books 1 2 1 2 false u (by
      rcases h with ⟨h1, h2 | h2⟩ | h
      · exact Or.inl ⟨h1, by rw [h2]; decide⟩
      · exact Or.inl ⟨h1, by rw [h2]; decide⟩
      · exact Or.inr h))

/-- Frame of `setKey`: a call that completes keeps the module, and what it appends to the
notifications ends with `afterChanged` at the final position. -/
theorem setKey_frame (S : Sword) (k : CSwordVerseKey) (newKey : Option String)
    (h : k.setKeyDefined newKey) :
    ∃ r, k.setKey S newKey = some r ∧ r.2.m_module = k.m_module ∧
      ∃ pre, r.2.signals = k.signals ++ pre ++ [Signal.afterChanged r.2.vk.pos] := by
  obtain ⟨k1, hk1⟩ := setKeyParse_defined S k newKey h
  rcases setKeyParse_cases S k k1 newKey hk1 with hc | ⟨text, hc⟩
  · exact ⟨_, setKey_of_parse S k k1 newKey hk1, by simp [hc], [], by simp [hc]⟩
  · exact ⟨_, setKey_of_parse S k k1 newKey hk1, by simp [hc],
      [Signal.beforeChanged k.vk.pos], by simp [hc]⟩

/-- A clamp of `postStep` (`emitBeforeChanged(); setKey(bound);`) completes on a key whose
module passes the assertion; it keeps the module and only appends notifications. -/
theorem clamp_frame (S : Sword) (k : CSwordVerseKey) (bound : VerseKey)
    (m : CSwordModuleInfo) (hm : k.m_module = some m) (hok : m.bibleCastOk) :
    ∃ r, k.emitBeforeChanged.setKeyTo S bound = some r ∧ r.2.m_module = k.m_module ∧
      ∃ ext, r.2.signals = k.signals ++ ext := by
  have hd : k.emitBeforeChanged.setKeyDefined (some (S.getText bound)) :=
    fun _ => ⟨m, hm, hok⟩
  obtain ⟨r, hr, hmod, pre, hsig⟩ := setKey_frame S k.emitBeforeChanged _ hd
  refine ⟨r, hr, hmod, [Signal.beforeChanged k.vk.pos] ++ pre
    ++ [Signal.afterChanged r.2.vk.pos], ?_⟩
  rw [hsig]
  simp [CSwordVerseKey.emitBeforeChanged]

/-- Frame of the common tail of `next` and `previous`: on a key whose module passes the
assertion it completes and keeps the module; if the notifications since `old` were none
or ended with `afterChanged` at the current position, the same is true afterwards. -/
theorem postStep_frame (S : Sword) (k : CSwordVerseKey) (ret : Bool) (old : List Signal)
    (hok : k.moduleOk) (h : CSwordVerseKey.endsWithAfter old k) :
    ∃ r, CSwordVerseKey.postStep S k ret = some r ∧ r.2.m_module = k.m_module ∧
      CSwordVerseKey.endsWithAfter old r.2 := by
  have hext : ∃ ext, k.signals = old ++ ext := by
    rcases h with h | ⟨pre, h⟩
    · exact ⟨[], by simp [h]⟩
    · exact ⟨pre ++ [Signal.afterChanged k.vk.pos], by simp [h]⟩
  unfold CSwordVerseKey.postStep
  cases hbi : k.bibleInfo with
  | none =>
    cases he : k.vk.error with
    | true =>
      refine ⟨(false, k.popError.2), by simp [CSwordVerseKey.popError, he], rfl, ?_⟩
      rcases h with h | ⟨pre, h⟩
      · exact Or.inl h
      · exact Or.inr ⟨pre, h⟩
    | false =>
      refine ⟨(ret, k.popError.2.emitAfterChanged), by simp [CSwordVerseKey.popError, he],
        rfl, Or.inr ?_⟩
      obtain ⟨ext, hx⟩ := hext
      exact ⟨ext, by simp [CSwordVerseKey.emitAfterChanged, CSwordVerseKey.popError,
        VerseKey.popError, hx]⟩
  | some bible =>
    obtain ⟨m, hm⟩ : ∃ m, k.m_module = some m := by
      cases hmm : k.m_module with
      | none => simp [CSwordVerseKey.bibleInfo, hmm] at hbi
      | some m => exact ⟨m, rfl⟩
    have hmok : m.bibleCastOk := hok m hm
    -- the clamp to the lower bound
    have hlow : ∃ r1 : Bool × CSwordVerseKey,
        (if S.compare k.vk bible.lowerBound < 0 then
          (k.emitBeforeChanged.setKeyTo S bible.lowerBound).map (fun r => (false, r.2))
         else some (ret, k)) = some r1 ∧ r1.2.m_module = k.m_module ∧
        ∃ ext, r1.2.signals = old ++ ext := by
      by_cases hc : S.compare k.vk bible.lowerBound < 0
      · obtain ⟨r, hr, hmod, ext, hsig⟩ := clamp_frame S k bible.lowerBound m hm hmok
        obtain ⟨ext0, hx⟩ := hext
        exact ⟨(false, r.2), by simp [hc, hr], hmod, ext0 ++ ext, by simp [hsig, hx]⟩
      · exact ⟨(ret, k), by simp [hc], rfl, hext⟩
    obtain ⟨r1, hr1, hmod1, hext1⟩ := hlow
    -- the clamp to the upper bound
    have hup : ∃ r2 : Bool × CSwordVerseKey,
        (if S.compare r1.2.vk bible.upperBound > 0 then
          (r1.2.emitBeforeChanged.setKeyTo S bible.upperBound).map (fun r => (false, r.2))
         else some (r1.1, r1.2)) = some r2 ∧ r2.2.m_module = k.m_module ∧
        ∃ ext, r2.2.signals = old ++ ext := by
      by_cases hc : S.compare r1.2.vk bible.upperBound > 0
      · obtain ⟨r, hr, hmod, ext, hsig⟩ :=
          clamp_frame S r1.2 bible.upperBound m (hmod1.trans hm) hmok
        obtain ⟨ext0, hx⟩ := hext1
        exact ⟨(false, r.2), by simp [hc, hr], hmod.trans hmod1, ext0 ++ ext,
          by simp [hsig, hx]⟩
      · exact ⟨(r1.1, r1.2), by simp [hc], hmod1, hext1⟩
    obtain ⟨r2, hr2, hmod2, ext2, hx2⟩ := hup
    refine ⟨(r2.1, r2.2.emitAfterChanged), ?_, hmod2, Or.inr ⟨ext2, ?_⟩⟩
    · simp only [hr1, hr2]
    · simp [CSwordVerseKey.emitAfterChanged, hx2]

/-- Replacing the Sword module behind `m_module` keeps the assertion of line 144. -/
theorem moduleOk_withSwModule (k : CSwordVerseKey) (m : CSwordModuleInfo) (sw : SWModule)
    (hm : k.m_module = some m) (hok : k.moduleOk) : (k.withSwModule m sw).moduleOk := by
  intro m1 h1
  simp only [CSwordVerseKey.withSwModule, Option.some.injEq] at h1
  subst h1
  exact hok m hm

/-- The verse step through the module cursor, after the cursor has moved: `setKey` on the
text of the cursor and then the common tail.  It completes, and what the call has
emitted ends with `afterChanged` at the final position. -/
theorem verseSync_frame (S : Sword) (k : CSwordVerseKey) (m : CSwordModuleInfo)
    (sw : SWModule) (hm : k.m_module = some m) (hok : k.moduleOk) :
    ∃ r, (match (k.withSwModule m sw).setKey S (some (S.getKeyText sw)) with
          | none => none
          | some r => CSwordVerseKey.postStep S r.2 true) = some r ∧
      CSwordVerseKey.endsWithAfter k.signals r.2 := by
  have hok1 := moduleOk_withSwModule k m sw hm hok
  have hd : (k.withSwModule m sw).setKeyDefined (some (S.getKeyText sw)) :=
    fun _ => ⟨_, rfl, hok1 _ rfl⟩
  obtain ⟨r, hr, hmod, pre, hsig⟩ := setKey_frame S (k.withSwModule m sw) _ hd
  have hok2 : r.2.moduleOk := by
    intro m2 h2
    rw [hmod] at h2
    exact hok1 m2 h2
  obtain ⟨r2, hr2, _, hend⟩ := postStep_frame S r.2 true k.signals hok2
    (Or.inr ⟨pre, by simpa [CSwordVerseKey.withSwModule] using hsig⟩)
  exact ⟨r2, by simp only [hr, hr2], hend⟩

/-- Frame of `next`: on a key whose module passes the assertion of line 144 the call
completes, and what it emits is nothing or ends with `afterChanged` at the final
position. -/
theorem next_frame (S : Sword) (k : CSwordVerseKey) (type : JumpType) (hok : k.moduleOk) :
    ∃ r, k.next S type = some r ∧ CSwordVerseKey.endsWithAfter k.signals r.2 := by
  have step : ∀ (k1 : CSwordVerseKey) (b : Bool), k1.moduleOk → k1.signals = k.signals →
      ∃ r, CSwordVerseKey.postStep S k1 b = some r ∧
        CSwordVerseKey.endsWithAfter k.signals r.2 := by
    intro k1 b h1 h2
    obtain ⟨r, hr, _, hend⟩ := postStep_frame S k1 b k.signals h1 (Or.inl h2)
    exact ⟨r, hr, hend⟩
  have hokv : ∀ v : VerseKey,
      ({ vk := v, m_module := k.m_module, signals := k.signals } : CSwordVerseKey).moduleOk :=
    fun _ => hok
  unfold CSwordVerseKey.next
  cases type with
  | UseBook =>
    dsimp only
    split
    · exact ⟨_, rfl, Or.inl rfl⟩
    · split
      · exact step _ _ (hokv _) rfl
      · exact step _ _ (hokv _) rfl
  | UseChapter => exact step _ _ (hokv _) rfl
  | UseVerse =>
    dsimp only
    cases hm : k.m_module with
    | none =>
      have := step _ true (hokv (S.setVerse k.popError.2.vk (k.popError.2.vk.pos.verse + 1))) rfl
      simpa [CSwordVerseKey.popError, hm] using this
    | some m =>
      have hokm : ∀ v : VerseKey,
          ({ vk := v, m_module := some m, signals := k.signals } : CSwordVerseKey).moduleOk :=
        fun v => hm ▸ hokv v
      cases hsw : m.module with
      | none =>
        have := step _ true
          (hokv (S.setVerse k.popError.2.vk (k.popError.2.vk.pos.verse + 1))) rfl
        simpa [CSwordVerseKey.popError, hm, hsw] using this
      | some sw =>
        simp only [CSwordVerseKey.popError, hm, hsw]
        split
        · exact verseSync_frame S _ m _ rfl (hokm _)
        · exact step _ _ (moduleOk_withSwModule _ m _ rfl (hokm _)) rfl
  | Other => exact ⟨_, rfl, Or.inl rfl⟩

/-- Frame of `previous`: on a key whose module passes the assertion of line 144 the call
completes, and what it emits is nothing or ends with `afterChanged` at the final
position. -/
theorem previous_frame (S : Sword) (k : CSwordVerseKey) (type : JumpType) (hok : k.moduleOk) :
    ∃ r, k.previous S type = some r ∧ CSwordVerseKey.endsWithAfter k.signals r.2 := by
  have step : ∀ (k1 : CSwordVerseKey) (b : Bool), k1.moduleOk → k1.signals = k.signals →
      ∃ r, CSwordVerseKey.postStep S k1 b = some r ∧
        CSwordVerseKey.endsWithAfter k.signals r.2 := by
    intro k1 b h1 h2
    obtain ⟨r, hr, _, hend⟩ := postStep_frame S k1 b k.signals h1 (Or.inl h2)
    exact ⟨r, hr, hend⟩
  have hokv : ∀ v : VerseKey,
      ({ vk := v, m_module := k.m_module, signals := k.signals } : CSwordVerseKey).moduleOk :=
    fun _ => hok
  unfold CSwordVerseKey.previous
  cases type with
  | UseBook =>
    dsimp only
    split
    · exact ⟨_, rfl, Or.inl rfl⟩
    · split
      · exact step _ _ (hokv _) rfl
      · exact step _ _ (hokv _) rfl
  | UseChapter => exact step _ _ (hokv _) rfl
  | UseVerse =>
    dsimp only
    cases hm : k.m_module with
    | none =>
      have := step _ true (hokv (S.setVerse k.vk (k.vk.pos.verse - 1))) rfl
      simpa [hm] using this
    | some m =>
      have hokm : ∀ v : VerseKey,
          ({ vk := v, m_module := some m, signals := k.signals } : CSwordVerseKey).moduleOk :=
        fun v => hm ▸ hokv v
      cases hsw : m.module with
      | none =>
        have := step _ true (hokv (S.setVerse k.vk (k.vk.pos.verse - 1))) rfl
        simpa [hm, hsw] using this
      | some sw =>
        simp only [hm, hsw]
        split
        · exact verseSync_frame S k m _ hm hok
        · exact step _ _ (moduleOk_withSwModule k m _ hm hok) rfl
  | Other => exact ⟨_, rfl, Or.inl rfl⟩

/-- C6, as the claim states it, fails.  On the unbound key at Gen 1:1 of `demoCanon`,
`setKey` with the null pointer emits a single `afterChanged` that no `beforeChanged`
precedes, and `next(UseChapter)` moves the key to Gen 2:1 and emits a single
`afterChanged`: the position changes with no `beforeChanged` before it. -/
theorem notifications_not_bracketed :
    (demoKey 1 1 1 1 false none).setKey demoSword none =
      some (true,
        { vk := { pos := { testament := 1, book := 1, chapter := 1, verse := 1 },
                  error := false },
          m_module := none,
          signals := [Signal.afterChanged
            { testament := 1, book := 1, chapter := 1, verse := 1 }] }) ∧
    (demoKey 1 1 1 1 false none).next demoSword JumpType.UseChapter =
      some (true,
        { vk := { pos := { testament := 1, book := 1, chapter := 2, verse := 1 },
                  error := false },
          m_module := none,
          signals := [Signal.afterChanged
            { testament := 1, book := 1, chapter := 2, verse := 1 }] }) :=
  ⟨by decide, by decide⟩

/-- C6, amended.  `setKey` brackets its own change: a call that completes emits either
`beforeChanged` at the old position followed by `afterChanged` at the new one, or (null
pointer, empty text on a module that is not of type Bible) a single `afterChanged` with
the position unchanged.  `next` and `previous` do not announce their step with
`beforeChanged`; a call on a key whose module passes the assertion of line 144 completes
and emits either nothing or a sequence whose last element is `afterChanged` at the final
position.  This holds whatever the Sword library. -/
theorem notifications_shape (S : Sword) (k : CSwordVerseKey) :
    (∀ newKey, k.setKeyDefined newKey →
      ∃ r, k.setKey S newKey = some r ∧
        (r.2.signals = k.signals ++
            [Signal.beforeChanged k.vk.pos, Signal.afterChanged r.2.vk.pos] ∨
          (r.2.signals = k.signals ++ [Signal.afterChanged k.vk.pos] ∧
            r.2.vk.pos = k.vk.pos))) ∧
    (∀ type, k.moduleOk →
      (∃ r, k.next S type = some r ∧ CSwordVerseKey.endsWithAfter k.signals r.2) ∧
      (∃ r, k.previous S type = some r ∧ CSwordVerseKey.endsWithAfter k.signals r.2)) := by
  constructor
  · intro newKey h
    obtain ⟨k1, hk1⟩ := setKeyParse_defined S k newKey h
    refine ⟨_, setKey_of_parse S k k1 newKey hk1, ?_⟩
    rcases setKeyParse_cases S k k1 newKey hk1 with hc | ⟨text, hc⟩
    · exact Or.inr (by simp [hc])
    · exact Or.inl (by simp [hc])
  · intro type hok
    exact ⟨next_frame S k type hok, previous_frame S k type hok⟩

/-- The module of a demonstration key bound to `demoBible` passes the assertion. -/
theorem demoKey_moduleOk (t b c n : Int) (e : Bool) :
    (demoKey t b c n e (some demoBible)).moduleOk := by
  intro m h
  simp only [demoKey, Option.some.injEq] at h
  subst h
  intro _
  decide

/-- Witness of C6, amended: `setKey` with a text and a verse step through the module, on
a key bound to the Bible module. -/
theorem notifications_shape_witness :
    (∃ r, (demoKey 1 1 1 1 false (some demoBible)).setKey demoSword (some "Matt 1:2") =
        some r ∧
      (r.2.signals = (demoKey 1 1 1 1 false (some demoBible)).signals ++
          [Signal.beforeChanged (demoKey 1 1 1 1 false (some demoBible)).vk.pos,
            Signal.afterChanged r.2.vk.pos] ∨
        (r.2.signals = (demoKey 1 1 1 1 false (some demoBible)).signals ++
            [Signal.afterChanged (demoKey 1 1 1 1 false (some demoBible)).vk.pos] ∧
          r.2.vk.pos = (demoKey 1 1 1 1 false (some demoBible)).vk.pos))) ∧
    ((∃ r, (demoKey 1 1 1 1 false (some demoBible)).next demoSword JumpType.UseVerse =
        some r ∧
      CSwordVerseKey.endsWithAfter (demoKey 1 1 1 1 false (some demoBible)).signals r.2) ∧
     (∃ r, (demoKey 1 1 1 1 false (some demoBible)).previous demoSword JumpType.UseVerse =
        some r ∧
      CSwordVerseKey.endsWithAfter (demoKey 1 1 1 1 false (some demoBible)).signals r.2)) :=
  ⟨(notifications_shape demoSword (demoKey 1 1 1 1 false (some demoBible))).1
      (some "Matt 1:2") (fun h => absurd h (by decide)),
   (notifications_shape demoSword (demoKey 1 1 1 1 false (some demoBible))).2
      JumpType.UseVerse (demoKey_moduleOk 1 1 1 1 false)⟩

/-! ## Results on the clamp, rebinding, book names and the module cursor -/

/-- The method `next` is its switch statement followed by the code after the switch. -/
theorem next_eq_finish (S : Sword) (k : CSwordVerseKey) (type : JumpType) :
    k.next S type = CSwordVerseKey.finish S (k.nextSwitch S type) := by
  unfold CSwordVerseKey.next CSwordVerseKey.nextSwitch
  cases type with
  | UseBook =>
    dsimp only
    split
    · rfl
    · split <;> rfl
  | UseChapter => rfl
  | UseVerse =>
    dsimp only
    cases k.popError.2.m_module with
    | none => rfl
    | some m =>
      dsimp only
      cases m.module with
      | none => rfl
      | some sw =>
        dsimp only
        split
        · generalize CSwordVerseKey.setKey S _ _ = o
          cases o <;> rfl
        · rfl
  | Other => rfl

/-- The method `previous` is its switch statement followed by the code after the
switch. -/
theorem previous_eq_finish (S : Sword) (k : CSwordVerseKey) (type : JumpType) :
    k.previous S type = CSwordVerseKey.finish S (k.previousSwitch S type) := by
  unfold CSwordVerseKey.previous CSwordVerseKey.previousSwitch
  cases type with
  | UseBook =>
    dsimp only
    split
    · rfl
    · split <;> rfl
  | UseChapter => rfl
  | UseVerse =>
    dsimp only
    cases k.m_module with
    | none => rfl
    | some m =>
      dsimp only
      cases m.module with
      | none => rfl
      | some sw =>
        dsimp only
        split
        · generalize CSwordVerseKey.setKey S _ _ = o
          cases o <;> rfl
        · rfl
  | Other => rfl

/-- A clamp `setKey(bound)` on a bound whose textual key round-trips: the call returns
true, puts the key on the position of the bound with the error flag clear, keeps the
module and emits `beforeChanged` and `afterChanged`. -/
theorem setKeyTo_roundtrip (S : Sword) (k : CSwordVerseKey) (bound : VerseKey)
    (h : S.RoundTrip bound) :
    ∃ k1, k.setKeyTo S bound = some (true, k1) ∧ k1.vk.pos = bound.pos ∧
      k1.vk.error = false ∧ k1.m_module = k.m_module ∧
      k1.signals = k.signals ++
        [Signal.beforeChanged k.vk.pos, Signal.afterChanged bound.pos] := by
  obtain ⟨hne, hrt⟩ := h
  have hp : k.setKeyParse S (some (S.getText bound)) =
      some (k.emitBeforeChanged.positionFrom S (S.getText bound)) := by
    simp [CSwordVerseKey.setKeyParse, hne]
  have h1 := (hrt k.vk).1
  have h2 := (hrt k.vk).2
  unfold CSwordVerseKey.setKeyTo
  rw [setKey_of_parse S k _ _ hp]
  simp only [CSwordVerseKey.positionFrom, CSwordVerseKey.emitBeforeChanged, h1, h2,
    Bool.not_false]
  exact ⟨_, rfl, rfl, rfl, rfl, by simp⟩

/-- The bounds of the module of a key depend on the key only through its module. -/
theorem bibleInfo_of_module (k1 k2 : CSwordVerseKey) (h : k1.m_module = k2.m_module) :
    k1.bibleInfo = k2.bibleInfo := by
  simp [CSwordVerseKey.bibleInfo, h]

/-- The code after the switch on a key bound to a module with bounds `bible`, when the
textual keys of both bounds round-trip, the comparison orders positions and the lower
bound is not above the upper bound.  The call completes and keeps the module.  A key
below the lower bound ends on the lower bound, a key above the upper bound ends on the
upper bound, both with result false; any other key keeps its position and the call
returns `ret`. -/
theorem postStep_clamp (S : Sword) (k : CSwordVerseKey) (ret : Bool)
    (bible : CSwordBibleModuleInfo) (hb : k.bibleInfo = some bible)
    (hcmp : S.ComparesPositions)
    (hle : ¬ S.compare bible.lowerBound bible.upperBound > 0)
    (hl : S.RoundTrip bible.lowerBound) (hu : S.RoundTrip bible.upperBound) :
    ∃ r, CSwordVerseKey.postStep S k ret = some r ∧ r.2.m_module = k.m_module ∧
      (S.compare k.vk bible.lowerBound < 0 → r.1 = false ∧ r.2.vk.pos = bible.lowerBound.pos) ∧
      (S.compare k.vk bible.upperBound > 0 → r.1 = false ∧ r.2.vk.pos = bible.upperBound.pos) ∧
      (¬ S.compare k.vk bible.lowerBound < 0 → ¬ S.compare k.vk bible.upperBound > 0 →
        r.1 = ret ∧ r.2.vk.pos = k.vk.pos) := by
  unfold CSwordVerseKey.postStep
  simp only [hb]
  by_cases hlow : S.compare k.vk bible.lowerBound < 0
  · -- clamp to the lower bound; the lower bound is not above the upper bound
    obtain ⟨k1, hk1, hpos1, _, hmod1, _⟩ :=
      setKeyTo_roundtrip S k.emitBeforeChanged bible.lowerBound hl
    have hnotup : ¬ S.compare k1.vk bible.upperBound > 0 := by
      rw [hcmp.pos_left k1.vk bible.lowerBound bible.upperBound hpos1]
      exact hle
    have hnotup0 : ¬ S.compare k.vk bible.upperBound > 0 := by
      apply hcmp.le_trans k.vk bible.lowerBound bible.upperBound _ hle
      intro hgt
      omega
    refine ⟨(false, k1.emitAfterChanged), ?_, ?_, ?_, ?_, ?_⟩
    · simp [hlow, hk1, hnotup]
    · exact hmod1
    · intro _; exact ⟨rfl, hpos1⟩
    · intro hgt; exact absurd hgt hnotup0
    · intro hn; exact absurd hlow hn
  · by_cases hup : S.compare k.vk bible.upperBound > 0
    · obtain ⟨k1, hk1, hpos1, _, hmod1, _⟩ :=
        setKeyTo_roundtrip S k.emitBeforeChanged bible.upperBound hu
      refine ⟨(false, k1.emitAfterChanged), ?_, ?_, ?_, ?_, ?_⟩
      · simp [hlow, hup, hk1]
      · exact hmod1
      · intro h; exact absurd h hlow
      · intro _; exact ⟨rfl, hpos1⟩
      · intro _ hn; exact absurd hup hn
    · refine ⟨(ret, k.emitAfterChanged), ?_, rfl, ?_, ?_, ?_⟩
      · simp [hlow, hup]
      · intro h; exact absurd h hlow
      · intro h; exact absurd h hup
      · intro _ _; exact ⟨rfl, rfl⟩

/-- What the switch of `next` can do on a key whose module passes the assertion of line
144: return at once with position, module and notifications untouched, or reach the
code after the switch with the bounds of the module unchanged. -/
theorem nextSwitch_cases (S : Sword) (k : CSwordVerseKey) (type : JumpType)
    (hok : k.moduleOk) :
    (∃ k1, k.nextSwitch S type = SwitchResult.returned k1 ∧ k1.vk.pos = k.vk.pos ∧
      k1.m_module = k.m_module ∧ k1.signals = k.signals) ∨
    (∃ ret k1, k.nextSwitch S type = SwitchResult.stepped ret k1 ∧
      k1.bibleInfo = k.bibleInfo) := by
  unfold CSwordVerseKey.nextSwitch
  cases type with
  | UseBook =>
    dsimp only
    split
    · exact Or.inl ⟨_, rfl, rfl, rfl, rfl⟩
    · split
      · exact Or.inr ⟨_, _, rfl, rfl⟩
      · exact Or.inr ⟨_, _, rfl, rfl⟩
  | UseChapter => exact Or.inr ⟨_, _, rfl, rfl⟩
  | UseVerse =>
    dsimp only
    cases hm : k.m_module with
    | none =>
      simp only [CSwordVerseKey.popError, hm]
      exact Or.inr ⟨_, _, rfl, by simp [CSwordVerseKey.bibleInfo, hm]⟩
    | some m =>
      cases hsw : m.module with
      | none =>
        simp only [CSwordVerseKey.popError, hm, hsw]
        exact Or.inr ⟨_, _, rfl, by simp [CSwordVerseKey.bibleInfo, hm]⟩
      | some sw =>
        simp only [CSwordVerseKey.popError, hm, hsw]
        split
        · have hd : ∀ (k2 : CSwordVerseKey) (sw2 : SWModule) (t : String),
              (k2.withSwModule m sw2).setKeyDefined (some t) :=
            fun _ _ _ _ => ⟨_, rfl, hok m hm⟩
          obtain ⟨r, hr, hmod, _⟩ := setKey_frame S _ _ (hd _ _ _)
          rw [hr]
          exact Or.inr ⟨_, _, rfl, by
            rw [bibleInfo_of_module _ _ hmod]
            simp [CSwordVerseKey.bibleInfo, CSwordVerseKey.withSwModule, hm]⟩
        · exact Or.inr ⟨_, _, rfl, by
            simp [CSwordVerseKey.bibleInfo, CSwordVerseKey.withSwModule, hm]⟩
  | Other => exact Or.inl ⟨_, rfl, rfl, rfl, rfl⟩

/-- What the switch of `previous` can do on a key whose module passes the assertion of
line 144: return at once with position, module and notifications untouched, or reach
the code after the switch with the bounds of the module unchanged. -/
theorem previousSwitch_cases (S : Sword) (k : CSwordVerseKey) (type : JumpType)
    (hok : k.moduleOk) :
    (∃ k1, k.previousSwitch S type = SwitchResult.returned k1 ∧ k1.vk.pos = k.vk.pos ∧
      k1.m_module = k.m_module ∧ k1.signals = k.signals) ∨
    (∃ ret k1, k.previousSwitch S type = SwitchResult.stepped ret k1 ∧
      k1.bibleInfo = k.bibleInfo) := by
  unfold CSwordVerseKey.previousSwitch
  cases type with
  | UseBook =>
    dsimp only
    split
    · exact Or.inl ⟨_, rfl, rfl, rfl, rfl⟩
    · split
      · exact Or.inr ⟨_, _, rfl, rfl⟩
      · exact Or.inr ⟨_, _, rfl, rfl⟩
  | UseChapter => exact Or.inr ⟨_, _, rfl, rfl⟩
  | UseVerse =>
    dsimp only
    cases hm : k.m_module with
    | none =>
      dsimp only
      exact Or.inr ⟨_, _, rfl, by simp [CSwordVerseKey.bibleInfo, hm]⟩
    | some m =>
      dsimp only
      cases hsw : m.module with
      | none =>
        dsimp only
        exact Or.inr ⟨_, _, rfl, by simp [CSwordVerseKey.bibleInfo, hm]⟩
      | some sw =>
        dsimp only
        split
        · have hd : ∀ (k2 : CSwordVerseKey) (sw2 : SWModule) (t : String),
              (k2.withSwModule m sw2).setKeyDefined (some t) :=
            fun _ _ _ _ => ⟨_, rfl, hok m hm⟩
          obtain ⟨r, hr, hmod, _⟩ := setKey_frame S _ _ (hd _ _ _)
          rw [hr]
          exact Or.inr ⟨_, _, rfl, by
            rw [bibleInfo_of_module _ _ hmod]
            simp [CSwordVerseKey.bibleInfo, CSwordVerseKey.withSwModule, hm]⟩
        · exact Or.inr ⟨_, _, rfl, by
            simp [CSwordVerseKey.bibleInfo, CSwordVerseKey.withSwModule, hm]⟩
  | Other => exact Or.inl ⟨_, rfl, rfl, rfl, rfl⟩

/-- A key whose module has bounds passes the assertion of line 144. -/
theorem moduleOk_of_bibleInfo (k : CSwordVerseKey) (bible : CSwordBibleModuleInfo)
    (hb : k.bibleInfo = some bible) : k.moduleOk := by
  intro m hm _ hnone
  simp [CSwordVerseKey.bibleInfo, hm, hnone] at hb

/-- C11: post-step clamp.  On a key bound to a module with bounds, with the lower bound
not above the upper bound, for every granularity: if the key the step of `next` or of
`previous` has produced compares greater than the upper bound, the call returns false
with the key on the upper bound, and if it compares less than the lower bound, the call
returns false with the key on the lower bound.  The comparison of the Sword library is
assumed to order positions and the textual keys of the two bounds to round-trip. -/
theorem post_step_clamp (S : Sword) (k : CSwordVerseKey) (type : JumpType)
    (bible : CSwordBibleModuleInfo) (hb : k.bibleInfo = some bible)
    (hcmp : S.ComparesPositions)
    (hle : ¬ S.compare bible.lowerBound bible.upperBound > 0)
    (hl : S.RoundTrip bible.lowerBound) (hu : S.RoundTrip bible.upperBound) :
    (∀ ret k1, k.nextSwitch S type = SwitchResult.stepped ret k1 →
      (S.compare k1.vk bible.upperBound > 0 →
        ∃ k2, k.next S type = some (false, k2) ∧ k2.vk.pos = bible.upperBound.pos) ∧
      (S.compare k1.vk bible.lowerBound < 0 →
        ∃ k2, k.next S type = some (false, k2) ∧ k2.vk.pos = bible.lowerBound.pos)) ∧
    (∀ ret k1, k.previousSwitch S type = SwitchResult.stepped ret k1 →
      (S.compare k1.vk bible.upperBound > 0 →
        ∃ k2, k.previous S type = some (false, k2) ∧ k2.vk.pos = bible.upperBound.pos) ∧
      (S.compare k1.vk bible.lowerBound < 0 →
        ∃ k2, k.previous S type = some (false, k2) ∧ k2.vk.pos = bible.lowerBound.pos)) := by
  have hok := moduleOk_of_bibleInfo k bible hb
  have core : ∀ (ret : Bool) (k1 : CSwordVerseKey), k1.bibleInfo = some bible →
      (S.compare k1.vk bible.upperBound > 0 →
        ∃ k2, CSwordVerseKey.postStep S k1 ret = some (false, k2) ∧
          k2.vk.pos = bible.upperBound.pos) ∧
      (S.compare k1.vk bible.lowerBound < 0 →
        ∃ k2, CSwordVerseKey.postStep S k1 ret = some (false, k2) ∧
          k2.vk.pos = bible.lowerBound.pos) := by
    intro ret k1 hb1
    obtain ⟨r, hr, _, hlow, hup, _⟩ := postStep_clamp S k1 ret bible hb1 hcmp hle hl hu
    constructor
    · intro h
      obtain ⟨h1, h2⟩ := hup h
      exact ⟨r.2, by rw [hr, ← h1], h2⟩
    · intro h
      obtain ⟨h1, h2⟩ := hlow h
      exact ⟨r.2, by rw [hr, ← h1], h2⟩
  constructor
  · intro ret k1 hsw
    have hb1 : k1.bibleInfo = some bible := by
      rcases nextSwitch_cases S k type hok with ⟨k0, h0, _⟩ | ⟨ret0, k0, h0, hbi⟩
      · rw [hsw] at h0; cases h0
      · rw [hsw] at h0; cases h0; rw [hbi, hb]
    rw [next_eq_finish, hsw]
    exact core ret k1 hb1
  · intro ret k1 hsw
    have hb1 : k1.bibleInfo = some bible := by
      rcases previousSwitch_cases S k type hok with ⟨k0, h0, _⟩ | ⟨ret0, k0, h0, hbi⟩
      · rw [hsw] at h0; cases h0
      · rw [hsw] at h0; cases h0; rw [hbi, hb]
    rw [previous_eq_finish, hsw]
    exact core ret k1 hb1

/-- The sign of `Position.compare` is positive exactly when the left position comes
later in the lexicographic order. -/
theorem Position.compare_pos_iff (a b : Position) :
    a.compare b > 0 ↔
      (b.testament < a.testament ∨ (b.testament = a.testament ∧
        (b.book < a.book ∨ (b.book = a.book ∧
          (b.chapter < a.chapter ∨ (b.chapter = a.chapter ∧ b.verse < a.verse)))))) := by
  unfold Position.compare
  split_ifs <;> omega

/-- The sign of `Position.compare` is negative exactly when the left position comes
earlier in the lexicographic order. -/
theorem Position.compare_neg_iff (a b : Position) :
    a.compare b < 0 ↔
      (a.testament < b.testament ∨ (a.testament = b.testament ∧
        (a.book < b.book ∨ (a.book = b.book ∧
          (a.chapter < b.chapter ∨ (a.chapter = b.chapter ∧ a.verse < b.verse)))))) := by
  unfold Position.compare
  split_ifs <;> omega

/-- The comparison of the reference instance orders positions, whatever the scheme. -/
theorem sword_comparesPositions (V : Versification) : V.sword.ComparesPositions := by
  constructor
  · intro a b c h
    simp [Versification.sword, h]
  · intro a b
    simp only [Versification.sword, Position.compare_pos_iff, Position.compare_neg_iff]
  · intro a b c
    simp only [Versification.sword, Position.compare_pos_iff]
    omega

/-- Witness of C11: `next(UseChapter)` from Mal 1:2 on a key bound to the module that
holds testament 1 only; the step lands on Matt 1:1, above the upper bound Mal 1:2. -/
theorem post_step_clamp_witness :
    ∃ k2, (demoKey 1 2 1 2 false (some demoOtBible)).next demoSword JumpType.UseChapter =
        some (false, k2) ∧ k2.vk.pos = demoOtBounds.upperBound.pos :=
  ((post_step_clamp demoSword (demoKey 1 2 1 2 false (some demoOtBible)) JumpType.UseChapter
      demoOtBounds rfl (sword_comparesPositions demoCanon) (by decide)
      ⟨by decide, fun _ => ⟨rfl, rfl⟩⟩ ⟨by decide, fun _ => ⟨rfl, rfl⟩⟩).1
    true (demoKey 2 1 1 1 false (some demoOtBible)) rfl).1 (by decide)

/-- After the code that follows the switch, a key bound to a module with bounds lies
within them (under the assumptions of `postStep_clamp`). -/
theorem postStep_inBounds (S : Sword) (k : CSwordVerseKey) (ret : Bool)
    (bible : CSwordBibleModuleInfo) (hb : k.bibleInfo = some bible)
    (hcmp : S.ComparesPositions)
    (hle : ¬ S.compare bible.lowerBound bible.upperBound > 0)
    (hl : S.RoundTrip bible.lowerBound) (hu : S.RoundTrip bible.upperBound) :
    ∃ r, CSwordVerseKey.postStep S k ret = some r ∧ r.2.m_module = k.m_module ∧
      ¬ S.compare r.2.vk bible.lowerBound < 0 ∧ ¬ S.compare r.2.vk bible.upperBound > 0 := by
  obtain ⟨r, hr, hmod, hlow, hup, hmid⟩ := postStep_clamp S k ret bible hb hcmp hle hl hu
  refine ⟨r, hr, hmod, ?_⟩
  by_cases h1 : S.compare k.vk bible.lowerBound < 0
  · have hp := (hlow h1).2
    rw [hcmp.pos_left r.2.vk bible.lowerBound bible.lowerBound hp,
      hcmp.pos_left r.2.vk bible.lowerBound bible.upperBound hp]
    refine ⟨?_, hle⟩
    intro hlt
    have := (hcmp.antisymm bible.lowerBound bible.lowerBound).mp hlt
    omega
  · by_cases h2 : S.compare k.vk bible.upperBound > 0
    · have hp := (hup h2).2
      rw [hcmp.pos_left r.2.vk bible.upperBound bible.lowerBound hp,
        hcmp.pos_left r.2.vk bible.upperBound bible.upperBound hp]
      constructor
      · intro hlt
        exact hle ((hcmp.antisymm bible.upperBound bible.lowerBound).mp hlt)
      · intro hgt
        have := (hcmp.antisymm bible.upperBound bible.upperBound).mpr hgt
        omega
    · have hp := (hmid h1 h2).2
      rw [hcmp.pos_left r.2.vk k.vk bible.lowerBound hp,
        hcmp.pos_left r.2.vk k.vk bible.upperBound hp]
      exact ⟨h1, h2⟩

/-- C13: bounds invariant under navigation.  On a key bound to a module with bounds, the
lower bound not above the upper bound, whose position lies within the bounds, every call
of `next` and of `previous`, with any granularity and whatever it returns, completes and
leaves the position within the bounds.  The comparison of the Sword library is assumed
to order positions and the textual keys of the two bounds to round-trip. -/
theorem navigation_keeps_bounds (S : Sword) (k : CSwordVerseKey) (type : JumpType)
    (bible : CSwordBibleModuleInfo) (hb : k.bibleInfo = some bible)
    (hcmp : S.ComparesPositions)
    (hle : ¬ S.compare bible.lowerBound bible.upperBound > 0)
    (hl : S.RoundTrip bible.lowerBound) (hu : S.RoundTrip bible.upperBound)
    (hin : k.withinBounds S k.vk) :
    (∃ r, k.next S type = some r ∧ r.2.withinBounds S r.2.vk) ∧
    (∃ r, k.previous S type = some r ∧ r.2.withinBounds S r.2.vk) := by
  have hok := moduleOk_of_bibleInfo k bible hb
  have core : ∀ sr : SwitchResult,
      ((∃ k1, sr = SwitchResult.returned k1 ∧ k1.vk.pos = k.vk.pos ∧
          k1.m_module = k.m_module ∧ k1.signals = k.signals) ∨
        (∃ ret k1, sr = SwitchResult.stepped ret k1 ∧ k1.bibleInfo = k.bibleInfo)) →
      ∃ r, CSwordVerseKey.finish S sr = some r ∧ r.2.withinBounds S r.2.vk := by
    intro sr hsr
    rcases hsr with ⟨k1, h1, hpos, hmod, _⟩ | ⟨ret, k1, h1, hbi⟩
    · subst h1
      refine ⟨(false, k1), rfl, ?_⟩
      intro b1 hb1
      have hb2 : k.bibleInfo = some b1 := by
        rw [← bibleInfo_of_module k1 k hmod]; exact hb1
      have := hin b1 hb2
      rw [hcmp.pos_left k1.vk k.vk b1.lowerBound hpos,
        hcmp.pos_left k1.vk k.vk b1.upperBound hpos]
      exact this
    · subst h1
      obtain ⟨r, hr, hmod, hw1, hw2⟩ :=
        postStep_inBounds S k1 ret bible (hbi.trans hb) hcmp hle hl hu
      refine ⟨r, hr, ?_⟩
      intro b1 hb1
      have hb2 : some bible = some b1 := by
        rw [← hb1, bibleInfo_of_module r.2 k1 hmod, hbi, hb]
      cases hb2
      exact ⟨hw1, hw2⟩
  constructor
  · rw [next_eq_finish]
    exact core _ (nextSwitch_cases S k type hok)
  · rw [previous_eq_finish]
    exact core _ (previousSwitch_cases S k type hok)

/-- Mal 1:2 lies within the bounds of `demoOtBible`. -/
theorem demoOtBible_holds_mal (e : Bool) :
    (demoKey 1 2 1 2 e (some demoOtBible)).withinBounds demoSword
      (demoKey 1 2 1 2 e (some demoOtBible)).vk := by
  intro bible hb
  have hb2 : bible = demoOtBounds := by
    simp [CSwordVerseKey.bibleInfo, demoKey, demoOtBible] at hb
    exact hb.symm
  subst hb2
  simp [demoSword, Versification.sword, Position.compare, demoOtBounds, demoKey]

/-- Witness of C13: `next(UseVerse)` and `previous(UseVerse)` from Mal 1:2, the upper
bound of the module that holds testament 1 only. -/
theorem navigation_keeps_bounds_witness :
    (∃ r, (demoKey 1 2 1 2 false (some demoOtBible)).next demoSword JumpType.UseVerse =
        some r ∧ r.2.withinBounds demoSword r.2.vk) ∧
    (∃ r, (demoKey 1 2 1 2 false (some demoOtBible)).previous demoSword JumpType.UseVerse =
        some r ∧ r.2.withinBounds demoSword r.2.vk) :=
  navigation_keeps_bounds demoSword (demoKey 1 2 1 2 false (some demoOtBible))
    JumpType.UseVerse demoOtBounds rfl (sword_comparesPositions demoCanon) (by decide)
    ⟨by decide, fun _ => ⟨rfl, rfl⟩⟩ ⟨by decide, fun _ => ⟨rfl, rfl⟩⟩
    (demoOtBible_holds_mal false)

/-- When the code after the switch returns true, `ret` was true, no clamp was triggered,
the position is untouched, and on a key whose module has no bounds the error flag was
clear. -/
theorem postStep_true (S : Sword) (k k1 : CSwordVerseKey) (ret : Bool)
    (h : CSwordVerseKey.postStep S k ret = some (true, k1)) :
    ret = true ∧ k.withinBounds S k.vk ∧ (k.bibleInfo = none → k.vk.error = false) ∧
      k1.vk.pos = k.vk.pos := by
  unfold CSwordVerseKey.postStep at h
  cases hbi : k.bibleInfo with
  | none =>
    simp only [hbi, CSwordVerseKey.popError] at h
    cases he : k.vk.error with
    | true => simp [he] at h
    | false =>
      simp only [he, Bool.false_eq_true, if_false, Option.some.injEq, Prod.mk.injEq] at h
      refine ⟨h.1, ?_, fun _ => rfl, ?_⟩
      · intro b hb
        rw [hbi] at hb
        cases hb
      · rw [← h.2]
        rfl
  | some bible =>
    simp only [hbi] at h
    by_cases hlow : S.compare k.vk bible.lowerBound < 0
    · simp only [hlow, if_true] at h
      cases hs : k.emitBeforeChanged.setKeyTo S bible.lowerBound with
      | none => simp [hs] at h
      | some r =>
        simp only [hs, Option.map_some'] at h
        by_cases hup : S.compare r.2.vk bible.upperBound > 0
        · simp only [hup, if_true] at h
          cases hs2 : r.2.emitBeforeChanged.setKeyTo S bible.upperBound with
          | none => simp [hs2] at h
          | some r2 => simp [hs2] at h
        · simp [hup] at h
    · simp only [hlow, if_false] at h
      by_cases hup : S.compare k.vk bible.upperBound > 0
      · simp only [hup, if_true] at h
        cases hs2 : k.emitBeforeChanged.setKeyTo S bible.upperBound with
        | none => simp [hs2] at h
        | some r2 => simp [hs2] at h
      · simp only [hup, if_false, Option.some.injEq, Prod.mk.injEq] at h
        refine ⟨h.1, ?_, ?_, ?_⟩
        · intro b hb
          rw [hbi] at hb
          cases hb
          exact ⟨hlow, hup⟩
        · intro hn
          cases hn
        · rw [← h.2]
          rfl

/-- C12, as the claim states it, fails on a key bound to a Bible module.  On the key at
Rev 1:2, the last verse of `demoCanon`, bound to the Bible module, the step of
`next(UseChapter)` leaves the canon: normalisation puts the key back on the last verse
and raises the error flag.  That verse is the upper bound, so no clamp is triggered, and
the call returns true with the error flag still set. -/
theorem next_true_despite_range_error :
    (demoKey 2 2 1 2 false (some demoBible)).nextSwitch demoSword JumpType.UseChapter =
      SwitchResult.stepped true (demoKey 2 2 1 2 true (some demoBible)) ∧
    ∃ k1, (demoKey 2 2 1 2 false (some demoBible)).next demoSword JumpType.UseChapter =
        some (true, k1) ∧ k1.vk.error = true :=
  ⟨by decide, _, rfl, rfl⟩

/-- C12, amended.  If `next` or `previous` returns true, then the switch has reached the
code after it with `ret` true, no clamp to a module bound was triggered, the final
position is the one the step produced, and on a key whose module has no bounds (an
unbound key) the error flag was clear after the step.  On a key bound to a Bible module
the flag is not consulted.  This holds whatever the Sword library. -/
theorem true_means_no_clamp (S : Sword) (k k2 : CSwordVerseKey) (type : JumpType) :
    (k.next S type = some (true, k2) →
      ∃ k1, k.nextSwitch S type = SwitchResult.stepped true k1 ∧
        k1.withinBounds S k1.vk ∧ (k1.bibleInfo = none → k1.vk.error = false) ∧
        k2.vk.pos = k1.vk.pos) ∧
    (k.previous S type = some (true, k2) →
      ∃ k1, k.previousSwitch S type = SwitchResult.stepped true k1 ∧
        k1.withinBounds S k1.vk ∧ (k1.bibleInfo = none → k1.vk.error = false) ∧
        k2.vk.pos = k1.vk.pos) := by
  have core : ∀ sr : SwitchResult, CSwordVerseKey.finish S sr = some (true, k2) →
      ∃ k1, sr = SwitchResult.stepped true k1 ∧
        k1.withinBounds S k1.vk ∧ (k1.bibleInfo = none → k1.vk.error = false) ∧
        k2.vk.pos = k1.vk.pos := by
    intro sr h
    cases sr with
    | fault => simp [CSwordVerseKey.finish] at h
    | returned k1 => simp [CSwordVerseKey.finish] at h
    | stepped ret k1 =>
      obtain ⟨hret, hw, he, hp⟩ := postStep_true S k1 k2 ret h
      subst hret
      exact ⟨k1, rfl, hw, he, hp⟩
  constructor
  · intro h
    rw [next_eq_finish] at h
    exact core _ h
  · intro h
    rw [previous_eq_finish] at h
    exact core _ h

/-- Witness of C12, amended: `next(UseChapter)` from Gen 1:1 on an unbound key. -/
theorem true_means_no_clamp_witness :
    ∃ k1, (demoKey 1 1 1 1 false none).nextSwitch demoSword JumpType.UseChapter =
        SwitchResult.stepped true k1 ∧
      k1.withinBounds demoSword k1.vk ∧ (k1.bibleInfo = none → k1.vk.error = false) ∧
      (demoKey 1 1 2 1 false none).emitAfterChanged.vk.pos = k1.vk.pos :=
  (true_means_no_clamp demoSword (demoKey 1 1 1 1 false none)
    (demoKey 1 1 2 1 false none).emitAfterChanged JumpType.UseChapter).1 (by decide)

/-- C14, as the claim states it, fails.  On a key bound to the Bible module that holds
testament 1 of `demoCanon` only (upper bound Mal 1:2), `setKey` with the text `Matt 1:1`
returns true and leaves the key at Matt 1:1, above the upper bound of the module. -/
theorem setKey_beyond_upper_bound :
    ∃ k1, (demoKey 1 1 1 1 false (some demoOtBible)).setKey demoSword (some "Matt 1:1") =
        some (true, k1) ∧
      k1.vk.pos = { testament := 2, book := 1, chapter := 1, verse := 1 } ∧
      demoSword.compare k1.vk demoOtBounds.upperBound > 0 :=
  ⟨_, rfl, rfl, by decide⟩

/-- C14, amended.  `setKey` with a text that is not empty does not compare the parsed
position with the bounds of the module: it returns false exactly when the parse of the
Sword library leaves the error flag set, keeps the module and leaves the position the
parse has produced.  So when the parse itself puts the key on the upper bound of the
module and raises the flag (as normalisation does beyond the end of the canon when the
upper bound is the last verse), `setKey` returns false with the key on the upper
bound. -/
theorem setKey_reports_parse (S : Sword) (k : CSwordVerseKey) (text : String)
    (hne : text ≠ "") :
    (∃ k1, k.setKey S (some text) = some (!(S.positionFrom k.vk text).error, k1) ∧
      k1.vk.pos = (S.positionFrom k.vk text).pos ∧ k1.m_module = k.m_module) ∧
    (∀ bible, k.bibleInfo = some bible → (S.positionFrom k.vk text).error = true →
      (S.positionFrom k.vk text).pos = bible.upperBound.pos →
      ∃ k1, k.setKey S (some text) = some (false, k1) ∧
        k1.vk.pos = bible.upperBound.pos) := by
  have hp : k.setKeyParse S (some text) = some (k.emitBeforeChanged.positionFrom S text) := by
    simp [CSwordVerseKey.setKeyParse, hne]
  have hs := setKey_of_parse S k _ _ hp
  simp only [CSwordVerseKey.positionFrom, CSwordVerseKey.emitBeforeChanged] at hs
  constructor
  · exact ⟨_, hs, rfl, rfl⟩
  · intro bible _ he hpos
    rw [he] at hs
    exact ⟨_, hs, hpos⟩

/-- Witness of C14, amended: the text `Rev 5:3` on a key bound to the Bible module over
all of `demoCanon`; the parse leaves the canon and ends on Rev 1:2, the upper bound. -/
theorem setKey_reports_parse_witness :
    ∃ k1, (demoKey 1 1 1 1 false (some demoBible)).setKey demoSword (some "Rev 5:3") =
        some (false, k1) ∧ k1.vk.pos = demoBounds.upperBound.pos :=
  (setKey_reports_parse demoSword (demoKey 1 1 1 1 false (some demoBible)) "Rev 5:3"
    (by decide)).2 demoBounds rfl rfl rfl

/-- What `setModule` does with a new Bible or Commentary module `m` that has bounds, when
the comparison orders positions, the lower bound is not above the upper bound and the
textual keys of both bounds round-trip.  The call completes and binds the key to `m`.
A key below the lower bound is put on it, a key above the upper bound is put on that, in
both cases through `setKey`, which emits `beforeChanged` and `afterChanged`; any other
key keeps its state and nothing is emitted. -/
theorem setModule_spec (S : Sword) (k : CSwordVerseKey) (m : CSwordModuleInfo)
    (bible : CSwordBibleModuleInfo)
    (hty : m.type = ModuleType.Bible ∨ m.type = ModuleType.Commentary)
    (hb : m.bible = some bible) (hcmp : S.ComparesPositions)
    (hle : ¬ S.compare bible.lowerBound bible.upperBound > 0)
    (hl : S.RoundTrip bible.lowerBound) (hu : S.RoundTrip bible.upperBound) :
    ∃ k1, k.setModule S (some m) false = some k1 ∧ k1.m_module = some m ∧
      (S.compare k.vk bible.lowerBound < 0 →
        k1.vk.pos = bible.lowerBound.pos ∧
        k1.signals = k.signals ++
          [Signal.beforeChanged k.vk.pos, Signal.afterChanged bible.lowerBound.pos]) ∧
      (S.compare k.vk bible.upperBound > 0 →
        k1.vk.pos = bible.upperBound.pos ∧
        k1.signals = k.signals ++
          [Signal.beforeChanged k.vk.pos, Signal.afterChanged bible.upperBound.pos]) ∧
      (¬ S.compare k.vk bible.lowerBound < 0 → ¬ S.compare k.vk bible.upperBound > 0 →
        k1.vk = k.vk ∧ k1.signals = k.signals) := by
  unfold CSwordVerseKey.setModule
  simp only [Bool.false_eq_true, if_false, hty, if_true, hb]
  by_cases hlow : S.compare k.vk bible.lowerBound < 0
  · obtain ⟨k1, hk1, hpos1, _, hmod1, hsig1⟩ := setKeyTo_roundtrip S
      { vk := k.vk, m_module := some m, signals := k.signals } bible.lowerBound hl
    have hnotup : ¬ S.compare k1.vk bible.upperBound > 0 := by
      rw [hcmp.pos_left k1.vk bible.lowerBound bible.upperBound hpos1]
      exact hle
    have hnotup0 : ¬ S.compare k.vk bible.upperBound > 0 := by
      apply hcmp.le_trans k.vk bible.lowerBound bible.upperBound _ hle
      intro hgt
      omega
    refine ⟨k1, ?_, hmod1, ?_, ?_, ?_⟩
    · simp [hlow, hk1, hnotup]
    · intro _; exact ⟨hpos1, hsig1⟩
    · intro hgt; exact absurd hgt hnotup0
    · intro hn; exact absurd hlow hn
  · by_cases hup : S.compare k.vk bible.upperBound > 0
    · obtain ⟨k1, hk1, hpos1, _, hmod1, hsig1⟩ := setKeyTo_roundtrip S
        { vk := k.vk, m_module := some m, signals := k.signals } bible.upperBound hu
      refine ⟨k1, ?_, hmod1, ?_, ?_, ?_⟩
      · simp [hlow, hup, hk1]
      · intro h; exact absurd h hlow
      · intro _; exact ⟨hpos1, hsig1⟩
      · intro _ hn; exact absurd hup hn
    · refine ⟨{ vk := k.vk, m_module := some m, signals := k.signals }, ?_, rfl, ?_, ?_, ?_⟩
      · simp [hlow, hup]
      · intro h; exact absurd h hlow
      · intro h; exact absurd h hup
      · intro _ _; exact ⟨rfl, rfl⟩

/-- C15: rebinding clamps into the range of the new module.  For a Bible or Commentary
module `m` that is not the module already bound (`same` is false), has bounds, and whose
lower bound is not above its upper bound, `setModule(m)` completes, the key is bound to
`m`, and its position is the lower bound if the old position was below it, the upper
bound if the old position was above it, and unchanged otherwise.  The comparison of the
Sword library is assumed to order positions and the textual keys of the two bounds to
round-trip. -/
theorem setModule_clamps (S : Sword) (k : CSwordVerseKey) (m : CSwordModuleInfo)
    (bible : CSwordBibleModuleInfo)
    (hty : m.type = ModuleType.Bible ∨ m.type = ModuleType.Commentary)
    (hb : m.bible = some bible) (hcmp : S.ComparesPositions)
    (hle : ¬ S.compare bible.lowerBound bible.upperBound > 0)
    (hl : S.RoundTrip bible.lowerBound) (hu : S.RoundTrip bible.upperBound) :
    ∃ k1, k.setModule S (some m) false = some k1 ∧ k1.m_module = some m ∧
      (S.compare k.vk bible.lowerBound < 0 → k1.vk.pos = bible.lowerBound.pos) ∧
      (S.compare k.vk bible.upperBound > 0 → k1.vk.pos = bible.upperBound.pos) ∧
      (¬ S.compare k.vk bible.lowerBound < 0 → ¬ S.compare k.vk bible.upperBound > 0 →
        k1.vk.pos = k.vk.pos) := by
  obtain ⟨k1, h1, hmod, hlow, hup, hmid⟩ := setModule_spec S k m bible hty hb hcmp hle hl hu
  exact ⟨k1, h1, hmod, fun h => (hlow h).1, fun h => (hup h).1,
    fun hn1 hn2 => by rw [(hmid hn1 hn2).1]⟩

/-- Witness of C15: a key at Matt 1:1 bound to the Bible module over all of `demoCanon` is
rebound to the module that holds testament 1 only, and ends on its upper bound. -/
theorem setModule_clamps_witness :
    ∃ k1, (demoKey 2 1 1 1 false (some demoBible)).setModule demoSword (some demoOtBible)
        false = some k1 ∧ k1.m_module = some demoOtBible ∧
      k1.vk.pos = demoOtBounds.upperBound.pos := by
  obtain ⟨k1, h1, hmod, _, hup, _⟩ :=
    setModule_clamps demoSword (demoKey 2 1 1 1 false (some demoBible)) demoOtBible
      demoOtBounds (Or.inl rfl) rfl (sword_comparesPositions demoCanon) (by decide)
      ⟨by decide, fun _ => ⟨rfl, rfl⟩⟩ ⟨by decide, fun _ => ⟨rfl, rfl⟩⟩
  exact ⟨k1, h1, hmod, hup (by decide)⟩

/-- C16, as the claim states it, fails.  Rebinding the key at Matt 1:1 to the module that
holds testament 1 of `demoCanon` only snaps it to the upper bound Mal 1:2 through
`setKey`, which emits `beforeChanged` and `afterChanged`. -/
theorem setModule_emits_on_snap :
    ∃ k1, (demoKey 2 1 1 1 false (some demoBible)).setModule demoSword (some demoOtBible)
        false = some k1 ∧
      k1.signals =
        [Signal.beforeChanged { testament := 2, book := 1, chapter := 1, verse := 1 },
         Signal.afterChanged { testament := 1, book := 2, chapter := 1, verse := 2 }] :=
  ⟨_, rfl, rfl⟩

/-- C16, amended.  `setModule` emits no notification when it returns at once (the module
is the one already bound) and when the position lies within the bounds of the new
module.  When the position has to be snapped to the lower or the upper bound, the snap
goes through `setKey`, which emits `beforeChanged` at the old position and
`afterChanged` at the bound. -/
theorem setModule_signals (S : Sword) (k : CSwordVerseKey) (m : CSwordModuleInfo)
    (bible : CSwordBibleModuleInfo)
    (hty : m.type = ModuleType.Bible ∨ m.type = ModuleType.Commentary)
    (hb : m.bible = some bible) (hcmp : S.ComparesPositions)
    (hle : ¬ S.compare bible.lowerBound bible.upperBound > 0)
    (hl : S.RoundTrip bible.lowerBound) (hu : S.RoundTrip bible.upperBound) :
    k.setModule S (some m) true = some k ∧
    ∃ k1, k.setModule S (some m) false = some k1 ∧
      (¬ S.compare k.vk bible.lowerBound < 0 → ¬ S.compare k.vk bible.upperBound > 0 →
        k1.signals = k.signals) ∧
      (S.compare k.vk bible.lowerBound < 0 →
        k1.signals = k.signals ++
          [Signal.beforeChanged k.vk.pos, Signal.afterChanged bible.lowerBound.pos]) ∧
      (S.compare k.vk bible.upperBound > 0 →
        k1.signals = k.signals ++
          [Signal.beforeChanged k.vk.pos, Signal.afterChanged bible.upperBound.pos]) := by
  obtain ⟨k1, h1, _, hlow, hup, hmid⟩ := setModule_spec S k m bible hty hb hcmp hle hl hu
  exact ⟨by simp [CSwordVerseKey.setModule], k1, h1, fun hn1 hn2 => (hmid hn1 hn2).2,
    fun h => (hlow h).2, fun h => (hup h).2⟩

/-- Witness of C16, amended: a key at Gen 1:1, rebound to the module that holds
testament 1 only. -/
theorem setModule_signals_witness :
    (demoKey 1 1 1 1 false (some demoBible)).setModule demoSword (some demoOtBible) true =
      some (demoKey 1 1 1 1 false (some demoBible)) ∧
    ∃ k1, (demoKey 1 1 1 1 false (some demoBible)).setModule demoSword (some demoOtBible)
        false = some k1 ∧
      k1.signals = (demoKey 1 1 1 1 false (some demoBible)).signals := by
  obtain ⟨hs, k1, h1, hmid, _, _⟩ :=
    setModule_signals demoSword (demoKey 1 1 1 1 false (some demoBible)) demoOtBible
      demoOtBounds (Or.inl rfl) rfl (sword_comparesPositions demoCanon) (by decide)
      ⟨by decide, fun _ => ⟨rfl, rfl⟩⟩ ⟨by decide, fun _ => ⟨rfl, rfl⟩⟩
  exact ⟨hs, k1, h1, hmid (by decide) (by decide)⟩

/-- C17: evaluation of the code where the claim fails.  `book()` with no argument returns
a name exactly when the testament lies in `[min+1, max+1]` and the book index does not
exceed `BMAX[min]`, the book count of the first testament of the range, which is not
`BMAX[testament-1]` for a key in testament 2 when the range is 1..2.  In `skewCanon`,
whose testament 1 has one book and whose testament 2 has two, the unbound key at Rev 1:1
(testament 2, book 2, range 1..2, `BMAX[1]` = 2) gets the null string. -/
theorem book_checks_first_testament :
    (∀ (S : Sword) (k : CSwordVerseKey),
      ((k.book S "").1 ≠ none ↔
        (k.vk.pos.testament ≥ k.testamentRange.1 + 1 ∧
          k.vk.pos.testament ≤ k.testamentRange.2 + 1 ∧
          k.vk.pos.book ≤ S.BMAX k.testamentRange.1))) ∧
    (demoKey 2 2 1 1 false none).testamentRange = (0, 1) ∧
    (demoKey 2 2 1 1 false none).vk.pos.book ≤
      skewSword.BMAX ((demoKey 2 2 1 1 false none).vk.pos.testament - 1) ∧
    ((demoKey 2 2 1 1 false none).book skewSword "").1 = none := by
  refine ⟨?_, rfl, by decide, by decide⟩
  intro S k
  unfold CSwordVerseKey.book
  simp only [ne_eq, not_true_eq_false, if_false]
  split <;> simp_all

/-- C18, as the claim states it, fails.  On the key at Gen 1:1 bound to the module that
holds testament 1 of `demoCanon` only, `book("Matt")` returns the null string, and the
key has moved to testament 2, book 1: the name is resolved in the whole canon. -/
theorem book_name_leaves_module :
    (demoKey 1 1 1 1 false (some demoOtBible)).testamentRange = (0, 0) ∧
    (demoKey 1 1 1 1 false (some demoOtBible)).book demoSword "Matt" =
      (none, demoKey 2 1 1 1 false (some demoOtBible)) :=
  ⟨by decide, by decide⟩

/-- C18, amended.  `book(newBookName)` hands every name that is not empty to
`setBookName` of the Sword library, whatever testaments the bound module contains, and
the key afterwards is what `setBookName` leaves, with module and notifications
untouched.  So when the library does not resolve the name and leaves the position alone,
testament and book after the call equal those before it; a name that the library
resolves moves the key, also out of the testaments of the module. -/
theorem book_name_sets_key (S : Sword) (k : CSwordVerseKey) (name : String)
    (hne : name ≠ "") :
    (k.book S name).2 =
      { vk := S.setBookName k.vk name, m_module := k.m_module, signals := k.signals } ∧
    ((S.setBookName k.vk name).pos = k.vk.pos →
      (k.book S name).2.vk.pos.testament = k.vk.pos.testament ∧
      (k.book S name).2.vk.pos.book = k.vk.pos.book) := by
  have h : (k.book S name).2 =
      { vk := S.setBookName k.vk name, m_module := k.m_module, signals := k.signals } := by
    unfold CSwordVerseKey.book
    simp only [ne_eq, hne, not_false_eq_true, if_true]
    split <;> rfl
  refine ⟨h, ?_⟩
  intro hp
  rw [h]
  simp only [hp, and_self]

/-- Witness of C18, amended: a name that `demoCanon` does not know. -/
theorem book_name_sets_key_witness :
    ((demoKey 1 2 1 2 false (some demoOtBible)).book demoSword "Xyz").2.vk.pos.testament =
      (demoKey 1 2 1 2 false (some demoOtBible)).vk.pos.testament ∧
    ((demoKey 1 2 1 2 false (some demoOtBible)).book demoSword "Xyz").2.vk.pos.book =
      (demoKey 1 2 1 2 false (some demoOtBible)).vk.pos.book :=
  (book_name_sets_key demoSword (demoKey 1 2 1 2 false (some demoOtBible)) "Xyz"
    (by decide)).2 rfl

/-- C19, as the claim states it, fails.  For the key at Rev 1:1 of `demoCanon`, `rawKey()`
is `Rev 1:1` under the first display locale and `Offb 1:1` under the second: it is not
the same under both, and under the second it is the string `key()` returns, with the
book name of the locale. -/
theorem rawKey_follows_locale :
    (demoKey 2 2 1 1 false none).rawKey demoSword = "Rev 1:1" ∧
    (demoKey 2 2 1 1 false none).rawKey demoSwordDe = "Offb 1:1" ∧
    (demoKey 2 2 1 1 false none).key demoSwordDe = "Offb 1:1" ∧
    (demoKey 2 2 1 1 false none).rawKey demoSword ≠
      (demoKey 2 2 1 1 false none).rawKey demoSwordDe :=
  ⟨by decide, by decide, by decide, by decide⟩

/-- C19, amended.  `rawKey()` returns `getText()`, the string `key()` returns, whatever
the position and whatever the Sword library and its display locale: `rawKey()` is the
UTF-8 encoding of `key()`, and it is independent of the locale only where `key()` is. -/
theorem rawKey_eq_key (S : Sword) (k : CSwordVerseKey) :
    k.rawKey S = k.key S ∧
    ∀ S2 : Sword, (k.rawKey S = k.rawKey S2 ↔ k.key S = k.key S2) := by
  have h : ∀ S1 : Sword, k.rawKey S1 = k.key S1 := by
    intro S1
    unfold CSwordVerseKey.rawKey CSwordVerseKey.key
    rfl
  refine ⟨h S, ?_⟩
  intro S2
  rw [h S, h S2]

/-- The verse branch of the switch of `next` on a live module: the switch does not fault
and leaves the key bound to the same module, whose Sword module has the flags it had
before, if the cursor operations of the library keep the flags. -/
theorem nextSwitch_verse_flags (S : Sword) (k : CSwordVerseKey) (m : CSwordModuleInfo)
    (sw : SWModule) (hK : S.KeepsCursorFlags) (hm : k.m_module = some m)
    (hsw : m.module = some sw) (hok : m.bibleCastOk) :
    ∃ ret k1 sw1, k.nextSwitch S JumpType.UseVerse = SwitchResult.stepped ret k1 ∧
      k1.m_module = some { m with module := some sw1 } ∧
      sw1.intros = sw.intros ∧ sw1.skipConsecutiveLinks = sw.skipConsecutiveLinks := by
  unfold CSwordVerseKey.nextSwitch
  simp only [CSwordVerseKey.popError, hm, hsw]
  split
  · have hd : ∀ (k2 : CSwordVerseKey) (sw2 : SWModule) (t : String),
        (k2.withSwModule m sw2).setKeyDefined (some t) :=
      fun _ _ _ _ => ⟨_, rfl, hok⟩
    obtain ⟨r, hr, hmod, _⟩ := setKey_frame S _ _ (hd _ _ _)
    rw [hr]
    refine ⟨_, _, _, rfl, hmod, ?_, ?_⟩
    · simp [SWModule.popError, hK.setIntros_intros]
    · simp [SWModule.popError]
  · refine ⟨_, _, _, rfl, rfl, ?_, ?_⟩
    · rw [(hK.setCursorText_flags _ _).1]
      simp [SWModule.popError, hK.setIntros_intros]
    · rw [(hK.setCursorText_flags _ _).2]
      simp [SWModule.popError]

/-- The verse branch of the switch of `previous` on a live module: the switch does not
fault and leaves the key bound to the same module, whose Sword module has the flags it
had before, if the cursor operations of the library keep the flags. -/
theorem previousSwitch_verse_flags (S : Sword) (k : CSwordVerseKey) (m : CSwordModuleInfo)
    (sw : SWModule) (hK : S.KeepsCursorFlags) (hm : k.m_module = some m)
    (hsw : m.module = some sw) (hok : m.bibleCastOk) :
    ∃ ret k1 sw1, k.previousSwitch S JumpType.UseVerse = SwitchResult.stepped ret k1 ∧
      k1.m_module = some { m with module := some sw1 } ∧
      sw1.intros = sw.intros ∧ sw1.skipConsecutiveLinks = sw.skipConsecutiveLinks := by
  have hskip : ∀ t : String,
      (S.setCursorText (S.setIntros sw true) t).skipConsecutiveLinks =
        sw.skipConsecutiveLinks := by
    intro t
    rw [(hK.setCursorText_flags _ _).2, hK.setIntros_skip]
  unfold CSwordVerseKey.previousSwitch
  simp only [hm, hsw]
  split
  · have hd : ∀ (k2 : CSwordVerseKey) (sw2 : SWModule) (t : String),
        (k2.withSwModule m sw2).setKeyDefined (some t) :=
      fun _ _ _ _ => ⟨_, rfl, hok⟩
    obtain ⟨r, hr, hmod, _⟩ := setKey_frame S _ _ (hd _ _ _)
    rw [hr]
    refine ⟨_, _, _, rfl, hmod, ?_, ?_⟩
    · simp [SWModule.popError, hK.setIntros_intros]
    · simp [SWModule.popError, hskip]
  · refine ⟨_, _, _, rfl, rfl, ?_, ?_⟩
    · rw [(hK.setCursorText_flags _ _).1]
      simp [SWModule.popError, hK.setIntros_intros]
    · rw [(hK.setCursorText_flags _ _).2]
      simp [SWModule.popError, hskip]

/-- C20: verse stepping restores the flags of the borrowed cursor.  On a key bound to a
live module, `next(UseVerse)` and `previous(UseVerse)` complete, on whatever path
(success, error reported by the module, clamp afterwards), with the key bound to the
same module and the Sword module holding the skip-consecutive-links flag and the
intro-headings flag it had before the call.  The cursor operations of the Sword library
are assumed to keep the two flags (`Sword.KeepsCursorFlags`). -/
theorem verse_step_restores_flags (S : Sword) (k : CSwordVerseKey) (m : CSwordModuleInfo)
    (sw : SWModule) (hK : S.KeepsCursorFlags) (hm : k.m_module = some m)
    (hsw : m.module = some sw) (hok : m.bibleCastOk) :
    (∃ r sw1, k.next S JumpType.UseVerse = some r ∧
      r.2.m_module = some { m with module := some sw1 } ∧
      sw1.intros = sw.intros ∧ sw1.skipConsecutiveLinks = sw.skipConsecutiveLinks) ∧
    (∃ r sw1, k.previous S JumpType.UseVerse = some r ∧
      r.2.m_module = some { m with module := some sw1 } ∧
      sw1.intros = sw.intros ∧ sw1.skipConsecutiveLinks = sw.skipConsecutiveLinks) := by
  have core : ∀ (ret : Bool) (k1 : CSwordVerseKey) (sw1 : SWModule),
      k1.m_module = some { m with module := some sw1 } →
      ∃ r, CSwordVerseKey.postStep S k1 ret = some r ∧
        r.2.m_module = some { m with module := some sw1 } := by
    intro ret k1 sw1 hm1
    have hok1 : k1.moduleOk := by
      intro m2 h2
      rw [hm1] at h2
      cases h2
      exact hok
    obtain ⟨r, hr, hmod, _⟩ := postStep_frame S k1 ret k1.signals hok1 (Or.inl rfl)
    exact ⟨r, hr, hmod.trans hm1⟩
  constructor
  · obtain ⟨ret, k1, sw1, hs, hm1, hi, hsk⟩ := nextSwitch_verse_flags S k m sw hK hm hsw hok
    obtain ⟨r, hr, hmod⟩ := core ret k1 sw1 hm1
    exact ⟨r, sw1, by rw [next_eq_finish, hs]; exact hr, hmod, hi, hsk⟩
  · obtain ⟨ret, k1, sw1, hs, hm1, hi, hsk⟩ :=
      previousSwitch_verse_flags S k m sw hK hm hsw hok
    obtain ⟨r, hr, hmod⟩ := core ret k1 sw1 hm1
    exact ⟨r, sw1, by rw [previous_eq_finish, hs]; exact hr, hmod, hi, hsk⟩

/-- The cursor operations of the reference instance keep the two flags, whatever the
scheme. -/
theorem sword_keepsCursorFlags (V : Versification) : V.sword.KeepsCursorFlags := by
  constructor
  · intro m b; rfl
  · intro m b; rfl
  · intro m t; exact ⟨rfl, rfl⟩
  · intro m; exact ⟨rfl, rfl⟩
  · intro m; exact ⟨rfl, rfl⟩

/-- Witness of C20: a key at Gen 1:3 bound to the Bible module, whose Sword module has
both flags clear. -/
theorem verse_step_restores_flags_witness :
    (∃ r sw1, (demoKey 1 1 1 3 false (some demoBible)).next demoSword JumpType.UseVerse =
        some r ∧
      r.2.m_module = some { demoBible with module := some sw1 } ∧
      sw1.intros = demoSwModule.intros ∧
      sw1.skipConsecutiveLinks = demoSwModule.skipConsecutiveLinks) ∧
    (∃ r sw1, (demoKey 1 1 1 3 false (some demoBible)).previous demoSword JumpType.UseVerse =
        some r ∧
      r.2.m_module = some { demoBible with module := some sw1 } ∧
      sw1.intros = demoSwModule.intros ∧
      sw1.skipConsecutiveLinks = demoSwModule.skipConsecutiveLinks) :=
  verse_step_restores_flags demoSword (demoKey 1 1 1 3 false (some demoBible)) demoBible
    demoSwModule (sword_keepsCursorFlags demoCanon) rfl rfl (fun _ => by decide)

/-! ## Results on the module cursor error, the bookmark tree and the module chooser bar -/

/-- The verse branch of the switch of `next` on a live module, in terms of `nextCursor`:
when the module reports an error, `ret` is false, the key is untouched and the cursor
is put back on the text of the key. -/
theorem nextSwitch_cursor_error (S : Sword) (k : CSwordVerseKey) (m : CSwordModuleInfo)
    (sw : SWModule) (hm : k.m_module = some m) (hsw : m.module = some sw)
    (herr : (k.popError.2.nextCursor S sw).error = true) :
    k.nextSwitch S JumpType.UseVerse =
      SwitchResult.stepped false
        (k.popError.2.withSwModule m
          (S.setCursorText (k.popError.2.nextCursor S sw).popError.2 (k.popError.2.key S))) := by
  have hm0 : k.popError.2.m_module = some m := hm
  unfold CSwordVerseKey.nextSwitch
  simp only [hm0, hsw]
  unfold CSwordVerseKey.nextCursor at herr
  simp only [SWModule.popError] at herr ⊢
  simp only [herr, Bool.not_true, Bool.false_eq_true, if_false]
  rfl

/-- The verse branch of the switch of `previous` on a live module, in terms of
`previousCursor`: when the module reports an error, `ret` is false, the key is untouched
and the cursor is put back on the text of the key. -/
theorem previousSwitch_cursor_error (S : Sword) (k : CSwordVerseKey) (m : CSwordModuleInfo)
    (sw : SWModule) (hm : k.m_module = some m) (hsw : m.module = some sw)
    (herr : (k.previousCursor S sw).error = true) :
    k.previousSwitch S JumpType.UseVerse =
      SwitchResult.stepped false
        (k.withSwModule m
          (S.setCursorText (k.previousCursor S sw).popError.2 (k.key S))) := by
  unfold CSwordVerseKey.previousSwitch
  simp only [hm, hsw]
  unfold CSwordVerseKey.previousCursor at herr
  simp only [SWModule.popError] at herr ⊢
  simp only [herr, Bool.not_true, Bool.false_eq_true, if_false]
  rfl

/-- C21: module cursor error recovery.  On a key bound to a live module, whose position
lies within the bounds of the module (if it has bounds), when the cursor step of the
module reports an error, `next(UseVerse)` and `previous(UseVerse)` return false, leave
the position of the key unchanged, and the last thing done to the cursor of the module
is to set its text to the textual key of the key.  This holds whatever the Sword
library. -/
theorem cursor_error_recovery (S : Sword) (k : CSwordVerseKey) (m : CSwordModuleInfo)
    (sw : SWModule) (hm : k.m_module = some m) (hsw : m.module = some sw)
    (hin : ∀ e : Bool, k.withinBounds S { pos := k.vk.pos, error := e }) :
    ((k.popError.2.nextCursor S sw).error = true →
      ∃ k1, k.next S JumpType.UseVerse = some (false, k1) ∧ k1.vk.pos = k.vk.pos ∧
        k1.m_module = (k.withSwModule m
          (S.setCursorText (k.popError.2.nextCursor S sw).popError.2
            (k.popError.2.key S))).m_module) ∧
    ((k.previousCursor S sw).error = true →
      ∃ k1, k.previous S JumpType.UseVerse = some (false, k1) ∧ k1.vk.pos = k.vk.pos ∧
        k1.m_module = (k.withSwModule m
          (S.setCursorText (k.previousCursor S sw).popError.2 (k.key S))).m_module) := by
  have core : ∀ (v : VerseKey) (sw1 : SWModule), v.pos = k.vk.pos →
      ∃ r, CSwordVerseKey.postStep S
          (CSwordVerseKey.withSwModule { vk := v, m_module := k.m_module, signals := k.signals }
            m sw1) false = some (false, r) ∧
        r.vk.pos = k.vk.pos ∧ r.m_module = some { m with module := some sw1 } := by
    intro v sw1 hv
    have hw : (CSwordVerseKey.withSwModule
        { vk := v, m_module := k.m_module, signals := k.signals } m sw1).withinBounds S v := by
      intro bible hb
      have hb2 : k.bibleInfo = some bible := by
        simpa [CSwordVerseKey.bibleInfo, CSwordVerseKey.withSwModule, hm] using hb
      have := hin v.error bible hb2
      rw [← hv] at this
      exact this
    obtain ⟨r, hr, hpos, hmod, hnone, hsome⟩ := postStep_within S _ false hw
    have hr1 : r.1 = false := by
      by_cases hbi : (CSwordVerseKey.withSwModule
          { vk := v, m_module := k.m_module, signals := k.signals } m sw1).bibleInfo = none
      · simpa using hnone hbi
      · exact hsome hbi
    exact ⟨r.2, by rw [hr, ← hr1], hpos.trans hv, hmod⟩
  constructor
  · intro herr
    rw [next_eq_finish, nextSwitch_cursor_error S k m sw hm hsw herr]
    exact core _ _ rfl
  · intro herr
    rw [previous_eq_finish, previousSwitch_cursor_error S k m sw hm hsw herr]
    exact core _ _ rfl

/-- Rev 1:2, the upper bound of `demoBible`, lies within its bounds. -/
theorem demoBible_holds_last (e e1 : Bool) :
    (demoKey 2 2 1 2 e (some demoBible)).withinBounds demoSword
      { pos := (demoKey 2 2 1 2 e (some demoBible)).vk.pos, error := e1 } := by
  intro bible hb
  have hb2 : bible = demoBounds := by
    simp [CSwordVerseKey.bibleInfo, demoKey, demoBible] at hb
    exact hb.symm
  subst hb2
  simp [demoSword, Versification.sword, Position.compare, demoBounds, demoKey]

/-- Witness of C21: `next(UseVerse)` from Rev 1:2, the last verse of `demoCanon`, on a key
bound to the Bible module; the cursor of the module cannot step past the canon. -/
theorem cursor_error_recovery_witness :
    ∃ k1, (demoKey 2 2 1 2 false (some demoBible)).next demoSword JumpType.UseVerse =
        some (false, k1) ∧
      k1.vk.pos = (demoKey 2 2 1 2 false (some demoBible)).vk.pos ∧
      k1.m_module = ((demoKey 2 2 1 2 false (some demoBible)).withSwModule demoBible
        (demoSword.setCursorText
          ((demoKey 2 2 1 2 false (some demoBible)).popError.2.nextCursor demoSword
            demoSwModule).popError.2
          ((demoKey 2 2 1 2 false (some demoBible)).popError.2.key demoSword))).m_module :=
  (cursor_error_recovery demoSword (demoKey 2 2 1 2 false (some demoBible)) demoBible
    demoSwModule rfl rfl (fun e1 => demoBible_holds_last false e1)).1 (by decide)

/-- Taking the first button `n` times from a list of at least `n` buttons drops the
first `n` buttons. -/
theorem takeFirstLoop_drop (n : Nat) (b : BtModuleChooserBar) (h : n ≤ b.m_buttonList.length) :
    BtModuleChooserBar.takeFirstLoop n b =
      some { b with m_buttonList := b.m_buttonList.drop n } := by
  induction n generalizing b with
  | zero => simp [BtModuleChooserBar.takeFirstLoop]
  | succ n ih =>
    obtain ⟨l, ms, ty, nb⟩ := b
    cases l with
    | nil => simp at h
    | cons x rest =>
      simp only [BtModuleChooserBar.takeFirstLoop]
      rw [ih]
      · simp
      · simpa using h

/-- Adding a button `n` times appends `n` new buttons at the end and touches nothing
else. -/
theorem addLoop_append (n : Nat) (b : BtModuleChooserBar) :
    (BtModuleChooserBar.addLoop n b).m_buttonList =
        b.m_buttonList ++ List.range' b.nextButton n ∧
      (BtModuleChooserBar.addLoop n b).m_modules = b.m_modules ∧
      (BtModuleChooserBar.addLoop n b).m_moduleType = b.m_moduleType := by
  induction n generalizing b with
  | zero => simp [BtModuleChooserBar.addLoop]
  | succ n ih =>
    simp only [BtModuleChooserBar.addLoop]
    obtain ⟨h1, h2, h3⟩ := ih b.addButton
    refine ⟨?_, h2, h3⟩
    rw [h1]
    simp [BtModuleChooserBar.addButton, List.range'_succ]

/-- The result of `adjustButtonCount(false)` for a wanted number `target` of buttons: the
call completes with `target` buttons; surplus buttons have gone from the front, missing
ones are new buttons at the end. -/
theorem adjust_to_target (b : BtModuleChooserBar) (target : Nat) (d : Int)
    (hd : d = (b.m_buttonList.length : Int) - (target : Int)) :
    ∃ b1, (if d > 0 then BtModuleChooserBar.takeFirstLoop d.toNat b
        else if d < 0 then some (BtModuleChooserBar.addLoop (d * -1).toNat b)
        else some b) = some b1 ∧
      b1.m_buttonList.length = target ∧
      ((∃ n, b1.m_buttonList = b.m_buttonList.drop n) ∨
        (∃ n, b1.m_buttonList = b.m_buttonList ++ List.range' b.nextButton n)) := by
  by_cases h1 : d > 0
  · have hle : d.toNat ≤ b.m_buttonList.length := by omega
    refine ⟨_, by rw [if_pos h1]; exact takeFirstLoop_drop d.toNat b hle, ?_, Or.inl ⟨_, rfl⟩⟩
    simp only [List.length_drop]
    omega
  · by_cases h2 : d < 0
    · refine ⟨_, by rw [if_neg h1, if_pos h2], ?_, Or.inr ⟨_, (addLoop_append _ b).1⟩⟩
      rw [(addLoop_append _ b).1]
      simp only [List.length_append, List.length_range']
      omega
    · refine ⟨b, by rw [if_neg h1, if_neg h2], by omega, Or.inl ⟨0, by simp⟩⟩

/-- C26: `adjustButtonCount` fixes the number of buttons.  For every list of buttons and
every list of modules, `adjustButtonCount(true)` completes and leaves no button;
`adjustButtonCount(false)` completes and leaves `modules.count() + 1` buttons when the
module type is not `GenericBook` and one button when it is; surplus buttons are taken
from the front of the list and missing ones are new buttons appended at the end. -/
theorem adjustButtonCount_fixes_count (b : BtModuleChooserBar) :
    b.adjustButtonCount true = some { b with m_buttonList := [] } ∧
    ∃ b1, b.adjustButtonCount false = some b1 ∧
      (b.m_moduleType ≠ ModuleType.GenericBook →
        b1.m_buttonList.length = b.m_modules.length + 1) ∧
      (b.m_moduleType = ModuleType.GenericBook → b1.m_buttonList.length = 1) ∧
      ((∃ n, b1.m_buttonList = b.m_buttonList.drop n) ∨
        (∃ n, b1.m_buttonList = b.m_buttonList ++ List.range' b.nextButton n)) := by
  constructor
  · unfold BtModuleChooserBar.adjustButtonCount
    simp only [if_true, not_true_eq_false, and_false, if_false]
    by_cases h : (b.m_buttonList.length : Int) > 0
    · rw [if_pos h, takeFirstLoop_drop _ b (by omega)]
      simp
    · have h0 : b.m_buttonList = [] := by
        cases hl : b.m_buttonList with
        | nil => rfl
        | cons x rest => simp [hl] at h
      have h2 : ¬ (b.m_buttonList.length : Int) < 0 := by omega
      rw [if_neg h, if_neg h2]
      obtain ⟨l, ms, ty, nb⟩ := b
      simp only at h0
      subst h0
      rfl
  · by_cases hty : b.m_moduleType = ModuleType.GenericBook
    · obtain ⟨b1, h1, hlen, hshape⟩ := adjust_to_target b 1
        ((1 - (b.m_buttonList.length : Int)) * -1) (by push_cast; ring)
      refine ⟨b1, ?_, fun hn => absurd hty hn, fun _ => hlen, hshape⟩
      unfold BtModuleChooserBar.adjustButtonCount
      simpa [hty] using h1
    · obtain ⟨b1, h1, hlen, hshape⟩ := adjust_to_target b (b.m_modules.length + 1)
        ((b.m_buttonList.length : Int) - ((b.m_modules.length : Int) + 1)) (by push_cast; ring)
      refine ⟨b1, ?_, fun _ => hlen, fun hy => absurd hy hty, hshape⟩
      unfold BtModuleChooserBar.adjustButtonCount
      simpa [hty] using h1

/-- C24: evaluation of the code where the claim fails.  `setKey` with the empty text on a
key with no module reaches `m->type()` with a null `m` (line 143): the call has no
result, whatever the Sword library, the position and the pending flag.  The bookmark
code gets there: `BookmarkItem::key()` of a bookmark with an empty key and the name of a
Bible module builds `CSwordVerseKey vk(0)` and calls `vk.setKey` with the empty text,
while a key that is not empty goes through. -/
theorem setKey_empty_text_unbound_faults :
    (∀ (S : Sword) (v : VerseKey) (sig : List Signal),
      CSwordVerseKey.setKey S { vk := v, m_module := none, signals := sig } (some "") =
        none) ∧
    BookmarkItem.key demoSword demoSwordDe demoBackend demoDefaultKey "" "KJV" = none ∧
    BookmarkItem.key demoSword demoSwordDe demoBackend demoDefaultKey "Mal 1:2" "KJV" =
      some "Mal 1:2" := by
  refine ⟨?_, by decide, by decide⟩
  intro S v sig
  simp [CSwordVerseKey.setKey, CSwordVerseKey.setKeyParse]

/-- The recursive call of line 477 passes the child itself as the item, so it returns
true at once (line 467). -/
theorem hasDescendant_self (i : BookmarkItemBase) :
    BookmarkFolder.hasDescendant i i.addr = true := by
  cases i with
  | mk a k p t cs => simp [BookmarkFolder.hasDescendant, BookmarkItemBase.addr]

/-- The loop of lines 473-483 returns true exactly when some child is a folder. -/
theorem hasDescendantLoop_eq (cs : List BookmarkItemBase) :
    BookmarkFolder.hasDescendantLoop cs = cs.any BookmarkItemBase.isFolder := by
  induction cs with
  | nil => rfl
  | cons c rest ih =>
    simp only [BookmarkFolder.hasDescendantLoop, hasDescendant_self, ih, List.any_cons]
    cases c.isFolder <;> simp

/-- C22: evaluation of the code where the claim fails.  `hasDescendant(item)` is true
exactly when the item is the folder itself, or one of its children, or the folder has a
child that is a folder, whatever the item: line 477 passes `childItem` where it should
pass `item`.  For the root folder of `demoTree`, which has a sub-folder, and an item at
address 9, which is not in the tree, the result is true, while the item is neither the
folder nor a direct or indirect subitem. -/
theorem hasDescendant_true_with_subfolder :
    (∀ (f : BookmarkItemBase) (item : Nat),
      BookmarkFolder.hasDescendant f item =
        (decide (f.addr = item) || (f.children.map BookmarkItemBase.addr).contains item ||
          f.children.any BookmarkItemBase.isFolder)) ∧
    BookmarkFolder.hasDescendant demoTree 9 = true ∧
    demoTree.isThisOrSubitem 9 = false := by
  refine ⟨?_, by decide, by decide⟩
  intro f item
  cases f with
  | mk a k p t cs =>
    simp only [BookmarkFolder.hasDescendant, hasDescendantLoop_eq, BookmarkItemBase.addr,
      BookmarkItemBase.children]
    by_cases h1 : a = item
    · simp [h1]
    · by_cases h2 : (cs.map BookmarkItemBase.addr).contains item = true
      · simp [h1, h2]
      · simp [h1, h2]

/-- C23: evaluation of the code where the claim fails.  The deep copy of the root folder
of `demoTree` is a new folder without parent, with the text of the original and a copy
of each of the two children in order, each with the new folder as parent.  The copy of
the bookmark has the key, the description and the module name of the original, but not
its text: the copy constructor (line 540) sets the text anew from key and module, so the
title `In the beginning` becomes `Gen 1:1 (unknown)`. -/
theorem deepCopy_resets_bookmark_text :
    BookmarkFolder.deepCopy demoSword demoSwordDe demoBackend demoQt demoDefaultKey
        demoTree 10 =
      some (.mk 10 ItemKind.folder none "Root"
        [.mk 11 ItemKind.folder (some 10) "Psalms" [],
         .mk 12 (ItemKind.bookmark "Gen 1:1" "Creation" "NASB") (some 10)
           "Gen 1:1 (unknown)" []], 13) ∧
    (demoTree.children.map BookmarkItemBase.text = ["Psalms", "In the beginning"]) := by
  constructor
  · rfl
  · rfl

/-- The indices of a list, each looked up in the list, give the list. -/
theorem reorder_range (l : List BookmarkItemBase) :
    BookmarkItemBase.reorder (List.range l.length) l = l := by
  unfold BookmarkItemBase.reorder
  induction l with
  | nil => rfl
  | cons a l ih =>
    rw [List.length_cons, List.range_succ_eq_map, List.filterMap_cons]
    simp only [List.get?_cons_zero, List.filterMap_map]
    congr 1

/-- A list put in the order of a rearrangement of its indices is a rearrangement of the
list. -/
theorem reorder_perm (idx : List Nat) (l : List BookmarkItemBase)
    (h : idx.Perm (List.range l.length)) : (BookmarkItemBase.reorder idx l).Perm l := by
  have h1 := List.Perm.filterMap (fun i => l.get? i) h
  have h2 := reorder_range l
  unfold BookmarkItemBase.reorder at h2 ⊢
  rw [h2] at h1
  exact h1

/-- A list put in the order of indices that are all in range, by look-up with a default. -/
theorem reorder_eq_map (idx : List Nat) (l : List BookmarkItemBase) (d : BookmarkItemBase)
    (h : ∀ i ∈ idx, i < l.length) :
    BookmarkItemBase.reorder idx l = idx.map (fun i => l.getD i d) := by
  unfold BookmarkItemBase.reorder
  induction idx with
  | nil => rfl
  | cons a idx ih =>
    have ha : a < l.length := h a (List.mem_cons_self _ _)
    rw [List.filterMap_cons, List.map_cons, ih (fun i hi => h i (List.mem_cons_of_mem _ hi))]
    simp [List.getElem?_eq_getElem ha]

/-- The text at an index of the list of texts is the text of the item at that index. -/
theorem text_getD (l : List BookmarkItemBase) (i : Nat) :
    (l.map BookmarkItemBase.text).getD i "" =
      (l.getD i (BookmarkItemBase.mk 0 ItemKind.base none "" [])).text := by
  induction l generalizing i with
  | nil => rfl
  | cons a l ih =>
    cases i with
    | zero => rfl
    | succ n => simpa using ih n

/-- Two texts of which the comparison handed to `qSort` does not put the second before
the first are in order. -/
theorem inOrder_of_lessThan (Q : Qt) (hQ : Qt.SortsByText Q) (order : SortOrder)
    (a b : String) (h : BtBookmarksModel.lessThan Q order b a = false) :
    BtBookmarksModel.inOrder Q order a b := by
  cases order with
  | AscendingOrder =>
    simp only [BtBookmarksModel.lessThan, BtBookmarksModelSortAscending,
      decide_eq_false_iff_not] at h
    simp only [BtBookmarksModel.inOrder]
    intro hgt
    exact h ((hQ.compare_swap a b).mp hgt)
  | DescendingOrder =>
    simp only [BtBookmarksModel.lessThan, BtBookmarksModelSortDescending,
      decide_eq_false_iff_not] at h
    simp only [BtBookmarksModel.inOrder]
    intro hlt
    exact h ((hQ.compare_swap b a).mpr hlt)

/-- The sorted child list is a rearrangement of the child list. -/
theorem sortChildList_perm (Q : Qt) (hQ : Qt.SortsByText Q) (order : SortOrder)
    (l : List BookmarkItemBase) : (BtBookmarksModel.sortChildList Q order l).Perm l := by
  unfold BtBookmarksModel.sortChildList
  apply reorder_perm
  simpa using hQ.qSort_perm order (l.map BookmarkItemBase.text)

/-- The sorted child list is ordered by text. -/
theorem sortChildList_ordered (Q : Qt) (hQ : Qt.SortsByText Q) (order : SortOrder)
    (l : List BookmarkItemBase) :
    BtBookmarksModel.ordered Q order (BtBookmarksModel.sortChildList Q order l) := by
  unfold BtBookmarksModel.sortChildList BtBookmarksModel.ordered
  have hp := hQ.qSort_perm order (l.map BookmarkItemBase.text)
  have hs := hQ.qSort_sorted order (l.map BookmarkItemBase.text)
  rw [reorder_eq_map _ l (BookmarkItemBase.mk 0 ItemKind.base none "" [])]
  · rw [List.chain'_map]
    refine List.Chain'.imp ?_ hs
    intro i j hij
    rw [text_getD, text_getD] at hij
    exact inOrder_of_lessThan Q hQ order _ _ hij
  · intro i hi
    have := (hp.mem_iff).mp hi
    simpa using this

/-- The list function of `sortEvery` is the map over the list. -/
theorem sortEveryList_eq (Q : Qt) (order : SortOrder) (cs : List BookmarkItemBase) :
    BtBookmarksModel.sortEveryList Q order cs = cs.map (BtBookmarksModel.sortEvery Q order) := by
  induction cs with
  | nil => simp [BtBookmarksModel.sortEveryList]
  | cons c rest ih => simp [BtBookmarksModel.sortEveryList, ih]

/-- Sorting below an object leaves its own fields. -/
theorem sortEvery_fields (Q : Qt) (order : SortOrder) (i : BookmarkItemBase) :
    (BtBookmarksModel.sortEvery Q order i).fields = i.fields := by
  cases i with
  | mk a k p t cs =>
    simp [BtBookmarksModel.sortEvery, BookmarkItemBase.fields, BookmarkItemBase.addr,
      BookmarkItemBase.kind, BookmarkItemBase.parent, BookmarkItemBase.text]

/-- The child list of an object after the sort of everything below it. -/
theorem sortEvery_children (Q : Qt) (order : SortOrder) (i : BookmarkItemBase) :
    (BtBookmarksModel.sortEvery Q order i).children =
      if i.isFolder = true then
        BtBookmarksModel.sortChildList Q order
          (i.children.map (BtBookmarksModel.sortEvery Q order))
      else i.children.map (BtBookmarksModel.sortEvery Q order) := by
  cases i with
  | mk a k p t cs =>
    cases k <;>
    simp [BtBookmarksModel.sortEvery, BookmarkItemBase.children, BookmarkItemBase.isFolder,
      BookmarkItemBase.kind, sortEveryList_eq]

/-- The list function of `itemAt` is the look-up of the child followed by `itemAt`. -/
theorem itemAtList_eq (cs : List BookmarkItemBase) (n : Nat) (path : List Nat) :
    BookmarkItemBase.itemAtList cs n path = cs[n]?.bind (fun c => c.itemAt path) := by
  induction cs generalizing n with
  | nil => simp [BookmarkItemBase.itemAtList]
  | cons c rest ih =>
    cases n with
    | zero => simp [BookmarkItemBase.itemAtList]
    | succ n => simp [BookmarkItemBase.itemAtList, ih]

/-- The item at a path that starts with child `n`. -/
theorem itemAt_cons (i : BookmarkItemBase) (n : Nat) (path : List Nat) :
    i.itemAt (n :: path) = i.children[n]?.bind (fun c => c.itemAt path) := by
  cases i with
  | mk a k p t cs => simp [BookmarkItemBase.itemAt, itemAtList_eq, BookmarkItemBase.children]

/-- The item at the empty path is the item itself. -/
theorem itemAt_nil (i : BookmarkItemBase) : i.itemAt [] = some i := by
  cases i with
  | mk a k p t cs => simp [BookmarkItemBase.itemAt]

/-- After the sort of everything below an object its child list is a rearrangement of its
children, each sorted below. -/
theorem sortEvery_children_perm (Q : Qt) (hQ : Qt.SortsByText Q) (order : SortOrder)
    (i : BookmarkItemBase) :
    (BtBookmarksModel.sortEvery Q order i).children.Perm
      (i.children.map (BtBookmarksModel.sortEvery Q order)) := by
  rw [sortEvery_children]
  split
  · exact sortChildList_perm Q hQ order _
  · exact List.Perm.refl _

/-- The fields of the items of a list are those of the items sorted below. -/
theorem map_fields_sortEvery (Q : Qt) (order : SortOrder) (cs : List BookmarkItemBase) :
    (cs.map (BtBookmarksModel.sortEvery Q order)).map BookmarkItemBase.fields =
      cs.map BookmarkItemBase.fields := by
  simp [List.map_map, Function.comp_def, sortEvery_fields Q order]

/-- An object of the tree is found in the sorted tree, sorted below. -/
theorem sortEvery_item (Q : Qt) (hQ : Qt.SortsByText Q) (order : SortOrder) :
    ∀ (q : List Nat) (i g : BookmarkItemBase), i.itemAt q = some g →
      ∃ q1, (BtBookmarksModel.sortEvery Q order i).itemAt q1 =
        some (BtBookmarksModel.sortEvery Q order g) := by
  intro q
  induction q with
  | nil =>
    intro i g h
    rw [itemAt_nil] at h
    cases h
    exact ⟨[], itemAt_nil _⟩
  | cons n path ih =>
    intro i g h
    rw [itemAt_cons] at h
    cases hc : i.children[n]? with
    | none => rw [hc] at h; cases h
    | some c =>
      rw [hc] at h
      obtain ⟨q1, hq1⟩ := ih c g h
      have hmem : BtBookmarksModel.sortEvery Q order c ∈
          (BtBookmarksModel.sortEvery Q order i).children := by
        rw [(sortEvery_children_perm Q hQ order i).mem_iff]
        exact List.mem_map_of_mem _ (List.getElem?_mem hc)
      obtain ⟨n1, hn1⟩ := List.getElem?_of_mem hmem
      refine ⟨n1 :: q1, ?_⟩
      rw [itemAt_cons, hn1]
      exact hq1

/-- Replacing a child list below an object leaves its own fields. -/
theorem withChildrenAt_fields (cs1 : List BookmarkItemBase) (i : BookmarkItemBase)
    (p : List Nat) : (i.withChildrenAt cs1 p).fields = i.fields := by
  cases i with
  | mk a k pa t cs =>
    cases p <;>
    simp [BookmarkItemBase.withChildrenAt, BookmarkItemBase.fields, BookmarkItemBase.addr,
      BookmarkItemBase.kind, BookmarkItemBase.parent, BookmarkItemBase.text]

/-- The child on the path after the replacement. -/
theorem withChildrenAtList_same (cs1 cs : List BookmarkItemBase) (m : Nat) (ps : List Nat)
    (c0 : BookmarkItemBase) (h : cs[m]? = some c0) :
    (BookmarkItemBase.withChildrenAtList cs1 cs m ps)[m]? =
      some (c0.withChildrenAt cs1 ps) := by
  induction cs generalizing m with
  | nil => simp at h
  | cons c rest ih =>
    cases m with
    | zero =>
      simp at h
      simp [BookmarkItemBase.withChildrenAtList, h]
    | succ m =>
      simp at h
      simp [BookmarkItemBase.withChildrenAtList, ih m h]

/-- A child off the path is not touched by the replacement. -/
theorem withChildrenAtList_other (cs1 cs : List BookmarkItemBase) (m n : Nat)
    (ps : List Nat) (h : n ≠ m) :
    (BookmarkItemBase.withChildrenAtList cs1 cs m ps)[n]? = cs[n]? := by
  induction cs generalizing m n with
  | nil => simp [BookmarkItemBase.withChildrenAtList]
  | cons c rest ih =>
    cases m with
    | zero =>
      cases n with
      | zero => exact absurd rfl h
      | succ n => simp [BookmarkItemBase.withChildrenAtList]
    | succ m =>
      cases n with
      | zero => simp [BookmarkItemBase.withChildrenAtList]
      | succ n =>
        simp [BookmarkItemBase.withChildrenAtList]
        exact ih m n (fun e => h (by rw [e]))

/-- The fields of the items of a list are not touched by a replacement below them. -/
theorem withChildrenAtList_fields (cs1 cs : List BookmarkItemBase) (m : Nat)
    (ps : List Nat) :
    (BookmarkItemBase.withChildrenAtList cs1 cs m ps).map BookmarkItemBase.fields =
      cs.map BookmarkItemBase.fields := by
  induction cs generalizing m with
  | nil => simp [BookmarkItemBase.withChildrenAtList]
  | cons c rest ih =>
    cases m with
    | zero => simp [BookmarkItemBase.withChildrenAtList, withChildrenAt_fields cs1 c ps]
    | succ m => simp [BookmarkItemBase.withChildrenAtList, ih m]

/-- The child list of an object above the replaced child list. -/
theorem withChildrenAt_children_cons (cs1 : List BookmarkItemBase) (i : BookmarkItemBase)
    (m : Nat) (ps : List Nat) :
    (i.withChildrenAt cs1 (m :: ps)).children =
      BookmarkItemBase.withChildrenAtList cs1 i.children m ps := by
  cases i with
  | mk a k pa t cs => simp [BookmarkItemBase.withChildrenAt, BookmarkItemBase.children]

/-- The child list of the object whose child list is replaced. -/
theorem withChildrenAt_children_nil (cs1 : List BookmarkItemBase) (i : BookmarkItemBase) :
    (i.withChildrenAt cs1 []).children = cs1 := by
  cases i with
  | mk a k pa t cs => simp [BookmarkItemBase.withChildrenAt, BookmarkItemBase.children]

/-- An object of the tree is found in the tree with the child list at `parent` replaced
by a rearrangement of it: with the new child list when it is the object at `parent`, with
its child list as before otherwise. -/
theorem withChildrenAt_item (cs1 : List BookmarkItemBase) :
    ∀ (parent : List Nat) (i f : BookmarkItemBase) (q : List Nat) (g : BookmarkItemBase),
      i.itemAt parent = some f → cs1.Perm f.children → i.itemAt q = some g →
      ∃ q1 g1, (i.withChildrenAt cs1 parent).itemAt q1 = some g1 ∧ g1.fields = g.fields ∧
        (q = parent → q1 = parent ∧ g1.children = cs1) ∧
        (q ≠ parent →
          g1.children.map BookmarkItemBase.fields =
            g.children.map BookmarkItemBase.fields) := by
  intro parent
  induction parent with
  | nil =>
    intro i f q g hf hperm hg
    rw [itemAt_nil] at hf
    cases hf
    cases q with
    | nil =>
      rw [itemAt_nil] at hg
      cases hg
      exact ⟨[], i.withChildrenAt cs1 [], itemAt_nil _, withChildrenAt_fields cs1 i [],
        fun _ => ⟨rfl, withChildrenAt_children_nil cs1 i⟩, fun h => absurd rfl h⟩
    | cons n rest =>
      rw [itemAt_cons] at hg
      cases hc : i.children[n]? with
      | none => rw [hc] at hg; cases hg
      | some c =>
        rw [hc] at hg
        have hmem : c ∈ cs1 := hperm.mem_iff.mpr (List.getElem?_mem hc)
        obtain ⟨n1, hn1⟩ := List.getElem?_of_mem hmem
        refine ⟨n1 :: rest, g, ?_, rfl, (fun h => List.noConfusion h), fun _ => rfl⟩
        rw [itemAt_cons, withChildrenAt_children_nil, hn1]
        exact hg
  | cons m ps ih =>
    intro i f q g hf hperm hg
    rw [itemAt_cons] at hf
    cases hc0 : i.children[m]? with
    | none => rw [hc0] at hf; cases hf
    | some c0 =>
      rw [hc0] at hf
      cases q with
      | nil =>
        rw [itemAt_nil] at hg
        cases hg
        refine ⟨[], i.withChildrenAt cs1 (m :: ps), itemAt_nil _,
          withChildrenAt_fields cs1 i (m :: ps), (fun h => List.noConfusion h), fun _ => ?_⟩
        rw [withChildrenAt_children_cons, withChildrenAtList_fields]
      | cons n rest =>
        rw [itemAt_cons] at hg
        by_cases hnm : n = m
        · subst hnm
          rw [hc0] at hg
          obtain ⟨q1, g1, hq1, h1, h5, h6⟩ := ih c0 f rest g hf hperm hg
          refine ⟨n :: q1, g1, ?_, h1, ?_, ?_⟩
          · rw [itemAt_cons, withChildrenAt_children_cons,
              withChildrenAtList_same cs1 _ n ps c0 hc0]
            exact hq1
          · intro h
            have hr : rest = ps := (List.cons.inj h).2
            obtain ⟨e1, e2⟩ := h5 hr
            exact ⟨by rw [e1], e2⟩
          · intro h
            exact h6 (fun e => h (by rw [e]))
        · refine ⟨n :: rest, g, ?_, rfl, ?_, fun _ => rfl⟩
          · rw [itemAt_cons, withChildrenAt_children_cons,
              withChildrenAtList_other cs1 _ m n ps hnm]
            exact hg
          · intro h
            exact absurd (List.cons.inj h).1 hnm

/-- `sort` on the invalid index sorts below every folder of the tree. -/
theorem sort_root (Q : Qt) (order : SortOrder) (root : BookmarkItemBase)
    (h : root.isFolder = true) :
    BtBookmarksModel.sort Q root [] order = BtBookmarksModel.sortEvery Q order root := by
  simp [BtBookmarksModel.sort, itemAt_nil, h]

/-- `sort` on the index of a folder other than the root replaces the child list of that
folder by the sorted one. -/
theorem sort_folder (Q : Qt) (order : SortOrder) (root f : BookmarkItemBase) (m : Nat)
    (ps : List Nat) (hf : root.itemAt (m :: ps) = some f) (h : f.isFolder = true) :
    BtBookmarksModel.sort Q root (m :: ps) order =
      root.withChildrenAt (BtBookmarksModel.sortChildList Q order f.children) (m :: ps) := by
  simp [BtBookmarksModel.sort, hf, h]

/-- C25: `sort(parent, order)` on the index of a folder `f` of the tree below `root`.
Every object `g` of the tree before the call is an object `g1` of the tree afterwards,
with its own fields unchanged and with a child list that is a permutation of the one
before.  The child list of the folder itself is ordered by text.  When `parent` is the
root (the empty path), the child list of every folder is ordered and the child list of
an object that is not a folder is unchanged; when `parent` is another folder, the child
list of every other object is unchanged. -/
theorem sort_orders_child_lists (Q : Qt) (hQ : Qt.SortsByText Q) (root : BookmarkItemBase)
    (parent : List Nat) (order : SortOrder) (f : BookmarkItemBase)
    (hf : root.itemAt parent = some f) (hfolder : f.isFolder = true)
    (q : List Nat) (g : BookmarkItemBase) (hg : root.itemAt q = some g) :
    ∃ q1 g1, (BtBookmarksModel.sort Q root parent order).itemAt q1 = some g1 ∧
      g1.fields = g.fields ∧
      (g1.children.map BookmarkItemBase.fields).Perm
        (g.children.map BookmarkItemBase.fields) ∧
      (q = parent → BtBookmarksModel.ordered Q order g1.children) ∧
      (parent = [] → g.isFolder = true → BtBookmarksModel.ordered Q order g1.children) ∧
      (parent = [] → g.isFolder = false →
        g1.children.map BookmarkItemBase.fields = g.children.map BookmarkItemBase.fields) ∧
      (parent ≠ [] → q ≠ parent →
        g1.children.map BookmarkItemBase.fields =
          g.children.map BookmarkItemBase.fields) := by
  cases parent with
  | nil =>
    rw [itemAt_nil] at hf
    cases hf
    rw [sort_root Q order root hfolder]
    obtain ⟨q1, hq1⟩ := sortEvery_item Q hQ order q root g hg
    have hord : g.isFolder = true →
        BtBookmarksModel.ordered Q order (BtBookmarksModel.sortEvery Q order g).children := by
      intro hgf
      rw [sortEvery_children, if_pos hgf]
      exact sortChildList_ordered Q hQ order _
    refine ⟨q1, _, hq1, sortEvery_fields Q order g, ?_, ?_, fun _ => hord, ?_,
      fun h => absurd rfl h⟩
    · have h := (sortEvery_children_perm Q hQ order g).map BookmarkItemBase.fields
      rw [map_fields_sortEvery] at h
      exact h
    · intro hq
      subst hq
      rw [itemAt_nil] at hg
      cases hg
      exact hord hfolder
    · intro _ hgf
      rw [sortEvery_children, hgf]
      simp only [Bool.false_eq_true, if_false]
      exact map_fields_sortEvery Q order _
  | cons m ps =>
    rw [sort_folder Q order root f m ps hf hfolder]
    obtain ⟨q1, g1, hq1, h1, h2, h3⟩ :=
      withChildrenAt_item (BtBookmarksModel.sortChildList Q order f.children) (m :: ps)
        root f q g hf (sortChildList_perm Q hQ order _) hg
    refine ⟨q1, g1, hq1, h1, ?_, ?_, (fun h => List.noConfusion h),
      (fun h => List.noConfusion h), fun _ hq => h3 hq⟩
    · by_cases hq : q = m :: ps
      · rw [(h2 hq).2]
        subst hq
        rw [hf] at hg
        cases hg
        exact (sortChildList_perm Q hQ order _).map _
      · rw [h3 hq]
    · intro hq
      rw [(h2 hq).2]
      exact sortChildList_ordered Q hQ order _

/-- `demoCompare` is negative when the first text is the smaller one. -/
theorem demoCompare_neg (a b : String) : demoCompare a b < 0 ↔ a.data < b.data := by
  unfold demoCompare
  split_ifs with h1 h2 <;> simp [h1]

/-- `demoCompare` is positive when the first text is the greater one. -/
theorem demoCompare_pos (a b : String) : demoCompare a b > 0 ↔ b.data < a.data := by
  unfold demoCompare
  split_ifs with h1 h2
  · simp [lt_asymm h1]
  · simp [h2]
  · simp [h2]

/-- The reference instance of the Qt operations sorts by text. -/
theorem demoQt_sortsByText : Qt.SortsByText demoQt := by
  refine ⟨?_, ?_, ?_⟩
  · intro order texts
    exact List.perm_insertionSort _ _
  · intro order texts
    have htot : IsTotal Nat (fun i j =>
        BtBookmarksModel.lessThan demoQt order (texts.getD j "") (texts.getD i "") = false) := by
      constructor
      intro i j
      cases order <;>
      simp only [BtBookmarksModel.lessThan, BtBookmarksModelSortAscending,
        BtBookmarksModelSortDescending, demoQt, decide_eq_false_iff_not,
        demoCompare_neg, demoCompare_pos, not_lt] <;>
      exact le_total _ _
    have htr : IsTrans Nat (fun i j =>
        BtBookmarksModel.lessThan demoQt order (texts.getD j "") (texts.getD i "") = false) := by
      constructor
      intro i j k
      cases order <;>
      simp only [BtBookmarksModel.lessThan, BtBookmarksModelSortAscending,
        BtBookmarksModelSortDescending, demoQt, decide_eq_false_iff_not,
        demoCompare_neg, demoCompare_pos, not_lt] <;>
      intro h1 h2
      · exact le_trans h1 h2
      · exact le_trans h2 h1
    exact (List.sorted_insertionSort _ _).chain'
  · intro a b
    show demoCompare a b > 0 ↔ demoCompare b a < 0
    rw [demoCompare_pos, demoCompare_neg]

/-- Evaluation of `sort` on the root of `demoTree`, ascending: the bookmark `In the
beginning` comes before the folder `Psalms`. -/
theorem sort_demoTree :
    BtBookmarksModel.sort demoQt demoTree [] SortOrder.AscendingOrder =
      .mk 1 ItemKind.folder none "Root"
        [.mk 3 (ItemKind.bookmark "Gen 1:1" "Creation" "NASB") (some 1) "In the beginning" [],
         .mk 2 ItemKind.folder (some 1) "Psalms" []] := by
  rfl

/-- C25 at `demoTree`, sorted from the root in ascending order, for the root folder. -/
theorem sort_orders_child_lists_witness :
    Qt.SortsByText demoQt ∧ demoTree.itemAt [] = some demoTree ∧ demoTree.isFolder = true ∧
    ∃ q1 g1,
      (BtBookmarksModel.sort demoQt demoTree [] SortOrder.AscendingOrder).itemAt q1 = some g1 ∧
      g1.fields = demoTree.fields ∧
      (g1.children.map BookmarkItemBase.fields).Perm
        (demoTree.children.map BookmarkItemBase.fields) ∧
      (([] : List Nat) = [] → BtBookmarksModel.ordered demoQt SortOrder.AscendingOrder g1.children) ∧
      (([] : List Nat) = [] → demoTree.isFolder = true →
        BtBookmarksModel.ordered demoQt SortOrder.AscendingOrder g1.children) ∧
      (([] : List Nat) = [] → demoTree.isFolder = false →
        g1.children.map BookmarkItemBase.fields =
          demoTree.children.map BookmarkItemBase.fields) ∧
      (([] : List Nat) ≠ [] → ([] : List Nat) ≠ [] →
        g1.children.map BookmarkItemBase.fields =
          demoTree.children.map BookmarkItemBase.fields) :=
  ⟨demoQt_sortsByText, rfl, rfl,
    sort_orders_child_lists demoQt demoQt_sortsByText demoTree [] SortOrder.AscendingOrder
      demoTree rfl rfl [] demoTree rfl⟩
